import Mathlib

/-!
# NSTAX nano station: serial line reader and command dispatchers

A shallow embedding of the three Arduino sketches under `static/nano_station`
(`magnet.cpp`, `motor.cpp`, `motor_magnet.cpp`) and the properties of their
line reader and command dispatchers.

* A byte is a `Fin 256`; the `int` variables of the sketches are `Int`.
* The UART receive queue is a list of bytes: `Serial.available() > 0` holds
  when the list is non-empty and `Serial.read()` removes its head.
* The hardware millisecond counter is a function `clock : Nat → Nat`: the
  value of the counter at the `i`-th call of `millis()`, of which `millis()`
  returns the low 32 bits. A state counts the calls made so far (`polls`).
* A busy-wait `while (millis() - startTime < D);` is run with fuel, the
  largest number of polls the model follows.
* Effects on the outside world are recorded as a list of `Event`s.
-/

namespace NanoStation

/-! ## Line reader (`_processString`, the same text in the three sketches) -/

/-- One byte of the serial link or of the line buffer (`char`, `byte`). -/
abbrev Byte := Fin 256

/-- Source: `const byte numChars = 32;` -/
def numChars : Nat := 32

/-- Source: `char endMarker = '\n';` -/
def endMarker : Byte := 10

/-- The state read and written by `_processString`: the global line buffer
`receivedChars`, the function's `static byte ndx`, the global flag `newData`,
and the bytes waiting in the UART (`serial`). -/
structure Reader where
  receivedChars : List Byte
  ndx : Nat
  newData : Bool
  serial : List Byte
deriving DecidableEq, Repr

/-- Source: `void _processString()`: when a byte is available, read exactly one; store
it at the cursor and advance the cursor (a `byte`, pinned to `numChars - 1`),
or, on the end marker, write the NUL terminator at the cursor, reset the cursor
and raise `newData`. -/
def _processString (r : Reader) : Reader :=
  match r.serial with
  | [] => r
  | rc :: rest =>
    if rc ≠ endMarker then
      let ndx1 := (r.ndx + 1) % 256
      { r with
        receivedChars := r.receivedChars.set r.ndx rc
        ndx := if ndx1 ≥ numChars then numChars - 1 else ndx1
        serial := rest }
    else
      { r with
        receivedChars := r.receivedChars.set r.ndx 0
        ndx := 0
        newData := true
        serial := rest }

/-- The reader invoked `n` times in a row. -/
def readN : Nat → Reader → Reader
  | 0, r => r
  | n + 1, r => readN n (_processString r)

/-- The NUL-terminated string that starts at the first slot of a buffer: what
`Serial.println(receivedChars)` prints and `atoi(receivedChars)` parses. -/
def cstr (buf : List Byte) : List Byte :=
  buf.takeWhile (fun c => c ≠ 0)

/-! ## Hardware and library interface -/

/-- Arduino's `HIGH`. -/
def HIGH : Nat := 1

/-- Arduino's `LOW`. -/
def LOW : Nat := 0

/-- What a sketch does to the outside world, in program order. `hold D` marks
the exit of a busy-wait `while (millis() - startTime < D);`. -/
inductive Event where
  | serialBegin (baud : Nat)
  | pinMode (pin : Int)
  | digitalWrite (pin : Int) (level : Nat)
  | analogWrite (pin : Int) (val : Int)
  | hold (ms : Nat)
  | printlnBuf (text : List Byte)
  | print (text : String)
  | println (text : String)
  | printlnPercent (dataNumber : Int)
deriving DecidableEq, Repr

/-- How a call ends: it returns with a new state, or `resetFunc()` jumps to
address 0 and control never comes back, or a busy-wait is still spinning when
the fuel is spent. Each case carries the events of the call. -/
inductive Outcome (σ : Type) where
  | returned (s : σ) (tr : List Event)
  | reset (tr : List Event)
  | spinning (tr : List Event)
deriving DecidableEq, Repr

/-- The events of a call, however it ended. -/
def Outcome.trace {σ : Type} : Outcome σ → List Event
  | .returned _ tr => tr
  | .reset tr => tr
  | .spinning tr => tr

/-- An outcome with earlier events put in front of its own. -/
def Outcome.after {σ : Type} (pre : List Event) : Outcome σ → Outcome σ
  | .returned s tr => .returned s (pre ++ tr)
  | .reset tr => .reset (pre ++ tr)
  | .spinning tr => .spinning (pre ++ tr)

/-- The run of `n` ticks of a `loop` function in a row; a reset or a spent busy-wait ends
the run. -/
def runTicks {σ : Type} (tick : σ → Outcome σ) : Nat → σ → Outcome σ
  | 0, s => .returned s []
  | n + 1, s =>
    match tick s with
    | .returned s1 tr1 => (runTicks tick n s1).after tr1
    | .reset tr1 => .reset tr1
    | .spinning tr1 => .spinning tr1

/-- An event that drives or times an actuator: a pin write or a hold. -/
def Event.isActuation : Event → Bool
  | .digitalWrite _ _ => true
  | .analogWrite _ _ => true
  | .hold _ => true
  | _ => false

/-- The actuator sequence of a trace: its pin writes and holds, in order. -/
def actuation (tr : List Event) : List Event :=
  tr.filter Event.isActuation

/-- Arduino's `millis()`: the low 32 bits of the millisecond counter at poll `polls`. -/
def millis (clock : Nat → Nat) (polls : Nat) : Nat :=
  clock polls % 2 ^ 32

/-- The difference `now - startTime` on two `unsigned long` values. -/
def elapsed (now startTime : Nat) : Nat :=
  (now + 2 ^ 32 - startTime) % 2 ^ 32

/-- The loop `while (millis() - startTime < D);` from poll number `polls` on, following
at most `fuel` polls: the number of polls made once the loop has exited. -/
def busyWait (clock : Nat → Nat) (startTime D : Nat) : Nat → Nat → Option Nat
  | 0, _ => none
  | fuel + 1, polls =>
    if elapsed (millis clock polls) startTime < D then
      busyWait clock startTime D fuel (polls + 1)
    else
      some (polls + 1)

/-- White space as `atoi` skips it: space and the controls 9 to 13. -/
def isSpace (c : Byte) : Bool :=
  c.val = 32 || (9 ≤ c.val && c.val ≤ 13)

/-- The digit loop of `atoi`: the accumulator is a 16-bit register. -/
def atoiDigits : List Byte → Nat → Nat
  | [], acc => acc
  | c :: cs, acc =>
    if 48 ≤ c.val ∧ c.val ≤ 57 then
      atoiDigits cs ((acc * 10 + (c.val - 48)) % 65536)
    else
      acc

/-- A 16-bit register read as an `int`. -/
def toInt16 (n : Nat) : Int :=
  if n % 65536 < 32768 then (n % 65536 : Nat) else (n % 65536 : Nat) - 65536

/-- The C library's `atoi` on a target whose `int` has 16 bits (the AVR of the
nano station): skip white space, take an optional sign, read decimal digits up
to the first other byte; no digit gives 0. -/
def atoi (s : List Byte) : Int :=
  match s.dropWhile isSpace with
  | [] => 0
  | c :: cs =>
    if c = 45 then toInt16 (65536 - atoiDigits cs 0)
    else if c = 43 then toInt16 (atoiDigits cs 0)
    else toInt16 (atoiDigits (c :: cs) 0)

/-! ## `magnet.cpp`: the single-magnet sketch -/

namespace Magnet

/-- Source: `const int digPin = 8;` -/
def digPin : Int := 8

/-- The globals of `magnet.cpp`, the reader's state, and the count of
`millis()` calls made so far. -/
structure State extends Reader where
  dataNumber : Int
  polls : Nat
deriving DecidableEq, Repr

/-- Source: `void ProcessMagInput()` -/
def ProcessMagInput (clock : Nat → Nat) (fuel : Nat) (s : State) : Outcome State :=
  if s.newData = true then
    let s0 : State := { s with dataNumber := atoi (cstr s.receivedChars) }
    let tr0 := [Event.printlnBuf (cstr s.receivedChars)]
    if s0.dataNumber = 0 then
      .returned { s0 with newData := false }
        (tr0 ++ [.digitalWrite digPin HIGH, .println "Magnet OFF"])
    else if s0.dataNumber = 1 then
      let tr1 := tr0 ++ [.println "Magnet ON", .digitalWrite digPin LOW]
      match busyWait clock (millis clock s0.polls) 10000 fuel (s0.polls + 1) with
      | none => .spinning tr1
      | some polls1 =>
        .returned { s0 with dataNumber := 1, newData := false, polls := polls1 }
          (tr1 ++ [.hold 10000, .digitalWrite digPin HIGH, .println "Magnet OFF"])
    else if s0.dataNumber = -1 then
      .reset tr0
    else
      .returned { s0 with newData := false } (tr0 ++ [.println "Invalid input."])
  else
    .returned s []

/-- The zero-initialised globals with `bytes` waiting in the UART. -/
def initial (bytes : List Byte) : State :=
  { receivedChars := List.replicate numChars 0, ndx := 0, newData := false,
    serial := bytes, dataNumber := 0, polls := 0 }

/-- Source: `void setup()` -/
def setup : List Event :=
  [.serialBegin 9600, .println "\nNANOSTATION_M",
   .println "\n<Magnet Station is ready for launch!>",
   .println "\nTrigger magnet on (1) for 10 seconds or type (-1) to reset the device.",
   .pinMode digPin, .digitalWrite digPin HIGH]

/-- Source: `void loop()`: one tick. -/
def loop (clock : Nat → Nat) (fuel : Nat) (s : State) : Outcome State :=
  ProcessMagInput clock fuel { s with toReader := _processString s.toReader }

end Magnet

/-! ## `motor.cpp`: the single-motor sketch -/

namespace Motor

/-- Source: `const int pwmPin = 9;` -/
def pwmPin : Int := 9

/-- The globals of `motor.cpp`, the reader's state, and the count of
`millis()` calls made so far. -/
structure State extends Reader where
  dataNumber : Int
  prevNumber : Int
  polls : Nat
deriving DecidableEq, Repr

/-- The statements of `ProcessSpeedInput` after its `switch`: the comparison
with the last applied value, the settle delay and the write of the new duty. -/
def applySpeed (clock : Nat → Nat) (fuel : Nat) (s : State) (tr : List Event) :
    Outcome State :=
  if s.dataNumber = s.prevNumber then
    .returned { s with newData := false }
      (tr ++ [.println "No change in speed. Keeping the previous setting."])
  else
    let tr1 := tr ++ [.print "Changing speed ... ", .analogWrite pwmPin 0]
    match busyWait clock (millis clock s.polls) 1000 fuel (s.polls + 1) with
    | none => .spinning tr1
    | some polls1 =>
      .returned { s with prevNumber := s.dataNumber, newData := false, polls := polls1 }
        (tr1 ++ [.hold 1000, .print "Setting motor speed to ... ",
          .printlnPercent s.dataNumber, .analogWrite pwmPin s.dataNumber])

/-- Source: `void ProcessSpeedInput()` -/
def ProcessSpeedInput (clock : Nat → Nat) (fuel : Nat) (s : State) : Outcome State :=
  if s.newData = true then
    let s0 : State := { s with dataNumber := atoi (cstr s.receivedChars) }
    let tr0 := [Event.printlnBuf (cstr s.receivedChars)]
    if s0.dataNumber = 0 then
      applySpeed clock fuel { s0 with dataNumber := 0 } tr0
    else if s0.dataNumber = 1 then
      applySpeed clock fuel { s0 with dataNumber := 150 } tr0
    else if s0.dataNumber = 2 then
      applySpeed clock fuel { s0 with dataNumber := 160 } tr0
    else if s0.dataNumber = 3 then
      applySpeed clock fuel { s0 with dataNumber := 210 } tr0
    else if s0.dataNumber = 4 then
      applySpeed clock fuel { s0 with dataNumber := 220 } tr0
    else if s0.dataNumber = -1 then
      .reset tr0
    else
      .returned { s0 with newData := false }
        (tr0 ++ [.println "Invalid input. Please enter a number between 0 and 4."])
  else
    .returned s []

/-- The zero-initialised globals with `bytes` waiting in the UART. -/
def initial (bytes : List Byte) : State :=
  { receivedChars := List.replicate numChars 0, ndx := 0, newData := false,
    serial := bytes, dataNumber := 0, prevNumber := 0, polls := 0 }

/-- Source: `void setup()` -/
def setup : List Event :=
  [.serialBegin 9600, .println "\nNANOSTATION_V",
   .println "\n<Vibration Station is ready for launch!>",
   .println "\nSet vibration motor speed (0-4) or type -1 to reset the device.",
   .pinMode pwmPin, .analogWrite pwmPin 0]

/-- Source: `void loop()`: one tick. -/
def loop (clock : Nat → Nat) (fuel : Nat) (s : State) : Outcome State :=
  ProcessSpeedInput clock fuel { s with toReader := _processString s.toReader }

end Motor

/-! ## `motor_magnet.cpp`: the dual motor and magnet sketch -/

namespace MotorMagnet

/-- Source: `const int relayB = 2;` -/
def relayB : Int := 2

/-- Source: `const int relayA = 3;` -/
def relayA : Int := 3

/-- Source: `const int enablePinA = 5;` -/
def enablePinA : Int := 5

/-- Source: `const int pwmPinA = 6;` -/
def pwmPinA : Int := 6

/-- Source: `const int gndPinA = 7;` -/
def gndPinA : Int := 7

/-- Source: `const int enablePinB = 9;` -/
def enablePinB : Int := 9

/-- Source: `const int pwmPinB = 10;` -/
def pwmPinB : Int := 10

/-- Source: `const int gndPinB = 11;` -/
def gndPinB : Int := 11

def CASE_MOTOR_A_SPEED_OFF : Int := 0
def CASE_MOTOR_A_SPEED_LOW : Int := 1
def CASE_MOTOR_A_SPEED_MEDIUM : Int := 2
def CASE_MOTOR_A_SPEED_HIGH : Int := 3
def CASE_MOTOR_B_SPEED_OFF : Int := 10
def CASE_MOTOR_B_SPEED_LOW : Int := 11
def CASE_MOTOR_B_SPEED_MEDIUM : Int := 12
def CASE_MOTOR_B_SPEED_HIGH : Int := 13
def CASE_MAGNET_A_ON : Int := 30
def CASE_MAGNET_A_OFF : Int := 31
def CASE_MAGNET_B_ON : Int := 20
def CASE_MAGNET_B_OFF : Int := 21

def SPEED_OFF : Int := 0
def SPEED_LOW : Int := 80
def SPEED_MEDIUM : Int := 90
def SPEED_HIGH : Int := 100

/-- Source: `const unsigned long MAGNET_TIMEOUT = 10000;` -/
def MAGNET_TIMEOUT : Nat := 10000

/-- The globals of `motor_magnet.cpp`, the reader's state, and the count of
`millis()` calls made so far. -/
structure State extends Reader where
  startTime : Nat
  pwmPin : Int
  prevPin : Int
  rcvdNumber : Int
  dataNumber : Int
  prevNumber : Int
  polls : Nat
deriving DecidableEq, Repr

/-- The statements of `ProcessSpeedInput` after its `switch` ("Motor Operation
Logic"): the comparison with the last applied duty and pin, the settle delay
and the write of the new duty. -/
def applySpeed (clock : Nat → Nat) (fuel : Nat) (s : State) (tr : List Event) :
    Outcome State :=
  if s.dataNumber = s.prevNumber ∧ s.pwmPin = s.prevPin then
    .returned { s with newData := false }
      (tr ++ [.println "No change in speed. Keeping the previous setting."])
  else
    let tr1 := tr ++ [.print "Changing speed ... ", .analogWrite s.pwmPin 0]
    match busyWait clock (millis clock s.polls) 1000 fuel (s.polls + 1) with
    | none => .spinning tr1
    | some polls1 =>
      .returned
        { s with
          prevNumber := s.dataNumber, prevPin := s.pwmPin, newData := false, polls := polls1 }
        (tr1 ++ [.hold 1000, .print "Setting motor speed to ... ",
          .printlnPercent s.dataNumber, .analogWrite s.pwmPin s.dataNumber])

/-- Source: `void ProcessSpeedInput()` -/
def ProcessSpeedInput (clock : Nat → Nat) (fuel : Nat) (s : State) : Outcome State :=
  if s.newData = true then
    let s0 : State := { s with rcvdNumber := atoi (cstr s.receivedChars) }
    let tr0 := [Event.printlnBuf (cstr s.receivedChars)]
    if s0.rcvdNumber = CASE_MOTOR_A_SPEED_OFF then
      applySpeed clock fuel { s0 with dataNumber := SPEED_OFF, pwmPin := pwmPinA } tr0
    else if s0.rcvdNumber = CASE_MOTOR_A_SPEED_LOW then
      applySpeed clock fuel { s0 with dataNumber := SPEED_LOW, pwmPin := pwmPinA } tr0
    else if s0.rcvdNumber = CASE_MOTOR_A_SPEED_MEDIUM then
      applySpeed clock fuel { s0 with dataNumber := SPEED_MEDIUM, pwmPin := pwmPinA } tr0
    else if s0.rcvdNumber = CASE_MOTOR_A_SPEED_HIGH then
      applySpeed clock fuel { s0 with dataNumber := SPEED_HIGH, pwmPin := pwmPinA } tr0
    else if s0.rcvdNumber = CASE_MOTOR_B_SPEED_OFF then
      applySpeed clock fuel { s0 with dataNumber := SPEED_OFF, pwmPin := pwmPinB } tr0
    else if s0.rcvdNumber = CASE_MOTOR_B_SPEED_LOW then
      applySpeed clock fuel { s0 with dataNumber := SPEED_LOW, pwmPin := pwmPinB } tr0
    else if s0.rcvdNumber = CASE_MOTOR_B_SPEED_MEDIUM then
      applySpeed clock fuel { s0 with dataNumber := SPEED_MEDIUM, pwmPin := pwmPinB } tr0
    else if s0.rcvdNumber = CASE_MOTOR_B_SPEED_HIGH then
      applySpeed clock fuel { s0 with dataNumber := SPEED_HIGH, pwmPin := pwmPinB } tr0
    else if s0.rcvdNumber = CASE_MAGNET_A_OFF then
      .returned { s0 with newData := false }
        (tr0 ++ [.digitalWrite relayA LOW, .println "Magnet A - OFF"])
    else if s0.rcvdNumber = CASE_MAGNET_A_ON then
      let tr1 := tr0 ++ [.println "Magnet A - ON", .digitalWrite relayA HIGH]
      let s1 : State := { s0 with startTime := millis clock s0.polls, polls := s0.polls + 1 }
      match busyWait clock s1.startTime MAGNET_TIMEOUT fuel s1.polls with
      | none => .spinning tr1
      | some polls1 =>
        .returned { s1 with newData := false, polls := polls1 }
          (tr1 ++ [.hold MAGNET_TIMEOUT, .digitalWrite relayA LOW, .println "Magnet A - OFF"])
    else if s0.rcvdNumber = CASE_MAGNET_B_OFF then
      .returned { s0 with newData := false }
        (tr0 ++ [.digitalWrite relayB LOW, .println "Magnet B - OFF"])
    else if s0.rcvdNumber = CASE_MAGNET_B_ON then
      let tr1 := tr0 ++ [.println "Magnet B - ON", .digitalWrite relayB HIGH]
      let s1 : State := { s0 with startTime := millis clock s0.polls, polls := s0.polls + 1 }
      match busyWait clock s1.startTime MAGNET_TIMEOUT fuel s1.polls with
      | none => .spinning tr1
      | some polls1 =>
        .returned { s1 with newData := false, polls := polls1 }
          (tr1 ++ [.hold MAGNET_TIMEOUT, .digitalWrite relayB LOW, .println "Magnet B - OFF"])
    else if s0.rcvdNumber = -1 then
      .reset tr0
    else
      .returned { s0 with newData := false }
        (tr0 ++ [.println "Invalid input. Please enter a number between 0 and 4."])
  else
    .returned s []

/-- The zero-initialised globals with `bytes` waiting in the UART. -/
def initial (bytes : List Byte) : State :=
  { receivedChars := List.replicate numChars 0, ndx := 0, newData := false,
    serial := bytes, startTime := 0, pwmPin := 0, prevPin := 0, rcvdNumber := 0,
    dataNumber := 0, prevNumber := 0, polls := 0 }

/-- Source: `void setup()` -/
def setup : List Event :=
  [.serialBegin 9600, .println "\nNANOSTATION_MV",
   .println "\n<Vibration/Magnet Station is ready for launch!>",
   .println ("\nSet vibration motor speed Motor A:(0-3), Motor B:(10-13)" ++
     "\nSet Magnet A:(20-21) Magnet B:(30-31)\nType (-1) to reset the device."),
   .pinMode relayA, .pinMode relayB, .pinMode enablePinA, .pinMode enablePinB,
   .pinMode pwmPinA, .pinMode pwmPinB, .pinMode gndPinA, .pinMode gndPinB,
   .digitalWrite relayA LOW, .digitalWrite relayB LOW,
   .digitalWrite enablePinA LOW, .digitalWrite enablePinB LOW,
   .analogWrite pwmPinA 0, .analogWrite pwmPinB 0,
   .digitalWrite gndPinA LOW, .digitalWrite gndPinB LOW,
   .digitalWrite enablePinA HIGH, .digitalWrite enablePinB HIGH]

/-- Source: `void loop()`: one tick. -/
def loop (clock : Nat → Nat) (fuel : Nat) (s : State) : Outcome State :=
  ProcessSpeedInput clock fuel { s with toReader := _processString s.toReader }

end MotorMagnet

/-! ## Reading a trace -/

/-- One step of `lastAnalog`: an `analogWrite` replaces what was remembered. -/
def lastAnalogStep (acc : Option (Int × Int)) : Event → Option (Int × Int)
  | .analogWrite pin val => some (pin, val)
  | _ => acc

/-- The pin and duty of the most recent `analogWrite` of a trace, if any. -/
def lastAnalog (tr : List Event) : Option (Int × Int) :=
  tr.foldl lastAnalogStep none

/-- The duty most recently written to one PWM pin in a trace, if any. -/
def lastDutyOn (pin : Int) (tr : List Event) : Option Int :=
  tr.foldl
    (fun acc e =>
      match e with
      | .analogWrite p val => if p = pin then some val else acc
      | _ => acc)
    none

/-- The debounce record of the dual sketch read against a trace of dispatches:
`prevPin` and `prevNumber` are the pin and duty of the most recent analog
write, and are still 0 and 0 when no analog write was made. -/
def MotorMagnet.RecordMatches (s : MotorMagnet.State) (tr : List Event) : Prop :=
  (lastAnalog tr = none ∧ s.prevPin = 0 ∧ s.prevNumber = 0) ∨
    lastAnalog tr = some (s.prevPin, s.prevNumber)

/-! ## Clock assumption -/

/-- The hold started at poll `polls` comes to an end: some later poll reads a
counter at least `D` ms past the reading of poll `polls`. -/
def Expires (clock : Nat → Nat) (polls D : Nat) : Prop :=
  ∃ j, polls < j ∧ D ≤ elapsed (millis clock j) (millis clock polls)

/-! ## The parsing rule of the spec -/

/-- A decimal digit. -/
def isDigit (c : Byte) : Bool :=
  48 ≤ c.val && c.val ≤ 57

/-- The number that a run of leading decimal digits denotes, as a mathematical
natural number (no machine width), continuing from `acc`. -/
def digitsValue : List Byte → Nat → Nat
  | [], acc => acc
  | c :: cs, acc =>
    if 48 ≤ c.val ∧ c.val ≤ 57 then digitsValue cs (acc * 10 + (c.val - 48)) else acc

/-- The leading-numeric-prefix integer value of a line, by the rule the spec
names ("leading numeric prefix, else zero"): after optional leading white space
and an optional sign, the decimal digits up to the first other byte, read as a
mathematical integer; no digit gives zero. -/
def prefixValue (s : List Byte) : Int :=
  match s.dropWhile isSpace with
  | [] => 0
  | c :: cs =>
    if c = 45 then -(digitsValue cs 0 : Int)
    else if c = 43 then (digitsValue cs 0 : Int)
    else (digitsValue (c :: cs) 0 : Int)

/-- A line that is empty or has no leading numeric prefix: after optional
leading white space and an optional sign, no digit comes next. -/
def noNumericPrefix (s : List Byte) : Bool :=
  match s.dropWhile isSpace with
  | [] => true
  | c :: cs =>
    if c = 45 ∨ c = 43 then
      match cs with
      | [] => true
      | d :: _ => !isDigit d
    else !isDigit c

/-- Two outcomes that agree on everything the actuators and the next dispatch
can see: they end the same way, with the same pin writes and holds, and, when
they return, in states that `same` relates. -/
def Outcome.sameActuation {σ : Type} (same : σ → σ → Prop) : Outcome σ → Outcome σ → Prop
  | .returned s1 tr1, .returned s2 tr2 => same s1 s2 ∧ actuation tr1 = actuation tr2
  | .reset tr1, .reset tr2 => actuation tr1 = actuation tr2
  | .spinning tr1, .spinning tr2 => actuation tr1 = actuation tr2
  | _, _ => False

/-- Two single-magnet states that differ in the line buffer at most. -/
def Magnet.sameButLine (s1 s2 : Magnet.State) : Prop :=
  s2 = { s1 with receivedChars := s2.receivedChars }

/-- Two single-motor states that differ in the line buffer at most. -/
def Motor.sameButLine (s1 s2 : Motor.State) : Prop :=
  s2 = { s1 with receivedChars := s2.receivedChars }

/-- Two dual-sketch states that differ in the line buffer at most. -/
def MotorMagnet.sameButLine (s1 s2 : MotorMagnet.State) : Prop :=
  s2 = { s1 with receivedChars := s2.receivedChars }

/-! ## Streams, lines and runs -/

/-- The lines of a stream that are closed by an end marker, in order, when
`cur` is the part of the first line that was read before; bytes after the last
end marker belong to no complete line. -/
def completeLinesFrom : List Byte → List Byte → List (List Byte)
  | _, [] => []
  | cur, b :: bs =>
    if b = endMarker then cur :: completeLinesFrom [] bs
    else completeLinesFrom (cur ++ [b]) bs

/-- The end-marker-delimited lines of a stream, in order. -/
def completeLines (bytes : List Byte) : List (List Byte) :=
  completeLinesFrom [] bytes

/-- The part of the line in progress once `bytes` have been read after `cur`. -/
def curAfter : List Byte → List Byte → List Byte
  | cur, [] => cur
  | cur, b :: bs => if b = endMarker then curAfter [] bs else curAfter (cur ++ [b]) bs

/-- The string the dispatcher finds for a line of the stream: its first 31
bytes, read as a NUL-terminated string. -/
def pendingOf (line : List Byte) : List Byte :=
  cstr (line.take 31)

/-- A stream without reset command: no complete line parses to -1. -/
def NoResetCommand (bytes : List Byte) : Prop :=
  ∀ l ∈ completeLines bytes, atoi (pendingOf l) ≠ -1

/-- A clock under which every hold comes to an end, whichever poll starts it. -/
def Live (clock : Nat → Nat) : Prop :=
  ∀ polls, Expires clock polls 10000

/-- The lines echoed in a trace (`Serial.println(receivedChars)`), in order:
one per dispatch. -/
def echoes (tr : List Event) : List (List Byte) :=
  tr.filterMap
    (fun e =>
      match e with
      | .printlnBuf text => some text
      | _ => none)

/-- The reader with the ready flag lowered, as the dispatcher leaves it. -/
def clearFlag (r : Reader) : Reader :=
  { r with newData := false }

/-- The reader in the middle of a line of which `cur` was read so far: the
buffer has its 32 slots, the cursor is `min cur.length 31`, and the slots below
the cursor hold the first bytes of `cur`. -/
def ReaderAt (r : Reader) (cur : List Byte) : Prop :=
  r.receivedChars.length = 32 ∧ r.ndx = min cur.length 31 ∧
    r.receivedChars.take r.ndx = cur.take 31

/-- The level most recently written to one digital pin in a trace, if any. -/
def lastLevelOn (pin : Int) (tr : List Event) : Option Nat :=
  tr.foldl
    (fun acc e =>
      match e with
      | .digitalWrite p level => if p = pin then some level else acc
      | _ => acc)
    none

/-! ## Line reader: helper lemmas -/

theorem take_set_self {α : Type} (l : List α) (n : Nat) (a : α) :
    (l.set n a).take n = l.take n := by
  induction l generalizing n with
  | nil => simp
  | cons x xs ih =>
    cases n with
    | zero => simp
    | succ n => simp [ih]

theorem take_succ_set {α : Type} (l : List α) (n : Nat) (a : α) (h : n < l.length) :
    (l.set n a).take (n + 1) = l.take n ++ [a] := by
  induction l generalizing n with
  | nil => simp at h
  | cons x xs ih =>
    cases n with
    | zero => simp
    | succ n =>
      have h2 : n < xs.length := by simpa using h
      simp [ih n h2]

theorem processString_data (r : Reader) (b : Byte) (rest : List Byte)
    (hs : r.serial = b :: rest) (hb : b ≠ endMarker) (hk : r.ndx ≤ 31) :
    _processString r =
      { r with
        receivedChars := r.receivedChars.set r.ndx b
        ndx := min (r.ndx + 1) 31
        serial := rest } := by
  have h1 : (r.ndx + 1) % 256 = r.ndx + 1 := Nat.mod_eq_of_lt (by omega)
  unfold _processString
  rw [hs]
  simp only [ne_eq, hb, not_false_eq_true, if_true, h1, numChars]
  congr 1
  by_cases h : r.ndx + 1 ≥ 32
  · rw [if_pos h]; omega
  · rw [if_neg h]; omega

theorem processString_end (r : Reader) (rest : List Byte)
    (hs : r.serial = endMarker :: rest) :
    _processString r =
      { r with
        receivedChars := r.receivedChars.set r.ndx 0
        ndx := 0
        newData := true
        serial := rest } := by
  unfold _processString
  rw [hs]
  simp

theorem readN_succ_last (n : Nat) (r : Reader) :
    readN (n + 1) r = _processString (readN n r) := by
  induction n generalizing r with
  | zero => rfl
  | succ n ih =>
    show readN (n + 1) (_processString r) = _processString (readN n (_processString r))
    exact ih (_processString r)

/-- Feeding a run of bytes without end marker: the flag is untouched, the bytes
leave the queue, the cursor advances up to slot 31, the buffer keeps its 32
slots, and the slots below the cursor hold the old prefix followed by the new
bytes. -/
theorem readN_accumulate (s : List Byte) :
    ∀ (r : Reader) (rest : List Byte), endMarker ∉ s → r.serial = s ++ rest →
      r.ndx ≤ 31 → r.receivedChars.length = 32 →
      (readN s.length r).newData = r.newData ∧
      (readN s.length r).serial = rest ∧
      (readN s.length r).ndx = min (r.ndx + s.length) 31 ∧
      (readN s.length r).receivedChars.length = 32 ∧
      (readN s.length r).receivedChars.take (min (r.ndx + s.length) 31) =
        r.receivedChars.take r.ndx ++ s.take (31 - r.ndx) := by
  induction s with
  | nil =>
    intro r rest _ hs hk hlen
    have hmin : min r.ndx 31 = r.ndx := by omega
    simp [readN, hs, hlen, hmin]
  | cons b s ih =>
    intro r rest hno hs hk hlen
    have hb : b ≠ endMarker := fun h => hno (by simp [h])
    have hno2 : endMarker ∉ s := fun h => hno (by simp [h])
    have hstep := processString_data r b (s ++ rest) (by simpa using hs) hb hk
    have hk1 : (_processString r).ndx ≤ 31 := by rw [hstep]; simp
    have hlen1 : (_processString r).receivedChars.length = 32 := by
      rw [hstep]; simp [hlen]
    have hser1 : (_processString r).serial = s ++ rest := by rw [hstep]
    obtain ⟨h1, h2, h3, h4, h5⟩ := ih (_processString r) rest hno2 hser1 hk1 hlen1
    have hnd : (_processString r).ndx = min (r.ndx + 1) 31 := by rw [hstep]
    have hbuf : (_processString r).receivedChars = r.receivedChars.set r.ndx b := by
      rw [hstep]
    have hnew : (_processString r).newData = r.newData := by rw [hstep]
    have hidx : min ((_processString r).ndx + s.length) 31
        = min (r.ndx + (b :: s).length) 31 := by
      rw [hnd]; simp only [List.length_cons]; omega
    show (readN s.length (_processString r)).newData = r.newData ∧
      (readN s.length (_processString r)).serial = rest ∧
      (readN s.length (_processString r)).ndx = min (r.ndx + (b :: s).length) 31 ∧
      (readN s.length (_processString r)).receivedChars.length = 32 ∧
      (readN s.length (_processString r)).receivedChars.take
          (min (r.ndx + (b :: s).length) 31) =
        r.receivedChars.take r.ndx ++ (b :: s).take (31 - r.ndx)
    refine ⟨h1.trans hnew, h2, h3.trans hidx, h4, ?_⟩
    rw [← hidx, h5, hnd, hbuf]
    by_cases hk31 : r.ndx = 31
    · have e1 : min (r.ndx + 1) 31 = r.ndx := by omega
      rw [e1, hk31, take_set_self]
      simp
    · have e1 : min (r.ndx + 1) 31 = r.ndx + 1 := by omega
      have e2 : 31 - r.ndx = (31 - (r.ndx + 1)) + 1 := by omega
      have hlt : r.ndx < r.receivedChars.length := by omega
      rw [e1, e2, List.take_succ_cons, take_succ_set _ _ _ hlt]
      simp

theorem processString_inv (r : Reader) (hk : r.ndx ≤ 31)
    (hlen : r.receivedChars.length = 32) :
    (_processString r).ndx ≤ 31 ∧ (_processString r).receivedChars.length = 32 := by
  cases hs : r.serial with
  | nil =>
    have : _processString r = r := by unfold _processString; rw [hs]
    rw [this]; exact ⟨hk, hlen⟩
  | cons b rest =>
    by_cases hb : b = endMarker
    · subst hb
      rw [processString_end r rest hs]
      simp [hlen]
    · rw [processString_data r b rest hs hb hk]
      simp [hlen]

theorem readN_inv (n : Nat) : ∀ (r : Reader), r.ndx ≤ 31 → r.receivedChars.length = 32 →
    (readN n r).ndx ≤ 31 ∧ (readN n r).receivedChars.length = 32 := by
  induction n with
  | zero => intro r hk hlen; exact ⟨hk, hlen⟩
  | succ n ih =>
    intro r hk hlen
    obtain ⟨h1, h2⟩ := processString_inv r hk hlen
    exact ih (_processString r) h1 h2

theorem cstr_append_nul (s t : List Byte) :
    cstr (s ++ 0 :: t) = s.takeWhile (fun c => c ≠ 0) := by
  unfold cstr
  induction s with
  | nil => simp
  | cons x xs ih =>
    by_cases hx : x = 0
    · simp [hx]
    · simp only [List.cons_append, List.takeWhile_cons, ih]

theorem takeWhile_no_nul (s : List Byte) (h : (0 : Byte) ∉ s) :
    s.takeWhile (fun c => c ≠ 0) = s := by
  induction s with
  | nil => rfl
  | cons x xs ih =>
    have hx : x ≠ 0 := fun e => h (by simp [e])
    have hxs : (0 : Byte) ∉ xs := fun e => h (by simp [e])
    simp only [List.takeWhile_cons, ih hxs]
    simp [hx]

/-- A run of bytes without end marker followed by the end marker, from cursor
0: the flag is raised, the cursor is back at 0, the queue holds what followed,
and the buffer starts with the first 31 bytes of the run and a NUL. -/
theorem readN_line (r : Reader) (s rest : List Byte)
    (hlen : r.receivedChars.length = 32) (hndx : r.ndx = 0)
    (hnl : endMarker ∉ s) (hser : r.serial = s ++ endMarker :: rest) :
    (readN (s.length + 1) r).newData = true ∧
    (readN (s.length + 1) r).ndx = 0 ∧
    (readN (s.length + 1) r).serial = rest ∧
    (readN (s.length + 1) r).receivedChars.length = 32 ∧
    ∃ t, (readN (s.length + 1) r).receivedChars = s.take 31 ++ 0 :: t := by
  obtain ⟨_, h2, h3, h4, h5⟩ :=
    readN_accumulate s r (endMarker :: rest) hnl hser (by omega) hlen
  rw [readN_succ_last, processString_end _ rest h2]
  refine ⟨rfl, rfl, rfl, by simp [h4], ?_⟩
  rw [hndx] at h3 h5
  simp only [Nat.zero_add, List.take_zero, List.nil_append, Nat.sub_zero] at h3 h5
  show ∃ t, (readN s.length r).receivedChars.set (readN s.length r).ndx 0
      = s.take 31 ++ 0 :: t
  have hlt : (readN s.length r).ndx < (readN s.length r).receivedChars.length := by
    rw [h3, h4]; omega
  refine ⟨(readN s.length r).receivedChars.drop ((readN s.length r).ndx + 1), ?_⟩
  rw [List.set_eq_take_append_cons_drop, if_pos hlt, h3, h5]

/-! ## Busy-wait: helper lemmas -/

/-- If the poll `i + k` shows `D` ms elapsed, the busy-wait entered at poll `i`
exits, with any fuel above `k`, right after the first poll that shows `D` ms
elapsed. -/
theorem busyWait_exits (clock : Nat → Nat) (st D : Nat) :
    ∀ (k i : Nat), D ≤ elapsed (millis clock (i + k)) st →
      ∃ p, i < p ∧ p ≤ i + k + 1 ∧
        D ≤ elapsed (millis clock (p - 1)) st ∧
        (∀ j, i ≤ j → j < p - 1 → elapsed (millis clock j) st < D) ∧
        ∀ fuel, k + 1 ≤ fuel → busyWait clock st D fuel i = some p := by
  intro k
  induction k with
  | zero =>
    intro i h
    refine ⟨i + 1, by omega, by omega, by simpa using h, ?_, ?_⟩
    · intro j h1 h2
      simp at h2
      omega
    · intro fuel hf
      obtain ⟨f, rfl⟩ : ∃ f, fuel = f + 1 := ⟨fuel - 1, by omega⟩
      have hn : ¬ elapsed (millis clock i) st < D := by simpa using h
      simp [busyWait, hn]
  | succ k ih =>
    intro i h
    by_cases hc : elapsed (millis clock i) st < D
    · have h' : D ≤ elapsed (millis clock (i + 1 + k)) st := by
        have e : i + 1 + k = i + (k + 1) := by omega
        rw [e]; exact h
      obtain ⟨p, h1, h2, h3, h4, h5⟩ := ih (i + 1) h'
      refine ⟨p, by omega, by omega, h3, ?_, ?_⟩
      · intro j hj1 hj2
        by_cases hji : j = i
        · rw [hji]; exact hc
        · exact h4 j (by omega) hj2
      · intro fuel hf
        obtain ⟨f, rfl⟩ : ∃ f, fuel = f + 1 := ⟨fuel - 1, by omega⟩
        simp only [busyWait, hc, if_true]
        exact h5 f (by omega)
    · refine ⟨i + 1, by omega, by omega, by simpa using hc, ?_, ?_⟩
      · intro j h1 h2
        simp at h2
        omega
      · intro fuel hf
        obtain ⟨f, rfl⟩ : ∃ f, fuel = f + 1 := ⟨fuel - 1, by omega⟩
        simp [busyWait, hc]

/-- A hold that comes to an end is followed to its exit by any large enough
fuel: the exit is at the first poll that shows `D` ms elapsed. -/
theorem hold_exits (clock : Nat → Nat) (polls D : Nat) (h : Expires clock polls D) :
    ∃ fuel0 p, polls + 1 < p ∧
      D ≤ elapsed (millis clock (p - 1)) (millis clock polls) ∧
      (∀ j, polls < j → j < p - 1 → elapsed (millis clock j) (millis clock polls) < D) ∧
      ∀ fuel, fuel0 ≤ fuel →
        busyWait clock (millis clock polls) D fuel (polls + 1) = some p := by
  obtain ⟨j, hj, hD⟩ := h
  have e : polls + 1 + (j - (polls + 1)) = j := by omega
  obtain ⟨p, h1, _, h3, h4, h5⟩ :=
    busyWait_exits clock (millis clock polls) D (j - (polls + 1)) (polls + 1) (by rw [e]; exact hD)
  exact ⟨j - (polls + 1) + 1, p, h1, h3, fun i hi1 hi2 => h4 i (by omega) hi2, h5⟩

/-! ## Line reader: the claims -/

/-- C1, as stated, fails on a line that carries a NUL byte: from cursor 0, with
a buffer of 32 bytes 'x', the three bytes '1', NUL, '2' followed by the end
marker raise the flag and reset the cursor, but the NUL-terminated string left
in the buffer is "1", not the three bytes that were fed. -/
theorem lineReader_roundTrip_nul_counterexample :
    (⟨List.replicate 32 120, 0, false, [49, 0, 50, 10]⟩ : Reader).receivedChars.length = 32 ∧
    ([49, 0, 50] : List Byte).length ≤ 31 ∧
    endMarker ∉ ([49, 0, 50] : List Byte) ∧
    (readN 4 ⟨List.replicate 32 120, 0, false, [49, 0, 50, 10]⟩).newData = true ∧
    (readN 4 ⟨List.replicate 32 120, 0, false, [49, 0, 50, 10]⟩).ndx = 0 ∧
    cstr (readN 4 ⟨List.replicate 32 120, 0, false, [49, 0, 50, 10]⟩).receivedChars = [49] ∧
    cstr (readN 4 ⟨List.replicate 32 120, 0, false, [49, 0, 50, 10]⟩).receivedChars
      ≠ [49, 0, 50] := by
  decide

/-- C1 (amended): from cursor 0 and any 32-slot buffer, feeding a byte sequence
`s` of length at most 31 without end marker, one byte per invocation, and then
the end marker, leaves the ready flag true and the cursor at 0, and the
NUL-terminated string held in the buffer is `s` cut at its first NUL byte: it
is exactly `s` whenever `s` contains no NUL byte. -/
theorem lineReader_roundTrip (r : Reader) (s rest : List Byte)
    (hlen : r.receivedChars.length = numChars) (hndx : r.ndx = 0)
    (hs : s.length ≤ 31) (hnl : endMarker ∉ s)
    (hser : r.serial = s ++ endMarker :: rest) :
    (readN (s.length + 1) r).newData = true ∧
    (readN (s.length + 1) r).ndx = 0 ∧
    (readN (s.length + 1) r).serial = rest ∧
    cstr (readN (s.length + 1) r).receivedChars = s.takeWhile (fun c => c ≠ 0) ∧
    ((0 : Byte) ∉ s → cstr (readN (s.length + 1) r).receivedChars = s) := by
  obtain ⟨h1, h2, h3, _, t, h5⟩ := readN_line r s rest hlen hndx hnl hser
  have htake : s.take 31 = s := List.take_of_length_le hs
  rw [htake] at h5
  have hc : cstr (readN (s.length + 1) r).receivedChars
      = s.takeWhile (fun c => c ≠ 0) := by rw [h5, cstr_append_nul]
  exact ⟨h1, h2, h3, hc, fun h0 => hc.trans (takeWhile_no_nul s h0)⟩

/-- C1 at work: "21" and the end marker fed into a buffer of 32 bytes 'x'. -/
theorem lineReader_roundTrip_witness :
    (readN 3 ⟨List.replicate 32 120, 0, false, [50, 49, 10, 51]⟩).newData = true ∧
    (readN 3 ⟨List.replicate 32 120, 0, false, [50, 49, 10, 51]⟩).ndx = 0 ∧
    (readN 3 ⟨List.replicate 32 120, 0, false, [50, 49, 10, 51]⟩).serial = [51] ∧
    cstr (readN 3 ⟨List.replicate 32 120, 0, false, [50, 49, 10, 51]⟩).receivedChars
      = [50, 49] :=
  have h := lineReader_roundTrip ⟨List.replicate 32 120, 0, false, [50, 49, 10, 51]⟩
    [50, 49] [51] (by decide) rfl (by decide) (by decide) (by decide)
  ⟨h.1, h.2.1, h.2.2.1, h.2.2.2.2 (by decide)⟩

/-- C2: from cursor 0 with the ready flag false, feeding `n` bytes without end
marker, one per invocation, leaves the flag false and the cursor at
`min n 31`, and slots `0 .. min n 31 - 1` of the buffer hold the first
`min n 31` bytes fed, in order. -/
theorem lineReader_accumulates (r : Reader) (s rest : List Byte)
    (hlen : r.receivedChars.length = numChars) (hndx : r.ndx = 0)
    (hflag : r.newData = false) (hnl : endMarker ∉ s) (hser : r.serial = s ++ rest) :
    (readN s.length r).newData = false ∧
    (readN s.length r).ndx = min s.length 31 ∧
    (readN s.length r).serial = rest ∧
    (readN s.length r).receivedChars.take (min s.length 31) = s.take (min s.length 31) ∧
    ∀ i, i < min s.length 31 → (readN s.length r).receivedChars[i]? = s[i]? := by
  obtain ⟨h1, h2, h3, _, h5⟩ := readN_accumulate s r rest hnl hser (by omega) hlen
  rw [hndx] at h3 h5
  simp only [Nat.zero_add, List.take_zero, List.nil_append, Nat.sub_zero] at h3 h5
  have htk : (readN s.length r).receivedChars.take (min s.length 31)
      = s.take (min s.length 31) := by
    rw [h5]
    by_cases hc : s.length ≤ 31
    · rw [Nat.min_eq_left hc, List.take_of_length_le hc, List.take_of_length_le (le_refl _)]
    · rw [Nat.min_eq_right (by omega)]
  refine ⟨h1.trans hflag, h3, h2, htk, ?_⟩
  intro i hi
  have e1 := List.getElem?_take_of_lt (l := (readN s.length r).receivedChars) hi
  have e2 := List.getElem?_take_of_lt (l := s) hi
  rw [← e1, ← e2, htk]

/-- C2 at work: forty bytes 'a' fed into an empty buffer of 32 NUL bytes. -/
theorem lineReader_accumulates_witness :
    (readN 40 ⟨List.replicate 32 0, 0, false, List.replicate 40 97⟩).newData = false ∧
    (readN 40 ⟨List.replicate 32 0, 0, false, List.replicate 40 97⟩).ndx = 31 ∧
    (readN 40 ⟨List.replicate 32 0, 0, false, List.replicate 40 97⟩).receivedChars.take 31
      = List.replicate 31 97 :=
  have h := lineReader_accumulates ⟨List.replicate 32 0, 0, false, List.replicate 40 97⟩
    (List.replicate 40 97) [] (by decide) rfl rfl (by decide) (by decide)
  ⟨h.1, h.2.1, h.2.2.2.1⟩

/-- C3: from cursor 0 and a 32-slot buffer, whatever bytes are waiting and
however many times the reader is invoked, the cursor is at most 31 after each
invocation and the buffer keeps its 32 slots; hence the write of the next
invocation, data byte or NUL terminator, lands in a slot of the buffer, which
then holds the byte written. -/
theorem cursor_invariant (r : Reader) (n : Nat)
    (hlen : r.receivedChars.length = numChars) (hndx : r.ndx = 0) :
    (readN n r).ndx ≤ numChars - 1 ∧
    (readN n r).receivedChars.length = numChars ∧
    (readN n r).ndx < (readN n r).receivedChars.length ∧
    ∀ b rest, (readN n r).serial = b :: rest →
      (readN (n + 1) r).receivedChars[(readN n r).ndx]?
        = some (if b = endMarker then 0 else b) := by
  obtain ⟨h1, h2⟩ := readN_inv n r (by omega) hlen
  have hlt : (readN n r).ndx < (readN n r).receivedChars.length := by rw [h2]; omega
  refine ⟨h1, h2, hlt, ?_⟩
  intro b rest hs
  rw [readN_succ_last]
  by_cases hb : b = endMarker
  · subst hb
    rw [processString_end _ rest hs]
    simp [hlt]
  · rw [processString_data _ b rest hs hb h1]
    simp [hlt, hb]

/-- C3 at work: forty bytes 'a' waiting, thirty-five invocations. -/
theorem cursor_invariant_witness :
    (readN 35 ⟨List.replicate 32 0, 0, false, List.replicate 40 97⟩).ndx ≤ 31 :=
  (cursor_invariant ⟨List.replicate 32 0, 0, false, List.replicate 40 97⟩ 35
    (by decide) rfl).1

/-- C4: from cursor 0, a byte sequence `s` longer than 31 bytes, free of end
marker and NUL, followed by the end marker, publishes exactly the first 31
bytes of `s`; the bytes after the 31st have no influence: any other such
sequence with the same first 31 bytes publishes the same string. -/
theorem overflow_truncation (r : Reader) (s rest : List Byte)
    (hlen : r.receivedChars.length = numChars) (hndx : r.ndx = 0)
    (hs : 31 < s.length) (hnl : endMarker ∉ s) (hnul : (0 : Byte) ∉ s)
    (hser : r.serial = s ++ endMarker :: rest) :
    (readN (s.length + 1) r).newData = true ∧
    (readN (s.length + 1) r).ndx = 0 ∧
    cstr (readN (s.length + 1) r).receivedChars = s.take 31 ∧
    (cstr (readN (s.length + 1) r).receivedChars).length = 31 ∧
    ∀ (r2 : Reader) (s2 rest2 : List Byte), r2.receivedChars.length = numChars →
      r2.ndx = 0 → endMarker ∉ s2 → (0 : Byte) ∉ s2 →
      r2.serial = s2 ++ endMarker :: rest2 → s2.take 31 = s.take 31 →
      cstr (readN (s2.length + 1) r2).receivedChars
        = cstr (readN (s.length + 1) r).receivedChars := by
  have key : ∀ (r : Reader) (s rest : List Byte), r.receivedChars.length = numChars →
      r.ndx = 0 → endMarker ∉ s → (0 : Byte) ∉ s →
      r.serial = s ++ endMarker :: rest →
      cstr (readN (s.length + 1) r).receivedChars = s.take 31 := by
    intro r s rest hlen hndx hnl hnul hser
    obtain ⟨_, _, _, _, t, h5⟩ := readN_line r s rest hlen hndx hnl hser
    rw [h5, cstr_append_nul]
    exact takeWhile_no_nul _ (fun h => hnul (List.mem_of_mem_take h))
  obtain ⟨h1, h2, _, _, _⟩ := readN_line r s rest hlen hndx hnl hser
  have hc := key r s rest hlen hndx hnl hnul hser
  refine ⟨h1, h2, hc, ?_, ?_⟩
  · rw [hc, List.length_take]; omega
  · intro r2 s2 rest2 hlen2 hndx2 hnl2 hnul2 hser2 hsame
    rw [key r2 s2 rest2 hlen2 hndx2 hnl2 hnul2 hser2, hc, hsame]

/-- C4 at work: forty bytes 'a' and the end marker publish thirty-one 'a'. -/
theorem overflow_truncation_witness :
    cstr (readN 41 ⟨List.replicate 32 0, 0, false,
      List.replicate 40 97 ++ [endMarker]⟩).receivedChars = List.replicate 31 97 :=
  (overflow_truncation ⟨List.replicate 32 0, 0, false, List.replicate 40 97 ++ [endMarker]⟩
    (List.replicate 40 97) [] (by decide) rfl (by decide) (by decide) (by decide)
    (by decide)).2.2.1

/-! ## Single-motor dispatcher: helper lemmas -/

theorem Motor.single_dispatch_tier (clock : Nat → Nat) (fuel : Nat) (s : Motor.State) (k d : Int)
    (hkd : (k, d) ∈ [((0 : Int), (0 : Int)), (1, 150), (2, 160), (3, 210), (4, 220)])
    (hready : s.newData = true) (hline : atoi (cstr s.receivedChars) = k) :
    Motor.ProcessSpeedInput clock fuel s =
      Motor.applySpeed clock fuel { s with dataNumber := d }
        [Event.printlnBuf (cstr s.receivedChars)] := by
  simp only [List.mem_cons, Prod.mk.injEq, List.mem_singleton, List.not_mem_nil, or_false] at hkd
  rcases hkd with h | h | h | h | h <;> obtain ⟨rfl, rfl⟩ := h <;>
    simp [Motor.ProcessSpeedInput, hready, hline]

theorem Motor.single_applySpeed_same (clock : Nat → Nat) (fuel : Nat) (s : Motor.State)
    (tr : List Event) (h : s.dataNumber = s.prevNumber) :
    Motor.applySpeed clock fuel s tr =
      .returned { s with newData := false }
        (tr ++ [.println "No change in speed. Keeping the previous setting."]) := by
  simp [Motor.applySpeed, h]

theorem Motor.single_applySpeed_change (clock : Nat → Nat) (fuel p : Nat) (s : Motor.State)
    (tr : List Event) (h : s.dataNumber ≠ s.prevNumber)
    (hw : busyWait clock (millis clock s.polls) 1000 fuel (s.polls + 1) = some p) :
    Motor.applySpeed clock fuel s tr =
      .returned { s with prevNumber := s.dataNumber, newData := false, polls := p }
        (tr ++ [.print "Changing speed ... ", .analogWrite Motor.pwmPin 0, .hold 1000,
          .print "Setting motor speed to ... ", .printlnPercent s.dataNumber,
          .analogWrite Motor.pwmPin s.dataNumber]) := by
  simp [Motor.applySpeed, h, hw]

theorem Motor.single_applySpeed_spinning (clock : Nat → Nat) (fuel : Nat) (s : Motor.State)
    (tr : List Event) (h : s.dataNumber ≠ s.prevNumber)
    (hw : busyWait clock (millis clock s.polls) 1000 fuel (s.polls + 1) = none) :
    Motor.applySpeed clock fuel s tr =
      .spinning (tr ++ [.print "Changing speed ... ", .analogWrite Motor.pwmPin 0]) := by
  simp [Motor.applySpeed, h, hw]

/-- What a returned motor-speed step leaves behind in the single-motor sketch:
the resolved duty is the last-applied one, and the ready flag is false. -/
theorem Motor.single_applySpeed_returned (clock : Nat → Nat) (fuel : Nat)
    (s s1 : Motor.State) (tr tr1 : List Event)
    (h : Motor.applySpeed clock fuel s tr = .returned s1 tr1) :
    s1.prevNumber = s.dataNumber ∧ s1.dataNumber = s.dataNumber ∧ s1.newData = false := by
  by_cases hc : s.dataNumber = s.prevNumber
  · rw [Motor.single_applySpeed_same clock fuel s tr hc] at h
    injection h with h1 _
    subst h1
    exact ⟨hc.symm, rfl, rfl⟩
  · cases hw : busyWait clock (millis clock s.polls) 1000 fuel (s.polls + 1) with
    | none =>
      rw [Motor.single_applySpeed_spinning clock fuel s tr hc hw] at h
      cases h
    | some p =>
      rw [Motor.single_applySpeed_change clock fuel p s tr hc hw] at h
      injection h with h1 _
      subst h1
      exact ⟨rfl, rfl, rfl⟩

/-! ## Dual dispatcher: helper lemmas -/

theorem MotorMagnet.dual_dispatch_motor (clock : Nat → Nat) (fuel : Nat) (s : MotorMagnet.State)
    (code pin duty : Int)
    (hc : (code, pin, duty) ∈ [((0 : Int), (6 : Int), (0 : Int)), (1, 6, 80), (2, 6, 90),
      (3, 6, 100), (10, 10, 0), (11, 10, 80), (12, 10, 90), (13, 10, 100)])
    (hready : s.newData = true) (hline : atoi (cstr s.receivedChars) = code) :
    MotorMagnet.ProcessSpeedInput clock fuel s =
      MotorMagnet.applySpeed clock fuel
        { s with rcvdNumber := code, dataNumber := duty, pwmPin := pin }
        [Event.printlnBuf (cstr s.receivedChars)] := by
  simp only [List.mem_cons, Prod.mk.injEq, List.mem_singleton, List.not_mem_nil, or_false] at hc
  rcases hc with h | h | h | h | h | h | h | h <;> obtain ⟨rfl, rfl, rfl⟩ := h <;>
    simp [MotorMagnet.ProcessSpeedInput, hready, hline, MotorMagnet.CASE_MOTOR_A_SPEED_OFF,
      MotorMagnet.CASE_MOTOR_A_SPEED_LOW, MotorMagnet.CASE_MOTOR_A_SPEED_MEDIUM,
      MotorMagnet.CASE_MOTOR_A_SPEED_HIGH, MotorMagnet.CASE_MOTOR_B_SPEED_OFF,
      MotorMagnet.CASE_MOTOR_B_SPEED_LOW, MotorMagnet.CASE_MOTOR_B_SPEED_MEDIUM,
      MotorMagnet.CASE_MOTOR_B_SPEED_HIGH, MotorMagnet.SPEED_OFF, MotorMagnet.SPEED_LOW,
      MotorMagnet.SPEED_MEDIUM, MotorMagnet.SPEED_HIGH, MotorMagnet.pwmPinA,
      MotorMagnet.pwmPinB]

theorem MotorMagnet.dual_applySpeed_same (clock : Nat → Nat) (fuel : Nat) (s : MotorMagnet.State)
    (tr : List Event) (h : s.dataNumber = s.prevNumber) (hp : s.pwmPin = s.prevPin) :
    MotorMagnet.applySpeed clock fuel s tr =
      .returned { s with newData := false }
        (tr ++ [.println "No change in speed. Keeping the previous setting."]) := by
  simp [MotorMagnet.applySpeed, h, hp]

theorem MotorMagnet.dual_applySpeed_change (clock : Nat → Nat) (fuel p : Nat)
    (s : MotorMagnet.State) (tr : List Event)
    (h : ¬ (s.dataNumber = s.prevNumber ∧ s.pwmPin = s.prevPin))
    (hw : busyWait clock (millis clock s.polls) 1000 fuel (s.polls + 1) = some p) :
    MotorMagnet.applySpeed clock fuel s tr =
      .returned
        { s with
          prevNumber := s.dataNumber, prevPin := s.pwmPin, newData := false, polls := p }
        (tr ++ [.print "Changing speed ... ", .analogWrite s.pwmPin 0, .hold 1000,
          .print "Setting motor speed to ... ", .printlnPercent s.dataNumber,
          .analogWrite s.pwmPin s.dataNumber]) := by
  simp [MotorMagnet.applySpeed, h, hw]

theorem MotorMagnet.dual_applySpeed_spinning (clock : Nat → Nat) (fuel : Nat)
    (s : MotorMagnet.State) (tr : List Event)
    (h : ¬ (s.dataNumber = s.prevNumber ∧ s.pwmPin = s.prevPin))
    (hw : busyWait clock (millis clock s.polls) 1000 fuel (s.polls + 1) = none) :
    MotorMagnet.applySpeed clock fuel s tr =
      .spinning (tr ++ [.print "Changing speed ... ", .analogWrite s.pwmPin 0]) := by
  simp [MotorMagnet.applySpeed, h, hw]

/-- What a returned motor-speed step leaves behind: the resolved duty and pin
are the last-applied ones, and the ready flag is false. -/
theorem MotorMagnet.dual_applySpeed_returned (clock : Nat → Nat) (fuel : Nat)
    (s s1 : MotorMagnet.State) (tr tr1 : List Event)
    (h : MotorMagnet.applySpeed clock fuel s tr = .returned s1 tr1) :
    s1.prevNumber = s.dataNumber ∧ s1.prevPin = s.pwmPin ∧ s1.dataNumber = s.dataNumber ∧
      s1.pwmPin = s.pwmPin ∧ s1.rcvdNumber = s.rcvdNumber ∧ s1.startTime = s.startTime ∧
      s1.newData = false := by
  by_cases hc : s.dataNumber = s.prevNumber ∧ s.pwmPin = s.prevPin
  · rw [MotorMagnet.dual_applySpeed_same clock fuel s tr hc.1 hc.2] at h
    injection h with h1 _
    subst h1
    exact ⟨hc.1.symm, hc.2.symm, rfl, rfl, rfl, rfl, rfl⟩
  · cases hw : busyWait clock (millis clock s.polls) 1000 fuel (s.polls + 1) with
    | none =>
      rw [MotorMagnet.dual_applySpeed_spinning clock fuel s tr hc hw] at h
      cases h
    | some p =>
      rw [MotorMagnet.dual_applySpeed_change clock fuel p s tr hc hw] at h
      injection h with h1 _
      subst h1
      exact ⟨rfl, rfl, rfl, rfl, rfl, rfl, rfl⟩

theorem MotorMagnet.dual_dispatch_idle (clock : Nat → Nat) (fuel : Nat) (s : MotorMagnet.State)
    (h : s.newData = false) :
    MotorMagnet.ProcessSpeedInput clock fuel s = .returned s [] := by
  simp [MotorMagnet.ProcessSpeedInput, h]

theorem MotorMagnet.dual_dispatch_magnetOff (clock : Nat → Nat) (fuel : Nat)
    (s : MotorMagnet.State) (code relay : Int) (label : String)
    (hc : (code, relay, label) ∈
      [((31 : Int), (3 : Int), "Magnet A - OFF"), (21, 2, "Magnet B - OFF")])
    (hready : s.newData = true) (hline : atoi (cstr s.receivedChars) = code) :
    MotorMagnet.ProcessSpeedInput clock fuel s =
      .returned { s with rcvdNumber := code, newData := false }
        [.printlnBuf (cstr s.receivedChars), .digitalWrite relay LOW, .println label] := by
  simp only [List.mem_cons, Prod.mk.injEq, List.mem_singleton, List.not_mem_nil, or_false] at hc
  rcases hc with ⟨rfl, rfl, rfl⟩ | ⟨rfl, rfl, rfl⟩ <;>
    simp [MotorMagnet.ProcessSpeedInput, hready, hline, MotorMagnet.CASE_MOTOR_A_SPEED_OFF,
      MotorMagnet.CASE_MOTOR_A_SPEED_LOW, MotorMagnet.CASE_MOTOR_A_SPEED_MEDIUM,
      MotorMagnet.CASE_MOTOR_A_SPEED_HIGH, MotorMagnet.CASE_MOTOR_B_SPEED_OFF,
      MotorMagnet.CASE_MOTOR_B_SPEED_LOW, MotorMagnet.CASE_MOTOR_B_SPEED_MEDIUM,
      MotorMagnet.CASE_MOTOR_B_SPEED_HIGH, MotorMagnet.CASE_MAGNET_A_OFF,
      MotorMagnet.CASE_MAGNET_A_ON, MotorMagnet.CASE_MAGNET_B_OFF,
      MotorMagnet.CASE_MAGNET_B_ON, MotorMagnet.relayA, MotorMagnet.relayB]

theorem MotorMagnet.dual_dispatch_magnetOn (clock : Nat → Nat) (fuel : Nat)
    (s : MotorMagnet.State) (code relay : Int) (labelOn labelOff : String)
    (hc : (code, relay, labelOn, labelOff) ∈
      [((30 : Int), (3 : Int), "Magnet A - ON", "Magnet A - OFF"),
       (20, 2, "Magnet B - ON", "Magnet B - OFF")])
    (hready : s.newData = true) (hline : atoi (cstr s.receivedChars) = code) :
    MotorMagnet.ProcessSpeedInput clock fuel s =
      match busyWait clock (millis clock s.polls) 10000 fuel (s.polls + 1) with
      | none =>
        .spinning [.printlnBuf (cstr s.receivedChars), .println labelOn,
          .digitalWrite relay HIGH]
      | some p =>
        .returned
          { s with
            rcvdNumber := code, startTime := millis clock s.polls, newData := false, polls := p }
          [.printlnBuf (cstr s.receivedChars), .println labelOn, .digitalWrite relay HIGH,
           .hold 10000, .digitalWrite relay LOW, .println labelOff] := by
  simp only [List.mem_cons, Prod.mk.injEq, List.mem_singleton, List.not_mem_nil, or_false] at hc
  rcases hc with ⟨rfl, rfl, rfl, rfl⟩ | ⟨rfl, rfl, rfl, rfl⟩ <;>
    simp [MotorMagnet.ProcessSpeedInput, hready, hline, MotorMagnet.CASE_MOTOR_A_SPEED_OFF,
      MotorMagnet.CASE_MOTOR_A_SPEED_LOW, MotorMagnet.CASE_MOTOR_A_SPEED_MEDIUM,
      MotorMagnet.CASE_MOTOR_A_SPEED_HIGH, MotorMagnet.CASE_MOTOR_B_SPEED_OFF,
      MotorMagnet.CASE_MOTOR_B_SPEED_LOW, MotorMagnet.CASE_MOTOR_B_SPEED_MEDIUM,
      MotorMagnet.CASE_MOTOR_B_SPEED_HIGH, MotorMagnet.CASE_MAGNET_A_OFF,
      MotorMagnet.CASE_MAGNET_A_ON, MotorMagnet.CASE_MAGNET_B_OFF,
      MotorMagnet.CASE_MAGNET_B_ON, MotorMagnet.relayA, MotorMagnet.relayB,
      MotorMagnet.MAGNET_TIMEOUT]

theorem MotorMagnet.dual_dispatch_reset (clock : Nat → Nat) (fuel : Nat) (s : MotorMagnet.State)
    (hready : s.newData = true) (hline : atoi (cstr s.receivedChars) = -1) :
    MotorMagnet.ProcessSpeedInput clock fuel s =
      .reset [.printlnBuf (cstr s.receivedChars)] := by
  simp [MotorMagnet.ProcessSpeedInput, hready, hline, MotorMagnet.CASE_MOTOR_A_SPEED_OFF,
      MotorMagnet.CASE_MOTOR_A_SPEED_LOW, MotorMagnet.CASE_MOTOR_A_SPEED_MEDIUM,
      MotorMagnet.CASE_MOTOR_A_SPEED_HIGH, MotorMagnet.CASE_MOTOR_B_SPEED_OFF,
      MotorMagnet.CASE_MOTOR_B_SPEED_LOW, MotorMagnet.CASE_MOTOR_B_SPEED_MEDIUM,
      MotorMagnet.CASE_MOTOR_B_SPEED_HIGH, MotorMagnet.CASE_MAGNET_A_OFF,
      MotorMagnet.CASE_MAGNET_A_ON, MotorMagnet.CASE_MAGNET_B_OFF,
      MotorMagnet.CASE_MAGNET_B_ON]

theorem MotorMagnet.dual_dispatch_invalid (clock : Nat → Nat) (fuel : Nat) (s : MotorMagnet.State)
    (hready : s.newData = true)
    (hline : atoi (cstr s.receivedChars) ∉
      [(0 : Int), 1, 2, 3, 10, 11, 12, 13, 20, 21, 30, 31, -1]) :
    MotorMagnet.ProcessSpeedInput clock fuel s =
      .returned { s with rcvdNumber := atoi (cstr s.receivedChars), newData := false }
        [.printlnBuf (cstr s.receivedChars),
         .println "Invalid input. Please enter a number between 0 and 4."] := by
  simp only [List.mem_cons, List.mem_singleton, List.not_mem_nil, or_false, not_or] at hline
  obtain ⟨h0, h1, h2, h3, h10, h11, h12, h13, h20, h21, h30, h31, hm1⟩ := hline
  simp [MotorMagnet.ProcessSpeedInput, hready, MotorMagnet.CASE_MOTOR_A_SPEED_OFF,
      MotorMagnet.CASE_MOTOR_A_SPEED_LOW, MotorMagnet.CASE_MOTOR_A_SPEED_MEDIUM,
      MotorMagnet.CASE_MOTOR_A_SPEED_HIGH, MotorMagnet.CASE_MOTOR_B_SPEED_OFF,
      MotorMagnet.CASE_MOTOR_B_SPEED_LOW, MotorMagnet.CASE_MOTOR_B_SPEED_MEDIUM,
      MotorMagnet.CASE_MOTOR_B_SPEED_HIGH, MotorMagnet.CASE_MAGNET_A_OFF,
      MotorMagnet.CASE_MAGNET_A_ON, MotorMagnet.CASE_MAGNET_B_OFF,
      MotorMagnet.CASE_MAGNET_B_ON, h0, h1, h2, h3, h10, h11, h12, h13, h20, h21, h30, h31, hm1]

theorem MotorMagnet.dual_code_cases (n : Int) :
    (∃ pin duty, (n, pin, duty) ∈ [((0 : Int), (6 : Int), (0 : Int)), (1, 6, 80), (2, 6, 90),
      (3, 6, 100), (10, 10, 0), (11, 10, 80), (12, 10, 90), (13, 10, 100)]) ∨
    (∃ relay label, (n, relay, label) ∈
      [((31 : Int), (3 : Int), "Magnet A - OFF"), (21, 2, "Magnet B - OFF")]) ∨
    (∃ relay labelOn labelOff, (n, relay, labelOn, labelOff) ∈
      [((30 : Int), (3 : Int), "Magnet A - ON", "Magnet A - OFF"),
       (20, 2, "Magnet B - ON", "Magnet B - OFF")]) ∨
    n = -1 ∨
    n ∉ [(0 : Int), 1, 2, 3, 10, 11, 12, 13, 20, 21, 30, 31, -1] := by
  by_cases h : n ∈ [(0 : Int), 1, 2, 3, 10, 11, 12, 13, 20, 21, 30, 31, -1]
  · simp only [List.mem_cons, List.mem_singleton, List.not_mem_nil, or_false] at h
    rcases h with rfl | rfl | rfl | rfl | rfl | rfl | rfl | rfl | rfl | rfl | rfl | rfl | rfl <;>
      simp
  · exact Or.inr (Or.inr (Or.inr (Or.inr h)))

theorem MotorMagnet.dual_applySpeed_record (clock : Nat → Nat) (fuel : Nat)
    (s s1 : MotorMagnet.State) (line : List Byte) (tr : List Event)
    (h : MotorMagnet.applySpeed clock fuel s [Event.printlnBuf line] = .returned s1 tr)
    (a : Option (Int × Int)) :
    (tr.foldl lastAnalogStep a = a ∧ s1.prevPin = s.prevPin ∧ s1.prevNumber = s.prevNumber) ∨
      tr.foldl lastAnalogStep a = some (s1.prevPin, s1.prevNumber) := by
  by_cases hc : s.dataNumber = s.prevNumber ∧ s.pwmPin = s.prevPin
  · rw [MotorMagnet.dual_applySpeed_same clock fuel s _ hc.1 hc.2] at h
    injection h with h1 h2
    subst h1 h2
    left
    simp [lastAnalogStep]
  · cases hw : busyWait clock (millis clock s.polls) 1000 fuel (s.polls + 1) with
    | none =>
      rw [MotorMagnet.dual_applySpeed_spinning clock fuel s _ hc hw] at h
      cases h
    | some p =>
      rw [MotorMagnet.dual_applySpeed_change clock fuel p s _ hc hw] at h
      injection h with h1 h2
      subst h1 h2
      right
      simp [lastAnalogStep]

/-- The debounce record of the dual sketch against the trace of a dispatch:
either the dispatch made no analog write and left the record alone, or the
record is the pin and duty of its last analog write. -/
theorem MotorMagnet.dual_dispatch_record (clock : Nat → Nat) (fuel : Nat)
    (s s1 : MotorMagnet.State) (tr : List Event)
    (h : MotorMagnet.ProcessSpeedInput clock fuel s = .returned s1 tr)
    (a : Option (Int × Int)) :
    (tr.foldl lastAnalogStep a = a ∧ s1.prevPin = s.prevPin ∧ s1.prevNumber = s.prevNumber) ∨
      tr.foldl lastAnalogStep a = some (s1.prevPin, s1.prevNumber) := by
  cases hready : s.newData with
  | false =>
    rw [MotorMagnet.dual_dispatch_idle clock fuel s hready] at h
    injection h with h1 h2
    subst h1 h2
    exact Or.inl ⟨rfl, rfl, rfl⟩
  | true =>
    rcases MotorMagnet.dual_code_cases (atoi (cstr s.receivedChars)) with
      ⟨pin, duty, hc⟩ | ⟨relay, label, hc⟩ | ⟨relay, l1, l2, hc⟩ | hc | hc
    · rw [MotorMagnet.dual_dispatch_motor clock fuel s _ pin duty hc hready rfl] at h
      exact MotorMagnet.dual_applySpeed_record clock fuel _ s1 _ tr h a
    · rw [MotorMagnet.dual_dispatch_magnetOff clock fuel s _ relay label hc hready rfl] at h
      injection h with h1 h2
      subst h1 h2
      exact Or.inl ⟨by simp [lastAnalogStep], rfl, rfl⟩
    · rw [MotorMagnet.dual_dispatch_magnetOn clock fuel s _ relay l1 l2 hc hready rfl] at h
      cases hw : busyWait clock (millis clock s.polls) 10000 fuel (s.polls + 1) with
      | none => rw [hw] at h; cases h
      | some p =>
        rw [hw] at h
        injection h with h1 h2
        subst h1 h2
        exact Or.inl ⟨by simp [lastAnalogStep], rfl, rfl⟩
    · rw [MotorMagnet.dual_dispatch_reset clock fuel s hready hc] at h
      cases h
    · rw [MotorMagnet.dual_dispatch_invalid clock fuel s hready hc] at h
      injection h with h1 h2
      subst h1 h2
      exact Or.inl ⟨by simp [lastAnalogStep], rfl, rfl⟩

theorem MotorMagnet.dual_tick_record (clock : Nat → Nat) (fuel : Nat)
    (s s1 : MotorMagnet.State) (tr pre : List Event)
    (h : MotorMagnet.loop clock fuel s = .returned s1 tr)
    (hinv : MotorMagnet.RecordMatches s pre) :
    MotorMagnet.RecordMatches s1 (pre ++ tr) := by
  unfold MotorMagnet.loop at h
  have hrec := MotorMagnet.dual_dispatch_record clock fuel _ s1 tr h (lastAnalog pre)
  have happ : lastAnalog (pre ++ tr) = tr.foldl lastAnalogStep (lastAnalog pre) := by
    unfold lastAnalog
    rw [List.foldl_append]
  unfold MotorMagnet.RecordMatches at hinv ⊢
  rw [happ]
  rcases hrec with ⟨h1, h2, h3⟩ | h1
  · rw [h1]
    rcases hinv with ⟨g1, g2, g3⟩ | g1
    · exact Or.inl ⟨g1, h2.trans g2, h3.trans g3⟩
    · right
      rw [g1]
      have e2 : s1.prevPin = s.prevPin := h2
      have e3 : s1.prevNumber = s.prevNumber := h3
      rw [e2, e3]
  · exact Or.inr h1

theorem MotorMagnet.dual_run_record (clock : Nat → Nat) (fuel : Nat) :
    ∀ (n : Nat) (s s1 : MotorMagnet.State) (tr pre : List Event),
      runTicks (MotorMagnet.loop clock fuel) n s = .returned s1 tr →
      MotorMagnet.RecordMatches s pre → MotorMagnet.RecordMatches s1 (pre ++ tr) := by
  intro n
  induction n with
  | zero =>
    intro s s1 tr pre h hinv
    simp only [runTicks] at h
    injection h with h1 h2
    subst h1 h2
    simpa using hinv
  | succ n ih =>
    intro s s1 tr pre h hinv
    simp only [runTicks] at h
    cases hl : MotorMagnet.loop clock fuel s with
    | returned s2 tr2 =>
      rw [hl] at h
      simp only at h
      cases hr : runTicks (MotorMagnet.loop clock fuel) n s2 with
      | returned s3 tr3 =>
        rw [hr] at h
        simp only [Outcome.after] at h
        injection h with h1 h2
        subst h1 h2
        have := ih s2 s3 tr3 (pre ++ tr2) hr (MotorMagnet.dual_tick_record clock fuel s s2 tr2 pre hl hinv)
        simpa [List.append_assoc] using this
      | reset tr3 => rw [hr] at h; simp [Outcome.after] at h
      | spinning tr3 => rw [hr] at h; simp [Outcome.after] at h
    | reset tr2 => rw [hl] at h; simp at h
    | spinning tr2 => rw [hl] at h; simp at h

/-! ## Single-magnet and single-motor dispatchers: outcome by class of code -/

theorem Magnet.magnet_dispatch_off (clock : Nat → Nat) (fuel : Nat) (s : Magnet.State)
    (hready : s.newData = true) (hline : atoi (cstr s.receivedChars) = 0) :
    Magnet.ProcessMagInput clock fuel s =
      .returned { s with dataNumber := 0, newData := false }
        [.printlnBuf (cstr s.receivedChars), .digitalWrite Magnet.digPin HIGH,
         .println "Magnet OFF"] := by
  simp [Magnet.ProcessMagInput, hready, hline]

theorem Magnet.magnet_dispatch_on (clock : Nat → Nat) (fuel : Nat) (s : Magnet.State)
    (hready : s.newData = true) (hline : atoi (cstr s.receivedChars) = 1) :
    Magnet.ProcessMagInput clock fuel s =
      match busyWait clock (millis clock s.polls) 10000 fuel (s.polls + 1) with
      | none =>
        .spinning [.printlnBuf (cstr s.receivedChars), .println "Magnet ON",
          .digitalWrite Magnet.digPin LOW]
      | some p =>
        .returned { s with dataNumber := 1, newData := false, polls := p }
          [.printlnBuf (cstr s.receivedChars), .println "Magnet ON",
           .digitalWrite Magnet.digPin LOW, .hold 10000, .digitalWrite Magnet.digPin HIGH,
           .println "Magnet OFF"] := by
  simp only [Magnet.ProcessMagInput, hready, hline, if_true]
  cases busyWait clock (millis clock s.polls) 10000 fuel (s.polls + 1) <;> simp

theorem Magnet.magnet_dispatch_invalid (clock : Nat → Nat) (fuel : Nat) (s : Magnet.State)
    (hready : s.newData = true)
    (hline : atoi (cstr s.receivedChars) ∉ [(0 : Int), 1, -1]) :
    Magnet.ProcessMagInput clock fuel s =
      .returned { s with dataNumber := atoi (cstr s.receivedChars), newData := false }
        [.printlnBuf (cstr s.receivedChars), .println "Invalid input."] := by
  simp only [List.mem_cons, List.mem_singleton, List.not_mem_nil, or_false, not_or] at hline
  obtain ⟨h0, h1, hm1⟩ := hline
  simp [Magnet.ProcessMagInput, hready, h0, h1, hm1]

theorem Motor.single_dispatch_invalid (clock : Nat → Nat) (fuel : Nat) (s : Motor.State)
    (hready : s.newData = true)
    (hline : atoi (cstr s.receivedChars) ∉ [(0 : Int), 1, 2, 3, 4, -1]) :
    Motor.ProcessSpeedInput clock fuel s =
      .returned { s with dataNumber := atoi (cstr s.receivedChars), newData := false }
        [.printlnBuf (cstr s.receivedChars),
         .println "Invalid input. Please enter a number between 0 and 4."] := by
  simp only [List.mem_cons, List.mem_singleton, List.not_mem_nil, or_false, not_or] at hline
  obtain ⟨h0, h1, h2, h3, h4, hm1⟩ := hline
  simp [Motor.ProcessSpeedInput, hready, h0, h1, h2, h3, h4, hm1]

/-! ## Single-motor dispatcher: the claims -/

/-- C5: in the single-motor sketch, with the ready flag true, a pending line
whose value is a code `k` of 0..4 with tier duty `d` (0, 150, 160, 210, 220)
and a last-applied value other than `d`, under a clock whose settle hold comes
to an end, the dispatcher returns for every large enough fuel; its actuator
sequence is exactly: duty 0 on the PWM pin, the 1000 ms hold (left at a poll
that reads at least 1000 ms past the start), duty `d` on the PWM pin; the
last-applied value is then `d` and the ready flag false. -/
theorem singleMotor_speedChange (clock : Nat → Nat) (s : Motor.State) (k d : Int)
    (hkd : (k, d) ∈ [((0 : Int), (0 : Int)), (1, 150), (2, 160), (3, 210), (4, 220)])
    (hready : s.newData = true) (hline : atoi (cstr s.receivedChars) = k)
    (hprev : s.prevNumber ≠ d) (hclock : Expires clock s.polls 1000) :
    ∃ fuel0 p, 1000 ≤ elapsed (millis clock (p - 1)) (millis clock s.polls) ∧
      ∀ fuel, fuel0 ≤ fuel →
        ∃ tr, Motor.ProcessSpeedInput clock fuel s =
            .returned
              { s with dataNumber := d, prevNumber := d, newData := false, polls := p } tr ∧
          actuation tr =
            [.analogWrite Motor.pwmPin 0, .hold 1000, .analogWrite Motor.pwmPin d] := by
  obtain ⟨fuel0, p, _, hD, _, hfuel⟩ := hold_exits clock s.polls 1000 hclock
  refine ⟨fuel0, p, hD, ?_⟩
  intro fuel hf
  have h2 := Motor.single_applySpeed_change clock fuel p { s with dataNumber := d }
    [Event.printlnBuf (cstr s.receivedChars)] (fun e => hprev e.symm) (hfuel fuel hf)
  rw [Motor.single_dispatch_tier clock fuel s k d hkd hready hline, h2]
  exact ⟨_, rfl, by simp [actuation, Event.isActuation]⟩

/-- C5 at work: the line "2" read from the initial state, under a clock that
gains 500 ms per poll, sets duty 160 after the zero-duty hold. -/
theorem singleMotor_speedChange_witness :
    ∃ fuel0 p, 1000 ≤ elapsed (millis (fun i => 500 * i) (p - 1)) (millis (fun i => 500 * i) 0) ∧
      ∀ fuel, fuel0 ≤ fuel →
        ∃ tr, Motor.ProcessSpeedInput (fun i => 500 * i) fuel
              ⟨readN 2 (Motor.initial [50, 10]).toReader, 0, 0, 0⟩ =
            .returned
              { (⟨readN 2 (Motor.initial [50, 10]).toReader, 0, 0, 0⟩ : Motor.State) with
                dataNumber := 160, prevNumber := 160, newData := false, polls := p } tr ∧
          actuation tr =
            [.analogWrite Motor.pwmPin 0, .hold 1000, .analogWrite Motor.pwmPin 160] :=
  singleMotor_speedChange (fun i => 500 * i) ⟨readN 2 (Motor.initial [50, 10]).toReader, 0, 0, 0⟩
    2 160 (by decide) (by decide) (by decide) (by decide) ⟨2, by decide, by decide⟩

/-! ## Debounce: the claims -/

/-- C6: in the single-motor sketch and in the dual sketch, when a dispatch of a
motor-speed code has returned and the reader has then published a line with the
same code, the second dispatch returns at once with the "no change"
diagnostic: no analog write, no hold, the last-applied state and every other
dispatcher variable as the first dispatch left them, the ready flag false. -/
theorem repeatedMotorCommand_debounced :
    (∀ (clock : Nat → Nat) (fuel fuel2 : Nat) (s s1 : Motor.State) (tr1 : List Event)
        (r2 : Reader) (c d : Int),
      (c, d) ∈ [((0 : Int), (0 : Int)), (1, 150), (2, 160), (3, 210), (4, 220)] →
      s.newData = true → atoi (cstr s.receivedChars) = c →
      Motor.ProcessSpeedInput clock fuel s = .returned s1 tr1 →
      r2.newData = true → atoi (cstr r2.receivedChars) = c →
      Motor.ProcessSpeedInput clock fuel2 { s1 with toReader := r2 } =
          .returned { s1 with toReader := { r2 with newData := false } }
            [.printlnBuf (cstr r2.receivedChars),
             .println "No change in speed. Keeping the previous setting."] ∧
        actuation (Motor.ProcessSpeedInput clock fuel2 { s1 with toReader := r2 }).trace = []) ∧
    (∀ (clock : Nat → Nat) (fuel fuel2 : Nat) (s s1 : MotorMagnet.State) (tr1 : List Event)
        (r2 : Reader) (c pin duty : Int),
      (c, pin, duty) ∈ [((0 : Int), (6 : Int), (0 : Int)), (1, 6, 80), (2, 6, 90),
        (3, 6, 100), (10, 10, 0), (11, 10, 80), (12, 10, 90), (13, 10, 100)] →
      s.newData = true → atoi (cstr s.receivedChars) = c →
      MotorMagnet.ProcessSpeedInput clock fuel s = .returned s1 tr1 →
      r2.newData = true → atoi (cstr r2.receivedChars) = c →
      MotorMagnet.ProcessSpeedInput clock fuel2 { s1 with toReader := r2 } =
          .returned { s1 with toReader := { r2 with newData := false } }
            [.printlnBuf (cstr r2.receivedChars),
             .println "No change in speed. Keeping the previous setting."] ∧
        actuation
          (MotorMagnet.ProcessSpeedInput clock fuel2 { s1 with toReader := r2 }).trace = []) := by
  constructor
  · intro clock fuel fuel2 s s1 tr1 r2 c d hcd hready hline h1 hready2 hline2
    rw [Motor.single_dispatch_tier clock fuel s c d hcd hready hline] at h1
    obtain ⟨hp, hdn, _⟩ := Motor.single_applySpeed_returned clock fuel _ s1 _ tr1 h1
    have hp' : s1.prevNumber = d := hp
    have hdn' : s1.dataNumber = d := hdn
    have h2 := Motor.single_dispatch_tier clock fuel2 { s1 with toReader := r2 } c d hcd hready2 hline2
    have h3 := Motor.single_applySpeed_same clock fuel2
      { ({ s1 with toReader := r2 } : Motor.State) with dataNumber := d }
      [Event.printlnBuf (cstr r2.receivedChars)] hp'.symm
    have h4 : Motor.ProcessSpeedInput clock fuel2 { s1 with toReader := r2 } =
        .returned { s1 with toReader := { r2 with newData := false } }
          [.printlnBuf (cstr r2.receivedChars),
           .println "No change in speed. Keeping the previous setting."] := by
      rw [h2, h3, ← hdn']
      rfl
    exact ⟨h4, by rw [h4]; rfl⟩
  · intro clock fuel fuel2 s s1 tr1 r2 c pin duty hc hready hline h1 hready2 hline2
    rw [MotorMagnet.dual_dispatch_motor clock fuel s c pin duty hc hready hline] at h1
    obtain ⟨hp, hpp, hdn, hpw, hrc, _, _⟩ :=
      MotorMagnet.dual_applySpeed_returned clock fuel _ s1 _ tr1 h1
    have hp' : s1.prevNumber = duty := hp
    have hpp' : s1.prevPin = pin := hpp
    have hdn' : s1.dataNumber = duty := hdn
    have hpw' : s1.pwmPin = pin := hpw
    have hrc' : s1.rcvdNumber = c := hrc
    have h2 := MotorMagnet.dual_dispatch_motor clock fuel2 { s1 with toReader := r2 } c pin duty hc
      hready2 hline2
    have h3 := MotorMagnet.dual_applySpeed_same clock fuel2
      { ({ s1 with toReader := r2 } : MotorMagnet.State) with
        rcvdNumber := c, dataNumber := duty, pwmPin := pin }
      [Event.printlnBuf (cstr r2.receivedChars)] hp'.symm hpp'.symm
    have h4 : MotorMagnet.ProcessSpeedInput clock fuel2 { s1 with toReader := r2 } =
        .returned { s1 with toReader := { r2 with newData := false } }
          [.printlnBuf (cstr r2.receivedChars),
           .println "No change in speed. Keeping the previous setting."] := by
      rw [h2, h3, ← hdn', ← hpw', ← hrc']
      rfl
    exact ⟨h4, by rw [h4]; rfl⟩

/-- C6 at work: the line "0" twice. In the single-motor sketch both dispatches
find duty 0 already applied; in the dual sketch the first one drives motor A
(under a clock that gains 500 ms per poll) and the second one changes nothing. -/
theorem repeatedMotorCommand_debounced_witness :
    actuation (Motor.ProcessSpeedInput (fun i => 500 * i) 0
      ⟨⟨48 :: List.replicate 31 0, 0, true, []⟩, 0, 0, 0⟩).trace = [] ∧
    actuation (MotorMagnet.ProcessSpeedInput (fun i => 500 * i) 0
      ⟨⟨48 :: List.replicate 31 0, 0, true, []⟩, 0, 6, 6, 0, 0, 0, 3⟩).trace = [] :=
  ⟨(repeatedMotorCommand_debounced.1 (fun i => 500 * i) 5 0
      ⟨⟨48 :: List.replicate 31 0, 0, true, [48, 10]⟩, 0, 0, 0⟩
      ⟨⟨48 :: List.replicate 31 0, 0, false, [48, 10]⟩, 0, 0, 0⟩
      [.printlnBuf [48], .println "No change in speed. Keeping the previous setting."]
      ⟨48 :: List.replicate 31 0, 0, true, []⟩ 0 0
      (by decide) (by decide) (by decide) (by decide) (by decide) (by decide)).2,
   (repeatedMotorCommand_debounced.2 (fun i => 500 * i) 5 0
      ⟨⟨48 :: List.replicate 31 0, 0, true, [48, 10]⟩, 0, 0, 0, 0, 0, 0, 0⟩
      ⟨⟨48 :: List.replicate 31 0, 0, false, [48, 10]⟩, 0, 6, 6, 0, 0, 0, 3⟩
      [.printlnBuf [48], .print "Changing speed ... ", .analogWrite 6 0, .hold 1000,
       .print "Setting motor speed to ... ", .printlnPercent 0, .analogWrite 6 0]
      ⟨48 :: List.replicate 31 0, 0, true, []⟩ 0 6 0
      (by decide) (by decide) (by decide) (by decide) (by decide) (by decide)).2⟩

/-- C7, as stated, fails on the codes 1, 11, 1 (clock gaining 500 ms per poll):
after the first two commands the duty most recently applied to motor A's pin is
80, and the third command, which resolves to duty 80 on motor A, still writes
duty 0, holds 1000 ms and writes duty 80 again. -/
theorem perChannelDebounce_counterexample :
    actuation (runTicks (MotorMagnet.loop (fun i => 500 * i) 5) 6
        (MotorMagnet.initial [49, 10, 49, 49, 10, 49, 10])).trace =
      [.analogWrite 6 0, .hold 1000, .analogWrite 6 80,
       .analogWrite 10 0, .hold 1000, .analogWrite 10 80] ∧
    lastDutyOn MotorMagnet.pwmPinA (runTicks (MotorMagnet.loop (fun i => 500 * i) 5) 6
        (MotorMagnet.initial [49, 10, 49, 49, 10, 49, 10])).trace = some 80 ∧
    (runTicks (MotorMagnet.loop (fun i => 500 * i) 5) 7
        (MotorMagnet.initial [49, 10, 49, 49, 10, 49, 10])).trace =
      (runTicks (MotorMagnet.loop (fun i => 500 * i) 5) 6
        (MotorMagnet.initial [49, 10, 49, 49, 10, 49, 10])).trace ++
      [.printlnBuf [49], .print "Changing speed ... ", .analogWrite 6 0, .hold 1000,
       .print "Setting motor speed to ... ", .printlnPercent 80, .analogWrite 6 80] := by
  decide

/-- C7 (amended): the dual sketch keeps one debounce record for both motors.
After any number of ticks from the initial state on any byte stream, a pending
motor-speed command makes the dispatcher perform no analog write and no settle
hold exactly when its resolved channel and duty are the channel and duty of the
most recent analog write of the dispatcher, on either motor; a change applied
to the other motor in between re-arms the debounce. -/
theorem sharedDebounce (clock : Nat → Nat) (fuel fuel2 n : Nat) (bytes : List Byte)
    (s : MotorMagnet.State) (tr : List Event)
    (hrun : runTicks (MotorMagnet.loop clock fuel) n (MotorMagnet.initial bytes) = .returned s tr)
    (r : Reader) (code pin duty : Int)
    (hc : (code, pin, duty) ∈ [((0 : Int), (6 : Int), (0 : Int)), (1, 6, 80), (2, 6, 90),
      (3, 6, 100), (10, 10, 0), (11, 10, 80), (12, 10, 90), (13, 10, 100)])
    (hready : r.newData = true) (hline : atoi (cstr r.receivedChars) = code) :
    actuation (MotorMagnet.ProcessSpeedInput clock fuel2 { s with toReader := r }).trace = [] ↔
      lastAnalog tr = some (pin, duty) := by
  have hinv : MotorMagnet.RecordMatches s tr := by
    have := MotorMagnet.dual_run_record clock fuel n (MotorMagnet.initial bytes) s tr [] hrun
      (Or.inl ⟨rfl, rfl, rfl⟩)
    simpa using this
  have hpin : pin ≠ 0 := by
    simp only [List.mem_cons, Prod.mk.injEq, List.mem_singleton, List.not_mem_nil, or_false] at hc
    rcases hc with h | h | h | h | h | h | h | h <;> rw [h.2.1] <;> decide
  rw [MotorMagnet.dual_dispatch_motor clock fuel2 { s with toReader := r } code pin duty hc hready hline]
  by_cases hsame : duty = s.prevNumber ∧ pin = s.prevPin
  · rw [MotorMagnet.dual_applySpeed_same clock fuel2 _ _ hsame.1 hsame.2]
    have hl : lastAnalog tr = some (pin, duty) := by
      rcases hinv with ⟨_, g2, _⟩ | g1
      · exact absurd (hsame.2.trans g2) hpin
      · rw [g1, hsame.1, hsame.2]
    simp [Outcome.trace, actuation, Event.isActuation, hl]
  · have hl : lastAnalog tr ≠ some (pin, duty) := by
      intro e
      rcases hinv with ⟨g1, _, _⟩ | g1
      · rw [g1] at e; cases e
      · rw [g1] at e
        injection e with e
        injection e with e1 e2
        exact hsame ⟨e2.symm, e1.symm⟩
    cases hw : busyWait clock (millis clock s.polls) 1000 fuel2 (s.polls + 1) with
    | none =>
      have h2 := MotorMagnet.dual_applySpeed_spinning clock fuel2
        { ({ s with toReader := r } : MotorMagnet.State) with
          rcvdNumber := code, dataNumber := duty, pwmPin := pin }
        [Event.printlnBuf (cstr r.receivedChars)] hsame hw
      rw [h2]
      simp [Outcome.trace, actuation, Event.isActuation, hl]
    | some p =>
      have h2 := MotorMagnet.dual_applySpeed_change clock fuel2 p
        { ({ s with toReader := r } : MotorMagnet.State) with
          rcvdNumber := code, dataNumber := duty, pwmPin := pin }
        [Event.printlnBuf (cstr r.receivedChars)] hsame hw
      rw [h2]
      simp [Outcome.trace, actuation, Event.isActuation, hl]

/-- C7 at work: after the codes 1 and 11 (clock gaining 500 ms per poll) the
record holds motor B at duty 80: code 11 again is debounced, code 1 is not. -/
theorem sharedDebounce_witness :
    actuation (MotorMagnet.ProcessSpeedInput (fun i => 500 * i) 0
      ⟨⟨49 :: 49 :: List.replicate 30 0, 0, true, []⟩, 0, 10, 10, 11, 80, 80, 6⟩).trace = [] ∧
    actuation (MotorMagnet.ProcessSpeedInput (fun i => 500 * i) 0
      ⟨⟨49 :: List.replicate 31 0, 0, true, []⟩, 0, 10, 10, 11, 80, 80, 6⟩).trace ≠ [] :=
  ⟨(sharedDebounce (fun i => 500 * i) 5 0 5 [49, 10, 49, 49, 10]
      ⟨⟨49 :: 49 :: List.replicate 30 0, 0, false, []⟩, 0, 10, 10, 11, 80, 80, 6⟩
      [.printlnBuf [49], .print "Changing speed ... ", .analogWrite 6 0, .hold 1000,
       .print "Setting motor speed to ... ", .printlnPercent 80, .analogWrite 6 80,
       .printlnBuf [49, 49], .print "Changing speed ... ", .analogWrite 10 0, .hold 1000,
       .print "Setting motor speed to ... ", .printlnPercent 80, .analogWrite 10 80]
      (by decide) ⟨49 :: 49 :: List.replicate 30 0, 0, true, []⟩ 11 10 80
      (by decide) (by decide) (by decide)).2 (by decide),
   fun h => absurd ((sharedDebounce (fun i => 500 * i) 5 0 5 [49, 10, 49, 49, 10]
      ⟨⟨49 :: 49 :: List.replicate 30 0, 0, false, []⟩, 0, 10, 10, 11, 80, 80, 6⟩
      [.printlnBuf [49], .print "Changing speed ... ", .analogWrite 6 0, .hold 1000,
       .print "Setting motor speed to ... ", .printlnPercent 80, .analogWrite 6 80,
       .printlnBuf [49, 49], .print "Changing speed ... ", .analogWrite 10 0, .hold 1000,
       .print "Setting motor speed to ... ", .printlnPercent 80, .analogWrite 10 80]
      (by decide) ⟨49 :: List.replicate 31 0, 0, true, []⟩ 1 6 80
      (by decide) (by decide) (by decide)).1 h) (by decide)⟩

/-! ## Invalid commands and magnet pulses: the claims -/

/-- C8: in each of the three sketches, a pending line whose parsed integer is
outside the sketch's vocabulary makes the dispatcher return with the echo and
the invalid-input diagnostic only: no digital write, no analog write, no hold;
the last-applied state is unchanged and the ready flag ends false. -/
theorem invalidCommand_rejected (clock : Nat → Nat) (fuel : Nat) :
    (∀ s : Magnet.State, s.newData = true →
      atoi (cstr s.receivedChars) ∉ [(0 : Int), 1, -1] →
      ∃ s1 tr, Magnet.ProcessMagInput clock fuel s = .returned s1 tr ∧
        actuation tr = [] ∧ Event.println "Invalid input." ∈ tr ∧
        s1 = { s with dataNumber := atoi (cstr s.receivedChars), newData := false }) ∧
    (∀ s : Motor.State, s.newData = true →
      atoi (cstr s.receivedChars) ∉ [(0 : Int), 1, 2, 3, 4, -1] →
      ∃ s1 tr, Motor.ProcessSpeedInput clock fuel s = .returned s1 tr ∧
        actuation tr = [] ∧
        Event.println "Invalid input. Please enter a number between 0 and 4." ∈ tr ∧
        s1.prevNumber = s.prevNumber ∧
        s1 = { s with dataNumber := atoi (cstr s.receivedChars), newData := false }) ∧
    (∀ s : MotorMagnet.State, s.newData = true →
      atoi (cstr s.receivedChars) ∉
        [(0 : Int), 1, 2, 3, 10, 11, 12, 13, 20, 21, 30, 31, -1] →
      ∃ s1 tr, MotorMagnet.ProcessSpeedInput clock fuel s = .returned s1 tr ∧
        actuation tr = [] ∧
        Event.println "Invalid input. Please enter a number between 0 and 4." ∈ tr ∧
        s1.prevNumber = s.prevNumber ∧ s1.prevPin = s.prevPin ∧
        s1 = { s with rcvdNumber := atoi (cstr s.receivedChars), newData := false }) := by
  refine ⟨?_, ?_, ?_⟩
  · intro s hready hline
    exact ⟨_, _, Magnet.magnet_dispatch_invalid clock fuel s hready hline,
      by simp [actuation, Event.isActuation], by simp, rfl⟩
  · intro s hready hline
    exact ⟨_, _, Motor.single_dispatch_invalid clock fuel s hready hline,
      by simp [actuation, Event.isActuation], by simp, rfl, rfl⟩
  · intro s hready hline
    exact ⟨_, _, MotorMagnet.dual_dispatch_invalid clock fuel s hready hline,
      by simp [actuation, Event.isActuation], by simp, rfl, rfl, rfl⟩

/-- C8 at work: the pending line "99" in the three sketches. -/
theorem invalidCommand_rejected_witness :
    (∃ s1 tr, Magnet.ProcessMagInput (fun i => i) 0
        ⟨⟨57 :: 57 :: List.replicate 30 0, 0, true, []⟩, 0, 0⟩ = .returned s1 tr ∧
      actuation tr = [] ∧ s1.newData = false) ∧
    (∃ s1 tr, Motor.ProcessSpeedInput (fun i => i) 0
        ⟨⟨57 :: 57 :: List.replicate 30 0, 0, true, []⟩, 0, 150, 0⟩ = .returned s1 tr ∧
      actuation tr = [] ∧ s1.prevNumber = 150 ∧ s1.newData = false) ∧
    (∃ s1 tr, MotorMagnet.ProcessSpeedInput (fun i => i) 0
        ⟨⟨57 :: 57 :: List.replicate 30 0, 0, true, []⟩, 0, 6, 6, 1, 80, 80, 0⟩ =
          .returned s1 tr ∧
      actuation tr = [] ∧ s1.prevNumber = 80 ∧ s1.prevPin = 6 ∧ s1.newData = false) :=
  ⟨by
    obtain ⟨s1, tr, h1, h2, _, h4⟩ := (invalidCommand_rejected (fun i => i) 0).1
      ⟨⟨57 :: 57 :: List.replicate 30 0, 0, true, []⟩, 0, 0⟩ (by decide) (by decide)
    exact ⟨s1, tr, h1, h2, by rw [h4]⟩,
   by
    obtain ⟨s1, tr, h1, h2, _, h4, h5⟩ := (invalidCommand_rejected (fun i => i) 0).2.1
      ⟨⟨57 :: 57 :: List.replicate 30 0, 0, true, []⟩, 0, 150, 0⟩ (by decide) (by decide)
    exact ⟨s1, tr, h1, h2, h4, by rw [h5]⟩,
   by
    obtain ⟨s1, tr, h1, h2, _, h4, h5, h6⟩ := (invalidCommand_rejected (fun i => i) 0).2.2
      ⟨⟨57 :: 57 :: List.replicate 30 0, 0, true, []⟩, 0, 6, 6, 1, 80, 80, 0⟩
      (by decide) (by decide)
    exact ⟨s1, tr, h1, h2, h4, h5, by rw [h6]⟩⟩

/-- C9: in the single-magnet sketch, with the ready flag true: a pending line
of value 1, under a clock whose pulse hold comes to an end, makes the
dispatcher return for every large enough fuel, its actuator sequence being
exactly LOW (energized, the relay is active-low) on the magnet pin, the
10000 ms hold (left at a poll that reads at least 10000 ms past the start),
HIGH (de-energized) on the magnet pin, with the ready flag false at the end; a
pending line of value 0 makes it perform exactly one write, HIGH on the magnet
pin, and no hold. -/
theorem singleMagnet_pulse (clock : Nat → Nat) (s : Magnet.State)
    (hready : s.newData = true) :
    (atoi (cstr s.receivedChars) = 1 → Expires clock s.polls 10000 →
      ∃ fuel0 p, 10000 ≤ elapsed (millis clock (p - 1)) (millis clock s.polls) ∧
        ∀ fuel, fuel0 ≤ fuel →
          ∃ tr, Magnet.ProcessMagInput clock fuel s =
              .returned { s with dataNumber := 1, newData := false, polls := p } tr ∧
            actuation tr =
              [.digitalWrite Magnet.digPin LOW, .hold 10000,
               .digitalWrite Magnet.digPin HIGH]) ∧
    (atoi (cstr s.receivedChars) = 0 →
      ∀ fuel, ∃ tr, Magnet.ProcessMagInput clock fuel s =
          .returned { s with dataNumber := 0, newData := false } tr ∧
        actuation tr = [.digitalWrite Magnet.digPin HIGH]) := by
  constructor
  · intro hline hclock
    obtain ⟨fuel0, p, _, hD, _, hfuel⟩ := hold_exits clock s.polls 10000 hclock
    refine ⟨fuel0, p, hD, ?_⟩
    intro fuel hf
    rw [Magnet.magnet_dispatch_on clock fuel s hready hline, hfuel fuel hf]
    exact ⟨_, rfl, by simp [actuation, Event.isActuation]⟩
  · intro hline fuel
    rw [Magnet.magnet_dispatch_off clock fuel s hready hline]
    exact ⟨_, rfl, by simp [actuation, Event.isActuation]⟩

/-- C9 at work: the pending lines "1" and "0", under a clock that gains
2500 ms per poll. -/
theorem singleMagnet_pulse_witness :
    (∃ fuel0 p, 10000 ≤ elapsed (millis (fun i => 2500 * i) (p - 1)) (millis (fun i => 2500 * i) 0) ∧
        ∀ fuel, fuel0 ≤ fuel →
          ∃ tr, Magnet.ProcessMagInput (fun i => 2500 * i) fuel
                ⟨⟨49 :: List.replicate 31 0, 0, true, []⟩, 0, 0⟩ =
              .returned ⟨⟨49 :: List.replicate 31 0, 0, false, []⟩, 1, p⟩ tr ∧
            actuation tr = [.digitalWrite 8 LOW, .hold 10000, .digitalWrite 8 HIGH]) ∧
    (∀ fuel, ∃ tr, Magnet.ProcessMagInput (fun i => 2500 * i) fuel
          ⟨⟨48 :: List.replicate 31 0, 0, true, []⟩, 1, 5⟩ =
        .returned ⟨⟨48 :: List.replicate 31 0, 0, false, []⟩, 0, 5⟩ tr ∧
      actuation tr = [.digitalWrite 8 HIGH]) :=
  ⟨(singleMagnet_pulse (fun i => 2500 * i) ⟨⟨49 :: List.replicate 31 0, 0, true, []⟩, 0, 0⟩
      (by decide)).1 (by decide) ⟨4, by decide, by decide⟩,
   (singleMagnet_pulse (fun i => 2500 * i) ⟨⟨48 :: List.replicate 31 0, 0, true, []⟩, 1, 5⟩
      (by decide)).2 (by decide)⟩

/-! ## Dual command table: the claim -/

/-- C10: the dual sketch's dispatcher, with the ready flag true, resolves every
integer code by this table. Codes 0, 1, 2, 3 go to motor A (PWM pin 6) and
10, 11, 12, 13 to motor B (PWM pin 10), with duty 0, 80, 90, 100: the resolved
pin and duty are stored, and either they equal the last-applied pair and
nothing is written, or (the settle hold coming to an end) the pin gets duty 0,
a 1000 ms hold, and the duty. Code 20 turns magnet B (relay pin 2) on, code 30
magnet A (relay pin 3): HIGH on the relay, the 10000 ms hold, LOW on the relay.
Either hold is timed: the dispatcher comes back at poll `p`, right after the
first poll that reads at least the hold time (1000 ms, 10000 ms) past the poll
that started it, every poll in between reading less. Code 21 turns magnet B
off, code 31 magnet A: LOW on the relay at once. Code -1 resets. Every other
integer is invalid: diagnostic only. -/
theorem dualCommandTable (clock : Nat → Nat) (s : MotorMagnet.State)
    (hready : s.newData = true) :
    (∀ code pin duty,
      (code, pin, duty) ∈ [((0 : Int), (6 : Int), (0 : Int)), (1, 6, 80), (2, 6, 90),
        (3, 6, 100), (10, 10, 0), (11, 10, 80), (12, 10, 90), (13, 10, 100)] →
      atoi (cstr s.receivedChars) = code →
      (duty = s.prevNumber ∧ pin = s.prevPin →
        ∀ fuel, MotorMagnet.ProcessSpeedInput clock fuel s =
          .returned
            { s with rcvdNumber := code, dataNumber := duty, pwmPin := pin, newData := false }
            [.printlnBuf (cstr s.receivedChars),
             .println "No change in speed. Keeping the previous setting."]) ∧
      (¬ (duty = s.prevNumber ∧ pin = s.prevPin) → Expires clock s.polls 1000 →
        ∃ fuel0 p, s.polls + 1 < p ∧
          1000 ≤ elapsed (millis clock (p - 1)) (millis clock s.polls) ∧
          (∀ j, s.polls < j → j < p - 1 →
            elapsed (millis clock j) (millis clock s.polls) < 1000) ∧
          ∀ fuel, fuel0 ≤ fuel →
          MotorMagnet.ProcessSpeedInput clock fuel s =
            .returned
              { s with
                rcvdNumber := code, dataNumber := duty, pwmPin := pin, prevNumber := duty,
                prevPin := pin, newData := false, polls := p }
              [.printlnBuf (cstr s.receivedChars), .print "Changing speed ... ",
               .analogWrite pin 0, .hold 1000, .print "Setting motor speed to ... ",
               .printlnPercent duty, .analogWrite pin duty])) ∧
    (∀ code relay labelOn labelOff,
      (code, relay, labelOn, labelOff) ∈
        [((30 : Int), (3 : Int), "Magnet A - ON", "Magnet A - OFF"),
         (20, 2, "Magnet B - ON", "Magnet B - OFF")] →
      atoi (cstr s.receivedChars) = code → Expires clock s.polls 10000 →
      ∃ fuel0 p, s.polls + 1 < p ∧
        10000 ≤ elapsed (millis clock (p - 1)) (millis clock s.polls) ∧
        (∀ j, s.polls < j → j < p - 1 →
          elapsed (millis clock j) (millis clock s.polls) < 10000) ∧
        ∀ fuel, fuel0 ≤ fuel →
        MotorMagnet.ProcessSpeedInput clock fuel s =
          .returned
            { s with
              rcvdNumber := code, startTime := millis clock s.polls, newData := false,
              polls := p }
            [.printlnBuf (cstr s.receivedChars), .println labelOn, .digitalWrite relay HIGH,
             .hold 10000, .digitalWrite relay LOW, .println labelOff]) ∧
    (∀ code relay label,
      (code, relay, label) ∈
        [((31 : Int), (3 : Int), "Magnet A - OFF"), (21, 2, "Magnet B - OFF")] →
      atoi (cstr s.receivedChars) = code →
      ∀ fuel, MotorMagnet.ProcessSpeedInput clock fuel s =
        .returned { s with rcvdNumber := code, newData := false }
          [.printlnBuf (cstr s.receivedChars), .digitalWrite relay LOW, .println label]) ∧
    (atoi (cstr s.receivedChars) = -1 →
      ∀ fuel, MotorMagnet.ProcessSpeedInput clock fuel s =
        .reset [.printlnBuf (cstr s.receivedChars)]) ∧
    (atoi (cstr s.receivedChars) ∉
        [(0 : Int), 1, 2, 3, 10, 11, 12, 13, 20, 21, 30, 31, -1] →
      ∀ fuel, MotorMagnet.ProcessSpeedInput clock fuel s =
        .returned { s with rcvdNumber := atoi (cstr s.receivedChars), newData := false }
          [.printlnBuf (cstr s.receivedChars),
           .println "Invalid input. Please enter a number between 0 and 4."]) := by
  refine ⟨?_, ?_, ?_, ?_, ?_⟩
  · intro code pin duty hc hline
    constructor
    · intro hsame fuel
      rw [MotorMagnet.dual_dispatch_motor clock fuel s code pin duty hc hready hline]
      exact MotorMagnet.dual_applySpeed_same clock fuel
        { s with rcvdNumber := code, dataNumber := duty, pwmPin := pin } _ hsame.1 hsame.2
    · intro hdiff hclock
      obtain ⟨fuel0, p, hp, hD, hmin, hfuel⟩ := hold_exits clock s.polls 1000 hclock
      refine ⟨fuel0, p, hp, hD, hmin, ?_⟩
      intro fuel hf
      rw [MotorMagnet.dual_dispatch_motor clock fuel s code pin duty hc hready hline]
      exact MotorMagnet.dual_applySpeed_change clock fuel p
        { s with rcvdNumber := code, dataNumber := duty, pwmPin := pin } _ hdiff (hfuel fuel hf)
  · intro code relay labelOn labelOff hc hline hclock
    obtain ⟨fuel0, p, hp, hD, hmin, hfuel⟩ := hold_exits clock s.polls 10000 hclock
    refine ⟨fuel0, p, hp, hD, hmin, ?_⟩
    intro fuel hf
    rw [MotorMagnet.dual_dispatch_magnetOn clock fuel s code relay labelOn labelOff hc hready hline,
      hfuel fuel hf]
  · intro code relay label hc hline fuel
    exact MotorMagnet.dual_dispatch_magnetOff clock fuel s code relay label hc hready hline
  · intro hline fuel
    exact MotorMagnet.dual_dispatch_reset clock fuel s hready hline
  · intro hline fuel
    exact MotorMagnet.dual_dispatch_invalid clock fuel s hready hline

/-- C10 at work, from the initial globals. The pending line "20", under a
clock that gains 2500 ms per poll, pulses relay pin 2 and comes back only at a
poll that reads at least 10000 ms past the start; the pending line "11", under
a clock that gains 500 ms per poll, sets duty 80 on PWM pin 10 after a hold
left at a poll that reads at least 1000 ms past the start. -/
theorem dualCommandTable_witness :
    (∃ fuel0 p, 0 + 1 < p ∧
      10000 ≤ elapsed (millis (fun i => 2500 * i) (p - 1)) (millis (fun i => 2500 * i) 0) ∧
      (∀ j, 0 < j → j < p - 1 →
        elapsed (millis (fun i => 2500 * i) j) (millis (fun i => 2500 * i) 0) < 10000) ∧
      ∀ fuel, fuel0 ≤ fuel →
        MotorMagnet.ProcessSpeedInput (fun i => 2500 * i) fuel
            ⟨⟨50 :: 48 :: List.replicate 30 0, 0, true, []⟩, 0, 0, 0, 0, 0, 0, 0⟩ =
          .returned ⟨⟨50 :: 48 :: List.replicate 30 0, 0, false, []⟩, 0, 0, 0, 20, 0, 0, p⟩
            [.printlnBuf [50, 48], .println "Magnet B - ON", .digitalWrite 2 HIGH,
             .hold 10000, .digitalWrite 2 LOW, .println "Magnet B - OFF"]) ∧
    (∃ fuel0 p, 0 + 1 < p ∧
      1000 ≤ elapsed (millis (fun i => 500 * i) (p - 1)) (millis (fun i => 500 * i) 0) ∧
      (∀ j, 0 < j → j < p - 1 →
        elapsed (millis (fun i => 500 * i) j) (millis (fun i => 500 * i) 0) < 1000) ∧
      ∀ fuel, fuel0 ≤ fuel →
        MotorMagnet.ProcessSpeedInput (fun i => 500 * i) fuel
            ⟨⟨49 :: 49 :: List.replicate 30 0, 0, true, []⟩, 0, 0, 0, 0, 0, 0, 0⟩ =
          .returned ⟨⟨49 :: 49 :: List.replicate 30 0, 0, false, []⟩, 0, 10, 10, 11, 80, 80, p⟩
            [.printlnBuf [49, 49], .print "Changing speed ... ", .analogWrite 10 0,
             .hold 1000, .print "Setting motor speed to ... ", .printlnPercent 80,
             .analogWrite 10 80]) :=
  ⟨(dualCommandTable (fun i => 2500 * i)
      ⟨⟨50 :: 48 :: List.replicate 30 0, 0, true, []⟩, 0, 0, 0, 0, 0, 0, 0⟩ (by decide)).2.1
      20 2 "Magnet B - ON" "Magnet B - OFF" (by decide) (by decide) ⟨4, by decide, by decide⟩,
   ((dualCommandTable (fun i => 500 * i)
      ⟨⟨49 :: 49 :: List.replicate 30 0, 0, true, []⟩, 0, 0, 0, 0, 0, 0, 0⟩ (by decide)).1
      11 10 80 (by decide) (by decide)).2 (by decide) ⟨2, by decide, by decide⟩⟩

/-! ## Runs of ticks: helper lemmas -/

theorem after_after {σ : Type} (a b : List Event) (o : Outcome σ) :
    (o.after b).after a = o.after (a ++ b) := by
  cases o <;> simp [Outcome.after, List.append_assoc]

theorem after_nil {σ : Type} (o : Outcome σ) : o.after [] = o := by
  cases o <;> simp [Outcome.after]

/-- A run of `m + k` ticks is the run of `m` ticks followed, when it returned,
by a run of `k` ticks from the state reached; a reset or a spent busy-wait in
the first `m` ticks is the outcome of the longer run too. -/
theorem runTicks_add {σ : Type} (tick : σ → Outcome σ) (m k : Nat) :
    ∀ s : σ, runTicks tick (m + k) s =
      match runTicks tick m s with
      | .returned s1 tr1 => (runTicks tick k s1).after tr1
      | .reset tr1 => .reset tr1
      | .spinning tr1 => .spinning tr1 := by
  induction m with
  | zero =>
    intro s
    simp [runTicks, after_nil]
  | succ m ih =>
    intro s
    have e : m + 1 + k = (m + k) + 1 := by omega
    rw [e]
    cases hl : tick s with
    | returned s1 tr1 =>
      have h1 : runTicks tick (m + k + 1) s = (runTicks tick (m + k) s1).after tr1 := by
        simp only [runTicks, hl]
      have h2 : runTicks tick (m + 1) s = (runTicks tick m s1).after tr1 := by
        simp only [runTicks, hl]
      rw [h1, h2, ih s1]
      cases hr : runTicks tick m s1 with
      | returned s2 tr2 => exact after_after tr1 tr2 _
      | reset tr2 => rfl
      | spinning tr2 => rfl
    | reset tr1 =>
      have h1 : runTicks tick (m + k + 1) s = .reset tr1 := by simp only [runTicks, hl]
      have h2 : runTicks tick (m + 1) s = .reset tr1 := by simp only [runTicks, hl]
      rw [h1, h2]
    | spinning tr1 =>
      have h1 : runTicks tick (m + k + 1) s = .spinning tr1 := by simp only [runTicks, hl]
      have h2 : runTicks tick (m + 1) s = .spinning tr1 := by simp only [runTicks, hl]
      rw [h1, h2]

theorem runTicks_one {σ : Type} (tick : σ → Outcome σ) (s : σ) :
    runTicks tick 1 s = tick s := by
  simp only [runTicks]
  cases tick s <;> simp [Outcome.after]

/-- Once a tick of a run has reset, the run is over: asking for more ticks
adds nothing to its events. -/
theorem runTicks_reset_ends {σ : Type} (tick : σ → Outcome σ) (m n : Nat) (s0 s : σ)
    (tr0 tr : List Event) (hrun : runTicks tick m s0 = .returned s tr0)
    (htick : tick s = .reset tr) :
    runTicks tick (m + 1 + n) s0 = .reset (tr0 ++ tr) := by
  have e : m + 1 + n = m + (1 + n) := by omega
  rw [e, runTicks_add, hrun]
  simp only []
  rw [runTicks_add, runTicks_one, htick]
  simp [Outcome.after]

/-! ## Idle and reset dispatches: helper lemmas -/

theorem Magnet.magnet_dispatch_idle (clock : Nat → Nat) (fuel : Nat) (s : Magnet.State)
    (h : s.newData = false) :
    Magnet.ProcessMagInput clock fuel s = .returned s [] := by
  simp [Magnet.ProcessMagInput, h]

theorem Motor.single_dispatch_idle (clock : Nat → Nat) (fuel : Nat) (s : Motor.State)
    (h : s.newData = false) :
    Motor.ProcessSpeedInput clock fuel s = .returned s [] := by
  simp [Motor.ProcessSpeedInput, h]

theorem Magnet.magnet_dispatch_reset (clock : Nat → Nat) (fuel : Nat) (s : Magnet.State)
    (hready : s.newData = true) (hline : atoi (cstr s.receivedChars) = -1) :
    Magnet.ProcessMagInput clock fuel s = .reset [.printlnBuf (cstr s.receivedChars)] := by
  simp [Magnet.ProcessMagInput, hready, hline]

theorem Motor.single_dispatch_reset (clock : Nat → Nat) (fuel : Nat) (s : Motor.State)
    (hready : s.newData = true) (hline : atoi (cstr s.receivedChars) = -1) :
    Motor.ProcessSpeedInput clock fuel s = .reset [.printlnBuf (cstr s.receivedChars)] := by
  simp [Motor.ProcessSpeedInput, hready, hline]

/-! ## Reset and idle dispatches: the claims -/

/-- C11: in each of the three sketches, with the ready flag true and a pending
line of value -1, the dispatcher ends in the reset (the call through address 0,
from which control does not come back) after the echo alone: no digital or
analog write comes before it in that dispatch. In a run of ticks, the tick in
which this happens is the last one: whatever number of further ticks is asked
for, the events of the run end with that echo, so no write follows the reset
in the same run. -/
theorem resetCommand (clock : Nat → Nat) (fuel : Nat) :
    (∀ s : Magnet.State, s.newData = true → atoi (cstr s.receivedChars) = -1 →
      Magnet.ProcessMagInput clock fuel s = .reset [.printlnBuf (cstr s.receivedChars)] ∧
      actuation (Magnet.ProcessMagInput clock fuel s).trace = []) ∧
    (∀ s : Motor.State, s.newData = true → atoi (cstr s.receivedChars) = -1 →
      Motor.ProcessSpeedInput clock fuel s = .reset [.printlnBuf (cstr s.receivedChars)] ∧
      actuation (Motor.ProcessSpeedInput clock fuel s).trace = []) ∧
    (∀ s : MotorMagnet.State, s.newData = true → atoi (cstr s.receivedChars) = -1 →
      MotorMagnet.ProcessSpeedInput clock fuel s =
        .reset [.printlnBuf (cstr s.receivedChars)] ∧
      actuation (MotorMagnet.ProcessSpeedInput clock fuel s).trace = []) ∧
    (∀ (s0 s : Magnet.State) (tr0 : List Event) (m n : Nat),
      runTicks (Magnet.loop clock fuel) m s0 = .returned s tr0 →
      (_processString s.toReader).newData = true →
      atoi (cstr (_processString s.toReader).receivedChars) = -1 →
      runTicks (Magnet.loop clock fuel) (m + 1 + n) s0 =
        .reset (tr0 ++ [.printlnBuf (cstr (_processString s.toReader).receivedChars)])) ∧
    (∀ (s0 s : Motor.State) (tr0 : List Event) (m n : Nat),
      runTicks (Motor.loop clock fuel) m s0 = .returned s tr0 →
      (_processString s.toReader).newData = true →
      atoi (cstr (_processString s.toReader).receivedChars) = -1 →
      runTicks (Motor.loop clock fuel) (m + 1 + n) s0 =
        .reset (tr0 ++ [.printlnBuf (cstr (_processString s.toReader).receivedChars)])) ∧
    (∀ (s0 s : MotorMagnet.State) (tr0 : List Event) (m n : Nat),
      runTicks (MotorMagnet.loop clock fuel) m s0 = .returned s tr0 →
      (_processString s.toReader).newData = true →
      atoi (cstr (_processString s.toReader).receivedChars) = -1 →
      runTicks (MotorMagnet.loop clock fuel) (m + 1 + n) s0 =
        .reset (tr0 ++ [.printlnBuf (cstr (_processString s.toReader).receivedChars)])) := by
  refine ⟨?_, ?_, ?_, ?_, ?_, ?_⟩
  · intro s hready hline
    rw [Magnet.magnet_dispatch_reset clock fuel s hready hline]
    exact ⟨rfl, rfl⟩
  · intro s hready hline
    rw [Motor.single_dispatch_reset clock fuel s hready hline]
    exact ⟨rfl, rfl⟩
  · intro s hready hline
    rw [MotorMagnet.dual_dispatch_reset clock fuel s hready hline]
    exact ⟨rfl, rfl⟩
  · intro s0 s tr0 m n hrun hready hline
    exact runTicks_reset_ends _ m n s0 s tr0 _ hrun
      (Magnet.magnet_dispatch_reset clock fuel
        { s with toReader := _processString s.toReader } hready hline)
  · intro s0 s tr0 m n hrun hready hline
    exact runTicks_reset_ends _ m n s0 s tr0 _ hrun
      (Motor.single_dispatch_reset clock fuel
        { s with toReader := _processString s.toReader } hready hline)
  · intro s0 s tr0 m n hrun hready hline
    exact runTicks_reset_ends _ m n s0 s tr0 _ hrun
      (MotorMagnet.dual_dispatch_reset clock fuel
        { s with toReader := _processString s.toReader } hready hline)

/-- C11 at work: the stream "-1", end marker, "1", end marker in the dual
sketch: the third tick resets, and eight ticks later the run still shows the
echo of "-1" as its only event. -/
theorem resetCommand_witness :
    runTicks (MotorMagnet.loop (fun i => 500 * i) 5) (2 + 1 + 8)
        (MotorMagnet.initial [45, 49, 10, 49, 10]) =
      .reset ([] ++ [.printlnBuf (cstr (_processString
        (⟨⟨45 :: 49 :: List.replicate 30 0, 2, false, [10, 49, 10]⟩,
          0, 0, 0, 0, 0, 0, 0⟩ : MotorMagnet.State).toReader).receivedChars)]) :=
  (resetCommand (fun i => 500 * i) 5).2.2.2.2.2
    (MotorMagnet.initial [45, 49, 10, 49, 10])
    ⟨⟨45 :: 49 :: List.replicate 30 0, 2, false, [10, 49, 10]⟩, 0, 0, 0, 0, 0, 0, 0⟩
    [] 2 8 (by decide) (by decide) (by decide)

/-- C13: in each of the three sketches, with the ready flag false, one call of
the dispatcher returns the state it was given, every field as it was, and
produces no event at all: no pin write, no hold, no reset. -/
theorem idleDispatch_noop (clock : Nat → Nat) (fuel : Nat) :
    (∀ s : Magnet.State, s.newData = false →
      Magnet.ProcessMagInput clock fuel s = .returned s []) ∧
    (∀ s : Motor.State, s.newData = false →
      Motor.ProcessSpeedInput clock fuel s = .returned s []) ∧
    (∀ s : MotorMagnet.State, s.newData = false →
      MotorMagnet.ProcessSpeedInput clock fuel s = .returned s []) :=
  ⟨Magnet.magnet_dispatch_idle clock fuel, Motor.single_dispatch_idle clock fuel,
    MotorMagnet.dual_dispatch_idle clock fuel⟩

/-- C13 at work: the three sketches right after start-up, nothing pending. -/
theorem idleDispatch_noop_witness :
    Magnet.ProcessMagInput (fun i => i) 0 (Magnet.initial [49]) =
      .returned (Magnet.initial [49]) [] ∧
    Motor.ProcessSpeedInput (fun i => i) 0 (Motor.initial [49]) =
      .returned (Motor.initial [49]) [] ∧
    MotorMagnet.ProcessSpeedInput (fun i => i) 0 (MotorMagnet.initial [49]) =
      .returned (MotorMagnet.initial [49]) [] :=
  ⟨(idleDispatch_noop (fun i => i) 0).1 _ rfl, (idleDispatch_noop (fun i => i) 0).2.1 _ rfl,
    (idleDispatch_noop (fun i => i) 0).2.2 _ rfl⟩

/-! ## Holds and the 32-bit counter: helper lemmas -/

/-- What an exit of the busy-wait says about the polls: the exit is right
after a poll that shows `D` ms elapsed, and every earlier poll of the loop
showed less. -/
theorem busyWait_some (clock : Nat → Nat) (st D : Nat) :
    ∀ (fuel i p : Nat), busyWait clock st D fuel i = some p →
      i < p ∧ D ≤ elapsed (millis clock (p - 1)) st ∧
        ∀ j, i ≤ j → j < p - 1 → elapsed (millis clock j) st < D := by
  intro fuel
  induction fuel with
  | zero => intro i p h; simp [busyWait] at h
  | succ f ih =>
    intro i p h
    by_cases hc : elapsed (millis clock i) st < D
    · simp only [busyWait, hc, if_true] at h
      obtain ⟨h1, h2, h3⟩ := ih (i + 1) p h
      refine ⟨by omega, h2, ?_⟩
      intro j hj1 hj2
      by_cases hji : j = i
      · rw [hji]; exact hc
      · exact h3 j (by omega) hj2
    · simp only [busyWait, hc, if_false, Option.some.injEq] at h
      subst h
      refine ⟨by omega, by simpa using hc, ?_⟩
      intro j hj1 hj2
      simp at hj2
      omega

/-- A counter that never goes back is monotone from any poll on. -/
theorem clock_mono (clock : Nat → Nat) (polls : Nat)
    (hmono : ∀ i, polls ≤ i → clock i ≤ clock (i + 1)) :
    ∀ k, clock polls ≤ clock (polls + k) := by
  intro k
  induction k with
  | zero => exact le_refl _
  | succ k ih => exact le_trans ih (hmono (polls + k) (by omega))

/-- The 32-bit difference of two readings is the time truly elapsed, as long
as that time is below 2^32 ms. -/
theorem elapsed_true (a b : Nat) (hab : b ≤ a) (hlt : a - b < 2 ^ 32) :
    elapsed (a % 2 ^ 32) (b % 2 ^ 32) = a - b := by
  unfold elapsed
  have e : (2 : Nat) ^ 32 = 4294967296 := by norm_num
  rw [e] at hlt ⊢
  omega

/-- Under a counter that never goes back and gains less than `2^32 - D` ms
from one poll to the next, a poll reached while every earlier poll of the hold
was truly below `D` ms reads its true elapsed time. -/
theorem elapsed_next (clock : Nat → Nat) (polls D j : Nat)
    (hmono : ∀ i, polls ≤ i → clock i ≤ clock (i + 1))
    (hadv : ∀ i, polls ≤ i → clock (i + 1) - clock i < 2 ^ 32 - D)
    (hj : polls ≤ j) (hprev : clock j - clock polls ≤ D) :
    elapsed (millis clock (j + 1)) (millis clock polls) = clock (j + 1) - clock polls := by
  have e : (2 : Nat) ^ 32 = 4294967296 := by norm_num
  have h1 : clock polls ≤ clock j := by
    have := clock_mono clock polls hmono (j - polls)
    rwa [Nat.add_sub_cancel' hj] at this
  have h2 := hmono j hj
  have h3 := hadv j hj
  rw [e] at h3
  unfold millis
  apply elapsed_true _ _ (le_trans h1 h2)
  rw [e]
  omega

theorem trueTime_below (clock : Nat → Nat) (polls D p : Nat)
    (hmono : ∀ i, polls ≤ i → clock i ≤ clock (i + 1))
    (hadv : ∀ i, polls ≤ i → clock (i + 1) - clock i < 2 ^ 32 - D)
    (hbelow : ∀ j, polls < j → j < p - 1 →
      elapsed (millis clock j) (millis clock polls) < D) :
    ∀ k, polls + k < p - 1 →
      clock (polls + k) - clock polls ≤ D ∧
        (0 < k → clock (polls + k) - clock polls < D) := by
  intro k
  induction k with
  | zero =>
    intro _
    simp
  | succ k ih =>
    intro hk
    obtain ⟨h1, _⟩ := ih (by omega)
    have hm := elapsed_next clock polls D (polls + k) hmono hadv (by omega) h1
    have hb := hbelow (polls + k + 1) (by omega) (by omega)
    rw [hm] at hb
    have e : polls + (k + 1) = polls + k + 1 := by omega
    rw [e]
    exact ⟨by omega, fun _ => hb⟩

/-! ## Holds and the 32-bit counter: the claim -/

/-- C20: on 32-bit readings, for every start reading `s` and every true
elapsed time `d` below 2^32 ms, the hold condition computed on the wrapped
readings, `((s + d) mod 2^32 - s) mod 2^32 < D`, is `d < D` (for 1000, 10000
and every other `D`). Hence, under a counter that never goes back and gains
less than `2^32 - D` ms from one poll to the next, the busy-wait started at
poll `polls`, whenever it exits, exits right after the first poll whose true
elapsed time is at least `D` ms, never earlier, wrap or no wrap; and when some
poll does reach `D` ms, every large enough fuel sees it exit. -/
theorem holdAcrossWrap (clock : Nat → Nat) (polls D : Nat)
    (hmono : ∀ i, polls ≤ i → clock i ≤ clock (i + 1))
    (hadv : ∀ i, polls ≤ i → clock (i + 1) - clock i < 2 ^ 32 - D) :
    (∀ s d D1 : Nat, s < 2 ^ 32 → d < 2 ^ 32 →
      (elapsed ((s + d) % 2 ^ 32) s < D1 ↔ d < D1)) ∧
    (∀ fuel p, busyWait clock (millis clock polls) D fuel (polls + 1) = some p →
      polls + 1 < p ∧ D ≤ clock (p - 1) - clock polls ∧
        ∀ j, polls < j → j < p - 1 → clock j - clock polls < D) ∧
    ((∃ j, polls < j ∧ D ≤ clock j - clock polls) →
      ∃ fuel0 p, ∀ fuel, fuel0 ≤ fuel →
        busyWait clock (millis clock polls) D fuel (polls + 1) = some p) := by
  have e : (2 : Nat) ^ 32 = 4294967296 := by norm_num
  refine ⟨?_, ?_, ?_⟩
  · intro s d D1 hs hd
    have h : elapsed ((s + d) % 2 ^ 32) s = d := by
      unfold elapsed
      rw [e] at hs hd ⊢
      omega
    rw [h]
  · intro fuel p h
    obtain ⟨h1, h2, h3⟩ := busyWait_some clock (millis clock polls) D fuel (polls + 1) p h
    have hbelow : ∀ j, polls < j → j < p - 1 →
        elapsed (millis clock j) (millis clock polls) < D :=
      fun j hj1 hj2 => h3 j (by omega) hj2
    have htrue := trueTime_below clock polls D p hmono hadv hbelow
    obtain ⟨hprev, _⟩ := htrue (p - 2 - polls) (by omega)
    have e1 : polls + (p - 2 - polls) = p - 2 := by omega
    rw [e1] at hprev
    have hm := elapsed_next clock polls D (p - 2) hmono hadv (by omega) hprev
    have e2 : p - 2 + 1 = p - 1 := by omega
    rw [e2] at hm
    rw [hm] at h2
    refine ⟨h1, h2, ?_⟩
    intro j hj1 hj2
    obtain ⟨_, hlt⟩ := htrue (j - polls) (by omega)
    have e3 : polls + (j - polls) = j := by omega
    rw [e3] at hlt
    exact hlt (by omega)
  · intro hex
    classical
    have hmin := Nat.find_spec hex
    have hfirst := fun i => Nat.find_min hex (m := i)
    obtain ⟨hj1, hj2⟩ := hmin
    have hprev : clock (Nat.find hex - 1) - clock polls ≤ D := by
      by_cases hp : Nat.find hex - 1 = polls
      · rw [hp]; simp
      · have := hfirst (Nat.find hex - 1) (by omega)
        simp only [not_and, not_le] at this
        exact le_of_lt (this (by omega))
    have hm := elapsed_next clock polls D (Nat.find hex - 1) hmono hadv (by omega) hprev
    have e2 : Nat.find hex - 1 + 1 = Nat.find hex := by omega
    rw [e2] at hm
    obtain ⟨fuel0, p, _, _, _, hf⟩ :=
      hold_exits clock polls D ⟨Nat.find hex, hj1, by rw [hm]; exact hj2⟩
    exact ⟨fuel0, p, hf⟩

/-- C20 at work: a counter that starts 296 ms before the wrap and gains 500 ms
per poll; the settle hold of 1000 ms entered at poll 0 exits after poll 2, the
first one that is 1000 ms past the start, although the reading has wrapped. -/
theorem holdAcrossWrap_witness :
    millis (fun i => 4294967000 + 500 * i) 2 < millis (fun i => 4294967000 + 500 * i) 0 ∧
    (0 + 1 < 3 ∧ 1000 ≤ (4294967000 + 500 * (3 - 1)) - (4294967000 + 500 * 0) ∧
      ∀ j, 0 < j → j < 3 - 1 →
        (4294967000 + 500 * j) - (4294967000 + 500 * 0) < 1000) :=
  ⟨by decide,
   ((holdAcrossWrap (fun i => 4294967000 + 500 * i) 0 1000
      (fun i _ => by dsimp only; omega) (fun i _ => by dsimp only; norm_num; omega)).2.1
      5 3 (by decide))⟩

/-! ## Dispatchers: returned outcomes and totality, helper lemmas -/

theorem expires_mono (clock : Nat → Nat) (polls D1 D2 : Nat) (h : D1 ≤ D2)
    (he : Expires clock polls D2) : Expires clock polls D1 := by
  obtain ⟨j, h1, h2⟩ := he
  exact ⟨j, h1, le_trans h h2⟩

/-- Every returned dispatch of the single-magnet sketch is of one of four
shapes: idle, magnet off, magnet pulse, invalid input. -/
theorem Magnet.magnet_dispatch_shapes (clock : Nat → Nat) (fuel : Nat)
    (s s1 : Magnet.State) (tr : List Event)
    (h : Magnet.ProcessMagInput clock fuel s = .returned s1 tr) :
    (s.newData = false ∧ s1 = s ∧ tr = []) ∨
    (s.newData = true ∧ s1 = { s with dataNumber := 0, newData := false } ∧
      tr = [.printlnBuf (cstr s.receivedChars), .digitalWrite Magnet.digPin HIGH,
        .println "Magnet OFF"]) ∨
    (s.newData = true ∧ ∃ p, s1 = { s with dataNumber := 1, newData := false, polls := p } ∧
      tr = [.printlnBuf (cstr s.receivedChars), .println "Magnet ON",
        .digitalWrite Magnet.digPin LOW, .hold 10000, .digitalWrite Magnet.digPin HIGH,
        .println "Magnet OFF"]) ∨
    (s.newData = true ∧
      s1 = { s with dataNumber := atoi (cstr s.receivedChars), newData := false } ∧
      tr = [.printlnBuf (cstr s.receivedChars), .println "Invalid input."]) := by
  cases hready : s.newData with
  | false =>
    rw [Magnet.magnet_dispatch_idle clock fuel s hready] at h
    injection h with h1 h2
    exact Or.inl ⟨rfl, h1.symm, h2.symm⟩
  | true =>
    by_cases h0 : atoi (cstr s.receivedChars) = 0
    · rw [Magnet.magnet_dispatch_off clock fuel s hready h0] at h
      injection h with h1 h2
      exact Or.inr (Or.inl ⟨rfl, h1.symm, h2.symm⟩)
    · by_cases h1 : atoi (cstr s.receivedChars) = 1
      · rw [Magnet.magnet_dispatch_on clock fuel s hready h1] at h
        cases hw : busyWait clock (millis clock s.polls) 10000 fuel (s.polls + 1) with
        | none => rw [hw] at h; cases h
        | some p =>
          rw [hw] at h
          injection h with g1 g2
          exact Or.inr (Or.inr (Or.inl ⟨rfl, p, g1.symm, g2.symm⟩))
      · by_cases hm : atoi (cstr s.receivedChars) = -1
        · rw [Magnet.magnet_dispatch_reset clock fuel s hready hm] at h
          cases h
        · rw [Magnet.magnet_dispatch_invalid clock fuel s hready (by simp [h0, h1, hm])] at h
          injection h with g1 g2
          exact Or.inr (Or.inr (Or.inr ⟨rfl, g1.symm, g2.symm⟩))

/-- With nothing pending, or a pending line other than the reset command, and
a clock whose pulse hold comes to an end, the single-magnet dispatcher returns
for every large enough fuel, with a result that does not depend on the fuel. -/
theorem Magnet.magnet_dispatch_total (clock : Nat → Nat) (s : Magnet.State)
    (hnr : s.newData = true → atoi (cstr s.receivedChars) ≠ -1)
    (hclock : Expires clock s.polls 10000) :
    ∃ fuel0 s1 tr, ∀ fuel, fuel0 ≤ fuel →
      Magnet.ProcessMagInput clock fuel s = .returned s1 tr := by
  cases hready : s.newData with
  | false => exact ⟨0, s, [], fun fuel _ => Magnet.magnet_dispatch_idle clock fuel s hready⟩
  | true =>
    by_cases h0 : atoi (cstr s.receivedChars) = 0
    · exact ⟨0, _, _, fun fuel _ => Magnet.magnet_dispatch_off clock fuel s hready h0⟩
    · by_cases h1 : atoi (cstr s.receivedChars) = 1
      · obtain ⟨fuel0, p, _, _, _, hf⟩ := hold_exits clock s.polls 10000 hclock
        exact ⟨fuel0, _, _, fun fuel hfuel => by
          rw [Magnet.magnet_dispatch_on clock fuel s hready h1, hf fuel hfuel]⟩
      · exact ⟨0, _, _, fun fuel _ => Magnet.magnet_dispatch_invalid clock fuel s hready
          (by simp [h0, h1, hnr hready])⟩

theorem Motor.single_code_cases (n : Int) :
    (∃ d, (n, d) ∈ [((0 : Int), (0 : Int)), (1, 150), (2, 160), (3, 210), (4, 220)]) ∨
    n = -1 ∨ n ∉ [(0 : Int), 1, 2, 3, 4, -1] := by
  by_cases h : n ∈ [(0 : Int), 1, 2, 3, 4, -1]
  · simp only [List.mem_cons, List.mem_singleton, List.not_mem_nil, or_false] at h
    rcases h with rfl | rfl | rfl | rfl | rfl | rfl <;> simp
  · exact Or.inr (Or.inr h)

/-- Every returned dispatch of the single-motor sketch is of one of four
shapes: idle, no change, speed change, invalid input. -/
theorem Motor.single_dispatch_shapes (clock : Nat → Nat) (fuel : Nat)
    (s s1 : Motor.State) (tr : List Event)
    (h : Motor.ProcessSpeedInput clock fuel s = .returned s1 tr) :
    (s.newData = false ∧ s1 = s ∧ tr = []) ∨
    (s.newData = true ∧ ∃ d, d ∈ [(0 : Int), 150, 160, 210, 220] ∧ d = s.prevNumber ∧
      s1 = { s with dataNumber := d, newData := false } ∧
      tr = [.printlnBuf (cstr s.receivedChars),
        .println "No change in speed. Keeping the previous setting."]) ∨
    (s.newData = true ∧ ∃ d p, d ∈ [(0 : Int), 150, 160, 210, 220] ∧ d ≠ s.prevNumber ∧
      s1 = { s with dataNumber := d, prevNumber := d, newData := false, polls := p } ∧
      tr = [.printlnBuf (cstr s.receivedChars), .print "Changing speed ... ",
        .analogWrite Motor.pwmPin 0, .hold 1000, .print "Setting motor speed to ... ",
        .printlnPercent d, .analogWrite Motor.pwmPin d]) ∨
    (s.newData = true ∧
      s1 = { s with dataNumber := atoi (cstr s.receivedChars), newData := false } ∧
      tr = [.printlnBuf (cstr s.receivedChars),
        .println "Invalid input. Please enter a number between 0 and 4."]) := by
  cases hready : s.newData with
  | false =>
    rw [Motor.single_dispatch_idle clock fuel s hready] at h
    injection h with h1 h2
    exact Or.inl ⟨rfl, h1.symm, h2.symm⟩
  | true =>
    rcases Motor.single_code_cases (atoi (cstr s.receivedChars)) with ⟨d, hd⟩ | hm | hinv
    · have hdm : d ∈ [(0 : Int), 150, 160, 210, 220] := by
        simp only [List.mem_cons, Prod.mk.injEq, List.mem_singleton, List.not_mem_nil,
          or_false] at hd ⊢
        rcases hd with g | g | g | g | g <;> simp [g.2]
      rw [Motor.single_dispatch_tier clock fuel s _ d hd hready rfl] at h
      by_cases hc : d = s.prevNumber
      · rw [Motor.single_applySpeed_same clock fuel { s with dataNumber := d } _ hc] at h
        injection h with g1 g2
        exact Or.inr (Or.inl ⟨rfl, d, hdm, hc, g1.symm, g2.symm⟩)
      · cases hw : busyWait clock (millis clock s.polls) 1000 fuel (s.polls + 1) with
        | none =>
          rw [Motor.single_applySpeed_spinning clock fuel { s with dataNumber := d } _ hc hw] at h
          cases h
        | some p =>
          rw [Motor.single_applySpeed_change clock fuel p { s with dataNumber := d } _ hc hw] at h
          injection h with g1 g2
          exact Or.inr (Or.inr (Or.inl ⟨rfl, d, p, hdm, hc, g1.symm, g2.symm⟩))
    · rw [Motor.single_dispatch_reset clock fuel s hready hm] at h
      cases h
    · rw [Motor.single_dispatch_invalid clock fuel s hready hinv] at h
      injection h with g1 g2
      exact Or.inr (Or.inr (Or.inr ⟨rfl, g1.symm, g2.symm⟩))

/-- With nothing pending, or a pending line other than the reset command, and
a clock whose settle hold comes to an end, the single-motor dispatcher returns
for every large enough fuel, with a result that does not depend on the fuel. -/
theorem Motor.single_dispatch_total (clock : Nat → Nat) (s : Motor.State)
    (hnr : s.newData = true → atoi (cstr s.receivedChars) ≠ -1)
    (hclock : Expires clock s.polls 1000) :
    ∃ fuel0 s1 tr, ∀ fuel, fuel0 ≤ fuel →
      Motor.ProcessSpeedInput clock fuel s = .returned s1 tr := by
  cases hready : s.newData with
  | false => exact ⟨0, s, [], fun fuel _ => Motor.single_dispatch_idle clock fuel s hready⟩
  | true =>
    rcases Motor.single_code_cases (atoi (cstr s.receivedChars)) with ⟨d, hd⟩ | hm | hinv
    · by_cases hc : d = s.prevNumber
      · exact ⟨0, _, _, fun fuel _ =>
          (Motor.single_dispatch_tier clock fuel s _ d hd hready rfl).trans
            (Motor.single_applySpeed_same clock fuel { s with dataNumber := d } _ hc)⟩
      · obtain ⟨fuel0, p, _, _, _, hf⟩ := hold_exits clock s.polls 1000 hclock
        exact ⟨fuel0, _, _, fun fuel hfuel =>
          (Motor.single_dispatch_tier clock fuel s _ d hd hready rfl).trans
            (Motor.single_applySpeed_change clock fuel p { s with dataNumber := d } _ hc
              (hf fuel hfuel))⟩
    · exact absurd hm (hnr hready)
    · exact ⟨0, _, _, fun fuel _ => Motor.single_dispatch_invalid clock fuel s hready hinv⟩

/-- Every returned dispatch of the dual sketch is of one of six shapes: idle,
no change, speed change, magnet off, magnet pulse, invalid input. -/
theorem MotorMagnet.dual_dispatch_shapes (clock : Nat → Nat) (fuel : Nat)
    (s s1 : MotorMagnet.State) (tr : List Event)
    (h : MotorMagnet.ProcessSpeedInput clock fuel s = .returned s1 tr) :
    (s.newData = false ∧ s1 = s ∧ tr = []) ∨
    (s.newData = true ∧ ∃ code pin duty,
      (code, pin, duty) ∈ [((0 : Int), (6 : Int), (0 : Int)), (1, 6, 80), (2, 6, 90),
        (3, 6, 100), (10, 10, 0), (11, 10, 80), (12, 10, 90), (13, 10, 100)] ∧
      (duty = s.prevNumber ∧ pin = s.prevPin) ∧
      s1 = { s with rcvdNumber := code, dataNumber := duty, pwmPin := pin, newData := false } ∧
      tr = [.printlnBuf (cstr s.receivedChars),
        .println "No change in speed. Keeping the previous setting."]) ∨
    (s.newData = true ∧ ∃ code pin duty p,
      (code, pin, duty) ∈ [((0 : Int), (6 : Int), (0 : Int)), (1, 6, 80), (2, 6, 90),
        (3, 6, 100), (10, 10, 0), (11, 10, 80), (12, 10, 90), (13, 10, 100)] ∧
      ¬ (duty = s.prevNumber ∧ pin = s.prevPin) ∧
      s1 = { s with
        rcvdNumber := code, dataNumber := duty, pwmPin := pin, prevNumber := duty,
        prevPin := pin, newData := false, polls := p } ∧
      tr = [.printlnBuf (cstr s.receivedChars), .print "Changing speed ... ",
        .analogWrite pin 0, .hold 1000, .print "Setting motor speed to ... ",
        .printlnPercent duty, .analogWrite pin duty]) ∨
    (s.newData = true ∧ ∃ code relay label,
      (code, relay, label) ∈
        [((31 : Int), (3 : Int), "Magnet A - OFF"), (21, 2, "Magnet B - OFF")] ∧
      s1 = { s with rcvdNumber := code, newData := false } ∧
      tr = [.printlnBuf (cstr s.receivedChars), .digitalWrite relay LOW, .println label]) ∨
    (s.newData = true ∧ ∃ code relay labelOn labelOff p,
      (code, relay, labelOn, labelOff) ∈
        [((30 : Int), (3 : Int), "Magnet A - ON", "Magnet A - OFF"),
         (20, 2, "Magnet B - ON", "Magnet B - OFF")] ∧
      s1 = { s with
        rcvdNumber := code, startTime := millis clock s.polls, newData := false,
        polls := p } ∧
      tr = [.printlnBuf (cstr s.receivedChars), .println labelOn, .digitalWrite relay HIGH,
        .hold 10000, .digitalWrite relay LOW, .println labelOff]) ∨
    (s.newData = true ∧
      s1 = { s with rcvdNumber := atoi (cstr s.receivedChars), newData := false } ∧
      tr = [.printlnBuf (cstr s.receivedChars),
        .println "Invalid input. Please enter a number between 0 and 4."]) := by
  cases hready : s.newData with
  | false =>
    rw [MotorMagnet.dual_dispatch_idle clock fuel s hready] at h
    injection h with h1 h2
    exact Or.inl ⟨rfl, h1.symm, h2.symm⟩
  | true =>
    rcases MotorMagnet.dual_code_cases (atoi (cstr s.receivedChars)) with
      ⟨pin, duty, hc⟩ | ⟨relay, label, hc⟩ | ⟨relay, l1, l2, hc⟩ | hc | hc
    · rw [MotorMagnet.dual_dispatch_motor clock fuel s _ pin duty hc hready rfl] at h
      by_cases hsame : duty = s.prevNumber ∧ pin = s.prevPin
      · rw [MotorMagnet.dual_applySpeed_same clock fuel
          { s with rcvdNumber := atoi (cstr s.receivedChars), dataNumber := duty, pwmPin := pin }
          _ hsame.1 hsame.2] at h
        injection h with g1 g2
        exact Or.inr (Or.inl ⟨rfl, _, pin, duty, hc, hsame, g1.symm, g2.symm⟩)
      · cases hw : busyWait clock (millis clock s.polls) 1000 fuel (s.polls + 1) with
        | none =>
          rw [MotorMagnet.dual_applySpeed_spinning clock fuel
            { s with
              rcvdNumber := atoi (cstr s.receivedChars), dataNumber := duty, pwmPin := pin }
            _ hsame hw] at h
          cases h
        | some p =>
          rw [MotorMagnet.dual_applySpeed_change clock fuel p
            { s with
              rcvdNumber := atoi (cstr s.receivedChars), dataNumber := duty, pwmPin := pin }
            _ hsame hw] at h
          injection h with g1 g2
          exact Or.inr (Or.inr (Or.inl ⟨rfl, _, pin, duty, p, hc, hsame, g1.symm, g2.symm⟩))
    · rw [MotorMagnet.dual_dispatch_magnetOff clock fuel s _ relay label hc hready rfl] at h
      injection h with g1 g2
      exact Or.inr (Or.inr (Or.inr (Or.inl ⟨rfl, _, relay, label, hc, g1.symm, g2.symm⟩)))
    · rw [MotorMagnet.dual_dispatch_magnetOn clock fuel s _ relay l1 l2 hc hready rfl] at h
      cases hw : busyWait clock (millis clock s.polls) 10000 fuel (s.polls + 1) with
      | none => rw [hw] at h; cases h
      | some p =>
        rw [hw] at h
        injection h with g1 g2
        exact Or.inr (Or.inr (Or.inr (Or.inr (Or.inl
          ⟨rfl, _, relay, l1, l2, p, hc, g1.symm, g2.symm⟩))))
    · rw [MotorMagnet.dual_dispatch_reset clock fuel s hready hc] at h
      cases h
    · rw [MotorMagnet.dual_dispatch_invalid clock fuel s hready hc] at h
      injection h with g1 g2
      exact Or.inr (Or.inr (Or.inr (Or.inr (Or.inr ⟨rfl, g1.symm, g2.symm⟩))))

/-- With nothing pending, or a pending line other than the reset command, and
a clock whose pulse hold comes to an end, the dual dispatcher returns for every
large enough fuel, with a result that does not depend on the fuel. -/
theorem MotorMagnet.dual_dispatch_total (clock : Nat → Nat) (s : MotorMagnet.State)
    (hnr : s.newData = true → atoi (cstr s.receivedChars) ≠ -1)
    (hclock : Expires clock s.polls 10000) :
    ∃ fuel0 s1 tr, ∀ fuel, fuel0 ≤ fuel →
      MotorMagnet.ProcessSpeedInput clock fuel s = .returned s1 tr := by
  cases hready : s.newData with
  | false =>
    exact ⟨0, s, [], fun fuel _ => MotorMagnet.dual_dispatch_idle clock fuel s hready⟩
  | true =>
    rcases MotorMagnet.dual_code_cases (atoi (cstr s.receivedChars)) with
      ⟨pin, duty, hc⟩ | ⟨relay, label, hc⟩ | ⟨relay, l1, l2, hc⟩ | hc | hc
    · by_cases hsame : duty = s.prevNumber ∧ pin = s.prevPin
      · exact ⟨0, _, _, fun fuel _ =>
          (MotorMagnet.dual_dispatch_motor clock fuel s _ pin duty hc hready rfl).trans
            (MotorMagnet.dual_applySpeed_same clock fuel
              { s with
                rcvdNumber := atoi (cstr s.receivedChars), dataNumber := duty, pwmPin := pin }
              _ hsame.1 hsame.2)⟩
      · obtain ⟨fuel0, p, _, _, _, hf⟩ :=
          hold_exits clock s.polls 1000 (expires_mono clock s.polls 1000 10000 (by omega) hclock)
        exact ⟨fuel0, _, _, fun fuel hfuel =>
          (MotorMagnet.dual_dispatch_motor clock fuel s _ pin duty hc hready rfl).trans
            (MotorMagnet.dual_applySpeed_change clock fuel p
              { s with
                rcvdNumber := atoi (cstr s.receivedChars), dataNumber := duty, pwmPin := pin }
              _ hsame (hf fuel hfuel))⟩
    · exact ⟨0, _, _, fun fuel _ =>
        MotorMagnet.dual_dispatch_magnetOff clock fuel s _ relay label hc hready rfl⟩
    · obtain ⟨fuel0, p, _, _, _, hf⟩ := hold_exits clock s.polls 10000 hclock
      exact ⟨fuel0, _, _, fun fuel hfuel => by
        rw [MotorMagnet.dual_dispatch_magnetOn clock fuel s _ relay l1 l2 hc hready rfl,
          hf fuel hfuel]⟩
    · exact absurd hc (hnr hready)
    · exact ⟨0, _, _, fun fuel _ => MotorMagnet.dual_dispatch_invalid clock fuel s hready hc⟩

/-! ## Ready flag: helper lemmas -/

theorem Magnet.magnet_returned_flag (clock : Nat → Nat) (fuel : Nat)
    (s s1 : Magnet.State) (tr : List Event) (hready : s.newData = true)
    (h : Magnet.ProcessMagInput clock fuel s = .returned s1 tr) : s1.newData = false := by
  rcases Magnet.magnet_dispatch_shapes clock fuel s s1 tr h with
    ⟨g, _, _⟩ | ⟨_, g, _⟩ | ⟨_, p, g, _⟩ | ⟨_, g, _⟩
  · rw [hready] at g; cases g
  · rw [g]
  · rw [g]
  · rw [g]

theorem Motor.single_returned_flag (clock : Nat → Nat) (fuel : Nat)
    (s s1 : Motor.State) (tr : List Event) (hready : s.newData = true)
    (h : Motor.ProcessSpeedInput clock fuel s = .returned s1 tr) : s1.newData = false := by
  rcases Motor.single_dispatch_shapes clock fuel s s1 tr h with
    ⟨g, _, _⟩ | ⟨_, d, _, _, g, _⟩ | ⟨_, d, p, _, _, g, _⟩ | ⟨_, g, _⟩
  · rw [hready] at g; cases g
  · rw [g]
  · rw [g]
  · rw [g]

theorem MotorMagnet.dual_returned_flag (clock : Nat → Nat) (fuel : Nat)
    (s s1 : MotorMagnet.State) (tr : List Event) (hready : s.newData = true)
    (h : MotorMagnet.ProcessSpeedInput clock fuel s = .returned s1 tr) :
    s1.newData = false := by
  rcases MotorMagnet.dual_dispatch_shapes clock fuel s s1 tr h with
    ⟨g, _, _⟩ | ⟨_, _, _, _, _, _, g, _⟩ | ⟨_, _, _, _, _, _, _, g, _⟩ |
    ⟨_, _, _, _, _, g, _⟩ | ⟨_, _, _, _, _, _, _, g, _⟩ | ⟨_, g, _⟩
  · rw [hready] at g; cases g
  all_goals rw [g]

/-! ## Ready flag: the claim -/

/-- C12: in each of the three sketches, with the ready flag true and a pending
line whose value is not -1, the ready flag is false whenever the dispatcher
returns, whichever path it took (invalid input, no change, speed change,
magnet on, magnet off); and under a clock whose hold comes to an end it does
return, for every large enough fuel. -/
theorem readyFlag_cleared (clock : Nat → Nat) :
    (∀ s : Magnet.State, s.newData = true → atoi (cstr s.receivedChars) ≠ -1 →
      (∀ fuel s1 tr, Magnet.ProcessMagInput clock fuel s = .returned s1 tr →
        s1.newData = false) ∧
      (Expires clock s.polls 10000 →
        ∃ fuel0 s1 tr, s1.newData = false ∧ ∀ fuel, fuel0 ≤ fuel →
          Magnet.ProcessMagInput clock fuel s = .returned s1 tr)) ∧
    (∀ s : Motor.State, s.newData = true → atoi (cstr s.receivedChars) ≠ -1 →
      (∀ fuel s1 tr, Motor.ProcessSpeedInput clock fuel s = .returned s1 tr →
        s1.newData = false) ∧
      (Expires clock s.polls 1000 →
        ∃ fuel0 s1 tr, s1.newData = false ∧ ∀ fuel, fuel0 ≤ fuel →
          Motor.ProcessSpeedInput clock fuel s = .returned s1 tr)) ∧
    (∀ s : MotorMagnet.State, s.newData = true → atoi (cstr s.receivedChars) ≠ -1 →
      (∀ fuel s1 tr, MotorMagnet.ProcessSpeedInput clock fuel s = .returned s1 tr →
        s1.newData = false) ∧
      (Expires clock s.polls 10000 →
        ∃ fuel0 s1 tr, s1.newData = false ∧ ∀ fuel, fuel0 ≤ fuel →
          MotorMagnet.ProcessSpeedInput clock fuel s = .returned s1 tr)) := by
  refine ⟨?_, ?_, ?_⟩
  · intro s hready hline
    refine ⟨fun fuel s1 tr h => Magnet.magnet_returned_flag clock fuel s s1 tr hready h, ?_⟩
    intro hclock
    obtain ⟨fuel0, s1, tr, hf⟩ := Magnet.magnet_dispatch_total clock s (fun _ => hline) hclock
    exact ⟨fuel0, s1, tr,
      Magnet.magnet_returned_flag clock fuel0 s s1 tr hready (hf fuel0 (le_refl _)), hf⟩
  · intro s hready hline
    refine ⟨fun fuel s1 tr h => Motor.single_returned_flag clock fuel s s1 tr hready h, ?_⟩
    intro hclock
    obtain ⟨fuel0, s1, tr, hf⟩ := Motor.single_dispatch_total clock s (fun _ => hline) hclock
    exact ⟨fuel0, s1, tr,
      Motor.single_returned_flag clock fuel0 s s1 tr hready (hf fuel0 (le_refl _)), hf⟩
  · intro s hready hline
    refine ⟨fun fuel s1 tr h => MotorMagnet.dual_returned_flag clock fuel s s1 tr hready h, ?_⟩
    intro hclock
    obtain ⟨fuel0, s1, tr, hf⟩ :=
      MotorMagnet.dual_dispatch_total clock s (fun _ => hline) hclock
    exact ⟨fuel0, s1, tr,
      MotorMagnet.dual_returned_flag clock fuel0 s s1 tr hready (hf fuel0 (le_refl _)), hf⟩

/-- C12 at work: the pending lines "1" (magnet pulse), "3" (speed change) and
"31" (magnet A off), under a clock that gains 2500 ms per poll. -/
theorem readyFlag_cleared_witness :
    (∃ fuel0 s1 tr, s1.newData = false ∧ ∀ fuel, fuel0 ≤ fuel →
      Magnet.ProcessMagInput (fun i => 2500 * i) fuel
        ⟨⟨49 :: List.replicate 31 0, 0, true, []⟩, 0, 0⟩ = .returned s1 tr) ∧
    (∃ fuel0 s1 tr, s1.newData = false ∧ ∀ fuel, fuel0 ≤ fuel →
      Motor.ProcessSpeedInput (fun i => 2500 * i) fuel
        ⟨⟨51 :: List.replicate 31 0, 0, true, []⟩, 0, 0, 0⟩ = .returned s1 tr) ∧
    (∃ fuel0 s1 tr, s1.newData = false ∧ ∀ fuel, fuel0 ≤ fuel →
      MotorMagnet.ProcessSpeedInput (fun i => 2500 * i) fuel
        ⟨⟨51 :: 49 :: List.replicate 30 0, 0, true, []⟩, 0, 0, 0, 0, 0, 0, 0⟩ =
          .returned s1 tr) :=
  ⟨((readyFlag_cleared (fun i => 2500 * i)).1
      ⟨⟨49 :: List.replicate 31 0, 0, true, []⟩, 0, 0⟩ (by decide) (by decide)).2
      ⟨4, by decide, by decide⟩,
   ((readyFlag_cleared (fun i => 2500 * i)).2.1
      ⟨⟨51 :: List.replicate 31 0, 0, true, []⟩, 0, 0, 0⟩ (by decide) (by decide)).2
      ⟨1, by decide, by decide⟩,
   ((readyFlag_cleared (fun i => 2500 * i)).2.2
      ⟨⟨51 :: 49 :: List.replicate 30 0, 0, true, []⟩, 0, 0, 0, 0, 0, 0, 0⟩
      (by decide) (by decide)).2 ⟨4, by decide, by decide⟩⟩

/-! ## Banner of the dual sketch: what the code does -/

/-- C16, the code at the failing input: the banner printed by `setup` of the
dual sketch gives 20-21 to magnet A and 30-31 to magnet B, but the pending line
"20" pulses relay B (pin 2) and "21" writes LOW to it, while "30" pulses
relay A (pin 3) and "31" writes LOW to it; the two relays are different pins. -/
theorem bannerMagnetCodes_diverge :
    Event.println ("\nSet vibration motor speed Motor A:(0-3), Motor B:(10-13)" ++
      "\nSet Magnet A:(20-21) Magnet B:(30-31)\nType (-1) to reset the device.")
      ∈ MotorMagnet.setup ∧
    MotorMagnet.relayA = 3 ∧ MotorMagnet.relayB = 2 ∧
    actuation (MotorMagnet.ProcessSpeedInput (fun i => 2500 * i) 5
      ⟨⟨50 :: 48 :: List.replicate 30 0, 0, true, []⟩, 0, 0, 0, 0, 0, 0, 0⟩).trace =
      [.digitalWrite MotorMagnet.relayB HIGH, .hold 10000,
       .digitalWrite MotorMagnet.relayB LOW] ∧
    actuation (MotorMagnet.ProcessSpeedInput (fun i => 2500 * i) 5
      ⟨⟨50 :: 49 :: List.replicate 30 0, 0, true, []⟩, 0, 0, 0, 0, 0, 0, 0⟩).trace =
      [.digitalWrite MotorMagnet.relayB LOW] ∧
    actuation (MotorMagnet.ProcessSpeedInput (fun i => 2500 * i) 5
      ⟨⟨51 :: 48 :: List.replicate 30 0, 0, true, []⟩, 0, 0, 0, 0, 0, 0, 0⟩).trace =
      [.digitalWrite MotorMagnet.relayA HIGH, .hold 10000,
       .digitalWrite MotorMagnet.relayA LOW] ∧
    actuation (MotorMagnet.ProcessSpeedInput (fun i => 2500 * i) 5
      ⟨⟨51 :: 49 :: List.replicate 30 0, 0, true, []⟩, 0, 0, 0, 0, 0, 0, 0⟩).trace =
      [.digitalWrite MotorMagnet.relayA LOW] := by
  decide

/-! ## Dual dispatcher, one channel at a time: helper lemmas -/

/-- The events of a motor-speed dispatch of the dual sketch, however it ends:
analog writes go to the resolved pin, and there is no digital write. -/
theorem MotorMagnet.dual_motor_events (clock : Nat → Nat) (fuel : Nat)
    (s : MotorMagnet.State) (code pin duty : Int)
    (hc : (code, pin, duty) ∈ [((0 : Int), (6 : Int), (0 : Int)), (1, 6, 80), (2, 6, 90),
      (3, 6, 100), (10, 10, 0), (11, 10, 80), (12, 10, 90), (13, 10, 100)])
    (hready : s.newData = true) (hline : atoi (cstr s.receivedChars) = code) :
    ∀ e ∈ (MotorMagnet.ProcessSpeedInput clock fuel s).trace,
      (∀ p v, e = Event.analogWrite p v → p = pin) ∧ ∀ p l, e ≠ Event.digitalWrite p l := by
  rw [MotorMagnet.dual_dispatch_motor clock fuel s code pin duty hc hready hline]
  by_cases hsame : duty = s.prevNumber ∧ pin = s.prevPin
  · rw [MotorMagnet.dual_applySpeed_same clock fuel
      { s with rcvdNumber := code, dataNumber := duty, pwmPin := pin } _ hsame.1 hsame.2]
    intro e he
    simp only [Outcome.trace, List.cons_append, List.nil_append, List.mem_cons,
      List.mem_singleton, List.not_mem_nil, or_false] at he
    rcases he with rfl | rfl <;> simp
  · cases hw : busyWait clock (millis clock s.polls) 1000 fuel (s.polls + 1) with
    | none =>
      rw [MotorMagnet.dual_applySpeed_spinning clock fuel
        { s with rcvdNumber := code, dataNumber := duty, pwmPin := pin } _ hsame hw]
      intro e he
      simp only [Outcome.trace, List.cons_append, List.nil_append, List.mem_cons,
        List.mem_singleton, List.not_mem_nil, or_false] at he
      rcases he with rfl | rfl | rfl <;> simp
    | some p =>
      rw [MotorMagnet.dual_applySpeed_change clock fuel p
        { s with rcvdNumber := code, dataNumber := duty, pwmPin := pin } _ hsame hw]
      intro e he
      simp only [Outcome.trace, List.cons_append, List.nil_append, List.mem_cons,
        List.mem_singleton, List.not_mem_nil, or_false] at he
      rcases he with rfl | rfl | rfl | rfl | rfl | rfl | rfl <;> simp

/-- The events of a magnet-off dispatch of the dual sketch: the one digital
write goes to the relay of the code, and there is no analog write; the motor
variables are left alone. -/
theorem MotorMagnet.dual_magnetOff_events (clock : Nat → Nat) (fuel : Nat)
    (s : MotorMagnet.State) (code relay : Int) (label : String)
    (hc : (code, relay, label) ∈
      [((31 : Int), (3 : Int), "Magnet A - OFF"), (21, 2, "Magnet B - OFF")])
    (hready : s.newData = true) (hline : atoi (cstr s.receivedChars) = code) :
    (∀ e ∈ (MotorMagnet.ProcessSpeedInput clock fuel s).trace,
      (∀ p l, e = Event.digitalWrite p l → p = relay) ∧ ∀ p v, e ≠ Event.analogWrite p v) ∧
    ∀ s1 tr, MotorMagnet.ProcessSpeedInput clock fuel s = .returned s1 tr →
      s1.prevNumber = s.prevNumber ∧ s1.prevPin = s.prevPin ∧
        s1.dataNumber = s.dataNumber ∧ s1.pwmPin = s.pwmPin := by
  rw [MotorMagnet.dual_dispatch_magnetOff clock fuel s code relay label hc hready hline]
  constructor
  · intro e he
    simp only [Outcome.trace, List.mem_cons, List.mem_singleton, List.not_mem_nil,
      or_false] at he
    rcases he with rfl | rfl | rfl <;> simp
  · intro s1 tr h
    injection h with g1 _
    subst g1
    exact ⟨rfl, rfl, rfl, rfl⟩

/-- The events of a magnet-on dispatch of the dual sketch, however it ends:
digital writes go to the relay of the code, and there is no analog write; the
motor variables are left alone. -/
theorem MotorMagnet.dual_magnetOn_events (clock : Nat → Nat) (fuel : Nat)
    (s : MotorMagnet.State) (code relay : Int) (labelOn labelOff : String)
    (hc : (code, relay, labelOn, labelOff) ∈
      [((30 : Int), (3 : Int), "Magnet A - ON", "Magnet A - OFF"),
       (20, 2, "Magnet B - ON", "Magnet B - OFF")])
    (hready : s.newData = true) (hline : atoi (cstr s.receivedChars) = code) :
    (∀ e ∈ (MotorMagnet.ProcessSpeedInput clock fuel s).trace,
      (∀ p l, e = Event.digitalWrite p l → p = relay) ∧ ∀ p v, e ≠ Event.analogWrite p v) ∧
    ∀ s1 tr, MotorMagnet.ProcessSpeedInput clock fuel s = .returned s1 tr →
      s1.prevNumber = s.prevNumber ∧ s1.prevPin = s.prevPin ∧
        s1.dataNumber = s.dataNumber ∧ s1.pwmPin = s.pwmPin := by
  rw [MotorMagnet.dual_dispatch_magnetOn clock fuel s code relay labelOn labelOff hc hready
    hline]
  cases hw : busyWait clock (millis clock s.polls) 10000 fuel (s.polls + 1) with
  | none =>
    constructor
    · intro e he
      simp only [Outcome.trace, List.mem_cons, List.mem_singleton, List.not_mem_nil,
        or_false] at he
      rcases he with rfl | rfl | rfl <;> simp
    · intro s1 tr h
      cases h
  | some p =>
    constructor
    · intro e he
      simp only [Outcome.trace, List.mem_cons, List.mem_singleton, List.not_mem_nil,
        or_false] at he
      rcases he with rfl | rfl | rfl | rfl | rfl | rfl <;> simp
    · intro s1 tr h
      injection h with g1 _
      subst g1
      exact ⟨rfl, rfl, rfl, rfl⟩

/-! ## Dual dispatcher, one channel at a time: the claim -/

/-- C19: in the dual sketch, with the ready flag true, whatever the state and
however the dispatch ends: a motor A code (0..3) makes analog writes to motor
A's PWM pin only and no digital write, a motor B code (10..13) likewise on
motor B's PWM pin; a magnet A code (30, 31) makes digital writes to relay A
only and no analog write, a magnet B code (20, 21) likewise on relay B, and a
magnet dispatch that returns leaves `prevNumber`, `prevPin`, `dataNumber` and
`pwmPin` as they were. Under a clock whose hold comes to an end every such
dispatch returns for every large enough fuel. -/
theorem dualDispatch_frame (clock : Nat → Nat) (fuel : Nat) (s : MotorMagnet.State)
    (hready : s.newData = true) :
    (atoi (cstr s.receivedChars) ∈ [(0 : Int), 1, 2, 3] →
      ∀ e ∈ (MotorMagnet.ProcessSpeedInput clock fuel s).trace,
        (∀ p v, e = Event.analogWrite p v → p = MotorMagnet.pwmPinA) ∧
          ∀ p l, e ≠ Event.digitalWrite p l) ∧
    (atoi (cstr s.receivedChars) ∈ [(10 : Int), 11, 12, 13] →
      ∀ e ∈ (MotorMagnet.ProcessSpeedInput clock fuel s).trace,
        (∀ p v, e = Event.analogWrite p v → p = MotorMagnet.pwmPinB) ∧
          ∀ p l, e ≠ Event.digitalWrite p l) ∧
    (atoi (cstr s.receivedChars) ∈ [(30 : Int), 31] →
      (∀ e ∈ (MotorMagnet.ProcessSpeedInput clock fuel s).trace,
        (∀ p l, e = Event.digitalWrite p l → p = MotorMagnet.relayA) ∧
          ∀ p v, e ≠ Event.analogWrite p v) ∧
      ∀ s1 tr, MotorMagnet.ProcessSpeedInput clock fuel s = .returned s1 tr →
        s1.prevNumber = s.prevNumber ∧ s1.prevPin = s.prevPin ∧
          s1.dataNumber = s.dataNumber ∧ s1.pwmPin = s.pwmPin) ∧
    (atoi (cstr s.receivedChars) ∈ [(20 : Int), 21] →
      (∀ e ∈ (MotorMagnet.ProcessSpeedInput clock fuel s).trace,
        (∀ p l, e = Event.digitalWrite p l → p = MotorMagnet.relayB) ∧
          ∀ p v, e ≠ Event.analogWrite p v) ∧
      ∀ s1 tr, MotorMagnet.ProcessSpeedInput clock fuel s = .returned s1 tr →
        s1.prevNumber = s.prevNumber ∧ s1.prevPin = s.prevPin ∧
          s1.dataNumber = s.dataNumber ∧ s1.pwmPin = s.pwmPin) ∧
    (atoi (cstr s.receivedChars) ≠ -1 → Expires clock s.polls 10000 →
      ∃ fuel0 s1 tr, ∀ fuel1, fuel0 ≤ fuel1 →
        MotorMagnet.ProcessSpeedInput clock fuel1 s = .returned s1 tr) := by
  refine ⟨?_, ?_, ?_, ?_, ?_⟩
  · intro hc
    simp only [List.mem_cons, List.mem_singleton, List.not_mem_nil, or_false] at hc
    rcases hc with h | h | h | h
    · exact MotorMagnet.dual_motor_events clock fuel s 0 6 0 (by decide) hready h
    · exact MotorMagnet.dual_motor_events clock fuel s 1 6 80 (by decide) hready h
    · exact MotorMagnet.dual_motor_events clock fuel s 2 6 90 (by decide) hready h
    · exact MotorMagnet.dual_motor_events clock fuel s 3 6 100 (by decide) hready h
  · intro hc
    simp only [List.mem_cons, List.mem_singleton, List.not_mem_nil, or_false] at hc
    rcases hc with h | h | h | h
    · exact MotorMagnet.dual_motor_events clock fuel s 10 10 0 (by decide) hready h
    · exact MotorMagnet.dual_motor_events clock fuel s 11 10 80 (by decide) hready h
    · exact MotorMagnet.dual_motor_events clock fuel s 12 10 90 (by decide) hready h
    · exact MotorMagnet.dual_motor_events clock fuel s 13 10 100 (by decide) hready h
  · intro hc
    simp only [List.mem_cons, List.mem_singleton, List.not_mem_nil, or_false] at hc
    rcases hc with h | h
    · exact MotorMagnet.dual_magnetOn_events clock fuel s 30 3 "Magnet A - ON" "Magnet A - OFF"
        (by decide) hready h
    · exact MotorMagnet.dual_magnetOff_events clock fuel s 31 3 "Magnet A - OFF"
        (by decide) hready h
  · intro hc
    simp only [List.mem_cons, List.mem_singleton, List.not_mem_nil, or_false] at hc
    rcases hc with h | h
    · exact MotorMagnet.dual_magnetOn_events clock fuel s 20 2 "Magnet B - ON" "Magnet B - OFF"
        (by decide) hready h
    · exact MotorMagnet.dual_magnetOff_events clock fuel s 21 2 "Magnet B - OFF"
        (by decide) hready h
  · intro hline hclock
    exact MotorMagnet.dual_dispatch_total clock s (fun _ => hline) hclock

/-- C19 at work: the pending line "30" with motor B last set to duty 90:
the pulse writes to relay A only and the motor variables stay as they were. -/
theorem dualDispatch_frame_witness :
    (∀ e ∈ (MotorMagnet.ProcessSpeedInput (fun i => 2500 * i) 5
        ⟨⟨51 :: 48 :: List.replicate 30 0, 0, true, []⟩, 0, 10, 10, 12, 90, 90, 7⟩).trace,
      (∀ p l, e = Event.digitalWrite p l → p = MotorMagnet.relayA) ∧
        ∀ p v, e ≠ Event.analogWrite p v) ∧
    ∀ s1 tr, MotorMagnet.ProcessSpeedInput (fun i => 2500 * i) 5
        ⟨⟨51 :: 48 :: List.replicate 30 0, 0, true, []⟩, 0, 10, 10, 12, 90, 90, 7⟩ =
          .returned s1 tr →
      s1.prevNumber = 90 ∧ s1.prevPin = 10 ∧ s1.dataNumber = 90 ∧ s1.pwmPin = 10 :=
  (dualDispatch_frame (fun i => 2500 * i) 5
    ⟨⟨51 :: 48 :: List.replicate 30 0, 0, true, []⟩, 0, 10, 10, 12, 90, 90, 7⟩
    (by decide)).2.2.1 (by decide)

/-! ## Parsing: helper lemmas -/

theorem atoiDigits_mod (cs : List Byte) :
    ∀ acc, atoiDigits cs (acc % 65536) = digitsValue cs acc % 65536 := by
  induction cs with
  | nil => intro acc; rfl
  | cons c cs ih =>
    intro acc
    by_cases hd : 48 ≤ c.val ∧ c.val ≤ 57
    · simp only [atoiDigits, digitsValue, hd, and_self, if_true]
      rw [← ih]
      congr 1
      omega
    · simp only [atoiDigits, digitsValue, hd, if_false]

theorem toInt16_congr (n m : Nat) (h : n % 65536 = m % 65536) : toInt16 n = toInt16 m := by
  unfold toInt16
  rw [h]

/-- The `atoi` of the 16-bit target is the leading-numeric-prefix value of the
line, reduced to 16 bits. -/
theorem atoi_eq_prefixValue (s : List Byte) :
    atoi s = toInt16 ((prefixValue s % 65536).toNat) := by
  unfold atoi prefixValue
  cases hdw : s.dropWhile isSpace with
  | nil => simp [toInt16]
  | cons c cs =>
    simp only []
    have h0 := atoiDigits_mod cs 0
    have h1 := atoiDigits_mod (c :: cs) 0
    simp only [Nat.zero_mod] at h0 h1
    by_cases hm : c = 45
    · simp only [hm, if_true]
      apply toInt16_congr
      rw [h0]
      have hnn : (0 : Int) ≤ (-(digitsValue cs 0 : Int)) % 65536 :=
        Int.emod_nonneg _ (by norm_num)
      have hcast := Int.toNat_of_nonneg hnn
      omega
    · by_cases hp : c = 43
      · subst hp
        have h45 : ¬ ((43 : Byte) = 45) := by decide
        simp only [h45, if_true, if_false]
        apply toInt16_congr
        rw [h0]
        have hnn : (0 : Int) ≤ ((digitsValue cs 0 : Int)) % 65536 :=
          Int.emod_nonneg _ (by norm_num)
        have hcast := Int.toNat_of_nonneg hnn
        omega
      · simp only [hm, hp, if_false]
        apply toInt16_congr
        rw [h1]
        have hnn : (0 : Int) ≤ ((digitsValue (c :: cs) 0 : Int)) % 65536 :=
          Int.emod_nonneg _ (by norm_num)
        have hcast := Int.toNat_of_nonneg hnn
        omega

theorem atoi_congr (l1 l2 : List Byte) (h : prefixValue l1 = prefixValue l2) :
    atoi l1 = atoi l2 := by
  rw [atoi_eq_prefixValue, atoi_eq_prefixValue, h]

theorem digitsValue_noDigit (c : Byte) (cs : List Byte) (h : isDigit c = false) :
    digitsValue (c :: cs) 0 = 0 := by
  have hd : ¬ (48 ≤ c.val ∧ c.val ≤ 57) := by
    simpa [isDigit] using h
  simp only [digitsValue, hd, if_false]

theorem prefixValue_noPrefix (s : List Byte) (h : noNumericPrefix s = true) :
    prefixValue s = 0 := by
  unfold noNumericPrefix at h
  unfold prefixValue
  cases hdw : s.dropWhile isSpace with
  | nil => rfl
  | cons c cs =>
    rw [hdw] at h
    simp only [] at h ⊢
    have hcs : (c = 45 ∨ c = 43) → digitsValue cs 0 = 0 := by
      intro hsign
      rw [if_pos hsign] at h
      cases cs with
      | nil => rfl
      | cons d ds => exact digitsValue_noDigit d ds (by simpa using h)
    by_cases hm : c = 45
    · rw [if_pos hm, hcs (Or.inl hm)]
      rfl
    · by_cases hp : c = 43
      · rw [if_neg hm, if_pos hp, hcs (Or.inr hp)]
        rfl
      · rw [if_neg hm, if_neg hp]
        rw [if_neg (by simp [hm, hp])] at h
        rw [digitsValue_noDigit c cs (by simpa using h)]
        rfl

/-! ## Dispatch by parsed value: helper lemmas -/

theorem Magnet.magnet_same_action (clock : Nat → Nat) (fuel : Nat) (s : Magnet.State)
    (b : List Byte) (ha : atoi (cstr s.receivedChars) = atoi (cstr b)) :
    Outcome.sameActuation Magnet.sameButLine (Magnet.ProcessMagInput clock fuel s)
      (Magnet.ProcessMagInput clock fuel { s with receivedChars := b }) := by
  rcases Bool.eq_false_or_eq_true s.newData with hready | hready
  · by_cases h0 : atoi (cstr s.receivedChars) = 0
    · rw [Magnet.magnet_dispatch_off clock fuel s hready h0,
        Magnet.magnet_dispatch_off clock fuel { s with receivedChars := b } hready
          (ha.symm.trans h0)]
      exact ⟨rfl, rfl⟩
    · by_cases h1 : atoi (cstr s.receivedChars) = 1
      · rw [Magnet.magnet_dispatch_on clock fuel s hready h1,
          Magnet.magnet_dispatch_on clock fuel { s with receivedChars := b } hready
            (ha.symm.trans h1)]
        cases busyWait clock (millis clock s.polls) 10000 fuel (s.polls + 1) with
        | none => exact rfl
        | some p => exact ⟨rfl, rfl⟩
      · by_cases hm : atoi (cstr s.receivedChars) = -1
        · rw [Magnet.magnet_dispatch_reset clock fuel s hready hm,
            Magnet.magnet_dispatch_reset clock fuel { s with receivedChars := b } hready
              (ha.symm.trans hm)]
          exact rfl
        · have hinv : atoi (cstr s.receivedChars) ∉ [(0 : Int), 1, -1] := by simp [h0, h1, hm]
          rw [Magnet.magnet_dispatch_invalid clock fuel s hready hinv,
            Magnet.magnet_dispatch_invalid clock fuel { s with receivedChars := b } hready
              (by rw [← ha]; exact hinv)]
          exact ⟨by simp [Magnet.sameButLine, ha], rfl⟩
  · rw [Magnet.magnet_dispatch_idle clock fuel s hready,
      Magnet.magnet_dispatch_idle clock fuel { s with receivedChars := b } hready]
    exact ⟨rfl, rfl⟩

theorem Motor.single_same_action (clock : Nat → Nat) (fuel : Nat) (s : Motor.State)
    (b : List Byte) (ha : atoi (cstr s.receivedChars) = atoi (cstr b)) :
    Outcome.sameActuation Motor.sameButLine (Motor.ProcessSpeedInput clock fuel s)
      (Motor.ProcessSpeedInput clock fuel { s with receivedChars := b }) := by
  rcases Bool.eq_false_or_eq_true s.newData with hready | hready
  · rcases Motor.single_code_cases (atoi (cstr s.receivedChars)) with ⟨d, hd⟩ | hm | hinv
    · rw [Motor.single_dispatch_tier clock fuel s _ d hd hready rfl,
        Motor.single_dispatch_tier clock fuel { s with receivedChars := b } _ d hd hready
          ha.symm]
      by_cases hc : d = s.prevNumber
      · rw [Motor.single_applySpeed_same clock fuel { s with dataNumber := d } _ hc,
          Motor.single_applySpeed_same clock fuel
            { ({ s with receivedChars := b } : Motor.State) with dataNumber := d } _ hc]
        exact ⟨rfl, rfl⟩
      · cases hw : busyWait clock (millis clock s.polls) 1000 fuel (s.polls + 1) with
        | none =>
          rw [Motor.single_applySpeed_spinning clock fuel { s with dataNumber := d } _ hc hw,
            Motor.single_applySpeed_spinning clock fuel
              { ({ s with receivedChars := b } : Motor.State) with dataNumber := d } _ hc hw]
          exact rfl
        | some p =>
          rw [Motor.single_applySpeed_change clock fuel p { s with dataNumber := d } _ hc hw,
            Motor.single_applySpeed_change clock fuel p
              { ({ s with receivedChars := b } : Motor.State) with dataNumber := d } _ hc hw]
          exact ⟨rfl, rfl⟩
    · rw [Motor.single_dispatch_reset clock fuel s hready hm,
        Motor.single_dispatch_reset clock fuel { s with receivedChars := b } hready
          (ha.symm.trans hm)]
      exact rfl
    · rw [Motor.single_dispatch_invalid clock fuel s hready hinv,
        Motor.single_dispatch_invalid clock fuel { s with receivedChars := b } hready
          (by rw [← ha]; exact hinv)]
      exact ⟨by simp [Motor.sameButLine, ha], rfl⟩
  · rw [Motor.single_dispatch_idle clock fuel s hready,
      Motor.single_dispatch_idle clock fuel { s with receivedChars := b } hready]
    exact ⟨rfl, rfl⟩

theorem MotorMagnet.dual_same_action (clock : Nat → Nat) (fuel : Nat) (s : MotorMagnet.State)
    (b : List Byte) (ha : atoi (cstr s.receivedChars) = atoi (cstr b)) :
    Outcome.sameActuation MotorMagnet.sameButLine (MotorMagnet.ProcessSpeedInput clock fuel s)
      (MotorMagnet.ProcessSpeedInput clock fuel { s with receivedChars := b }) := by
  rcases Bool.eq_false_or_eq_true s.newData with hready | hready
  · rcases MotorMagnet.dual_code_cases (atoi (cstr s.receivedChars)) with
      ⟨pin, duty, hc⟩ | ⟨relay, label, hc⟩ | ⟨relay, l1, l2, hc⟩ | hc | hc
    · rw [MotorMagnet.dual_dispatch_motor clock fuel s _ pin duty hc hready rfl,
        MotorMagnet.dual_dispatch_motor clock fuel { s with receivedChars := b } _ pin duty hc
          hready ha.symm]
      by_cases hsame : duty = s.prevNumber ∧ pin = s.prevPin
      · rw [MotorMagnet.dual_applySpeed_same clock fuel
            { s with
              rcvdNumber := atoi (cstr s.receivedChars), dataNumber := duty, pwmPin := pin }
            _ hsame.1 hsame.2,
          MotorMagnet.dual_applySpeed_same clock fuel
            { ({ s with receivedChars := b } : MotorMagnet.State) with
              rcvdNumber := atoi (cstr s.receivedChars), dataNumber := duty, pwmPin := pin }
            _ hsame.1 hsame.2]
        exact ⟨rfl, rfl⟩
      · cases hw : busyWait clock (millis clock s.polls) 1000 fuel (s.polls + 1) with
        | none =>
          rw [MotorMagnet.dual_applySpeed_spinning clock fuel
              { s with
                rcvdNumber := atoi (cstr s.receivedChars), dataNumber := duty, pwmPin := pin }
              _ hsame hw,
            MotorMagnet.dual_applySpeed_spinning clock fuel
              { ({ s with receivedChars := b } : MotorMagnet.State) with
                rcvdNumber := atoi (cstr s.receivedChars), dataNumber := duty, pwmPin := pin }
              _ hsame hw]
          exact rfl
        | some p =>
          rw [MotorMagnet.dual_applySpeed_change clock fuel p
              { s with
                rcvdNumber := atoi (cstr s.receivedChars), dataNumber := duty, pwmPin := pin }
              _ hsame hw,
            MotorMagnet.dual_applySpeed_change clock fuel p
              { ({ s with receivedChars := b } : MotorMagnet.State) with
                rcvdNumber := atoi (cstr s.receivedChars), dataNumber := duty, pwmPin := pin }
              _ hsame hw]
          exact ⟨rfl, rfl⟩
    · rw [MotorMagnet.dual_dispatch_magnetOff clock fuel s _ relay label hc hready rfl,
        MotorMagnet.dual_dispatch_magnetOff clock fuel { s with receivedChars := b } _ relay
          label hc hready ha.symm]
      exact ⟨rfl, rfl⟩
    · rw [MotorMagnet.dual_dispatch_magnetOn clock fuel s _ relay l1 l2 hc hready rfl,
        MotorMagnet.dual_dispatch_magnetOn clock fuel { s with receivedChars := b } _ relay
          l1 l2 hc hready ha.symm]
      cases busyWait clock (millis clock s.polls) 10000 fuel (s.polls + 1) with
      | none => exact rfl
      | some p => exact ⟨rfl, rfl⟩
    · rw [MotorMagnet.dual_dispatch_reset clock fuel s hready hc,
        MotorMagnet.dual_dispatch_reset clock fuel { s with receivedChars := b } hready
          (ha.symm.trans hc)]
      exact rfl
    · rw [MotorMagnet.dual_dispatch_invalid clock fuel s hready hc,
        MotorMagnet.dual_dispatch_invalid clock fuel { s with receivedChars := b } hready
          (by rw [← ha]; exact hc)]
      exact ⟨by simp [MotorMagnet.sameButLine, ha], rfl⟩
  · rw [MotorMagnet.dual_dispatch_idle clock fuel s hready,
      MotorMagnet.dual_dispatch_idle clock fuel { s with receivedChars := b } hready]
    exact ⟨rfl, rfl⟩

theorem atoi_of_line (l1 l2 : List Byte)
    (h : prefixValue l1 = prefixValue l2 ∨ (noNumericPrefix l1 = true ∧ l2 = [48])) :
    atoi l1 = atoi l2 := by
  rcases h with h | ⟨h1, h2⟩
  · exact atoi_congr l1 l2 h
  · apply atoi_congr
    rw [prefixValue_noPrefix l1 h1, h2]
    rfl

/-! ## Parsing: the claim -/

/-- C14: in each of the three sketches, two states that differ in the pending
line at most are dispatched alike (same way of ending, same pin writes and
holds, and on return the same state but for the line buffer: same last-applied
values, same ready flag) as soon as the two lines have the same
leading-numeric-prefix integer value; in particular a line that is empty or has
no leading numeric prefix, whose value is zero, is dispatched like the
line "0". -/
theorem parseToZero (clock : Nat → Nat) (fuel : Nat) :
    (∀ line, noNumericPrefix line = true → prefixValue line = 0 ∧ atoi line = 0) ∧
    (∀ s s2 : Magnet.State, Magnet.sameButLine s s2 →
      (prefixValue (cstr s.receivedChars) = prefixValue (cstr s2.receivedChars) ∨
        (noNumericPrefix (cstr s.receivedChars) = true ∧ cstr s2.receivedChars = [48])) →
      Outcome.sameActuation Magnet.sameButLine (Magnet.ProcessMagInput clock fuel s)
        (Magnet.ProcessMagInput clock fuel s2)) ∧
    (∀ s s2 : Motor.State, Motor.sameButLine s s2 →
      (prefixValue (cstr s.receivedChars) = prefixValue (cstr s2.receivedChars) ∨
        (noNumericPrefix (cstr s.receivedChars) = true ∧ cstr s2.receivedChars = [48])) →
      Outcome.sameActuation Motor.sameButLine (Motor.ProcessSpeedInput clock fuel s)
        (Motor.ProcessSpeedInput clock fuel s2)) ∧
    (∀ s s2 : MotorMagnet.State, MotorMagnet.sameButLine s s2 →
      (prefixValue (cstr s.receivedChars) = prefixValue (cstr s2.receivedChars) ∨
        (noNumericPrefix (cstr s.receivedChars) = true ∧ cstr s2.receivedChars = [48])) →
      Outcome.sameActuation MotorMagnet.sameButLine
        (MotorMagnet.ProcessSpeedInput clock fuel s)
        (MotorMagnet.ProcessSpeedInput clock fuel s2)) := by
  refine ⟨?_, ?_, ?_, ?_⟩
  · intro line h
    refine ⟨prefixValue_noPrefix line h, ?_⟩
    have := atoi_of_line line [48] (Or.inr ⟨h, rfl⟩)
    rw [this]
    rfl
  · intro s s2 hs hv
    have h := Magnet.magnet_same_action clock fuel s s2.receivedChars (atoi_of_line _ _ hv)
    unfold Magnet.sameButLine at hs
    rw [← hs] at h
    exact h
  · intro s s2 hs hv
    have h := Motor.single_same_action clock fuel s s2.receivedChars (atoi_of_line _ _ hv)
    unfold Motor.sameButLine at hs
    rw [← hs] at h
    exact h
  · intro s s2 hs hv
    have h := MotorMagnet.dual_same_action clock fuel s s2.receivedChars (atoi_of_line _ _ hv)
    unfold MotorMagnet.sameButLine at hs
    rw [← hs] at h
    exact h

/-- C14 at work: in the single-motor sketch running at duty 150, the pending
lines " +x" (no numeric prefix) and "0" both stop the motor; in the dual
sketch the pending lines " 12" and "+12rpm" both drive motor B at duty 90. -/
theorem parseToZero_witness :
    Outcome.sameActuation Motor.sameButLine
      (Motor.ProcessSpeedInput (fun i => 500 * i) 5
        ⟨⟨32 :: 43 :: 120 :: List.replicate 29 0, 0, true, []⟩, 150, 150, 0⟩)
      (Motor.ProcessSpeedInput (fun i => 500 * i) 5
        ⟨⟨48 :: List.replicate 31 0, 0, true, []⟩, 150, 150, 0⟩) ∧
    actuation (Motor.ProcessSpeedInput (fun i => 500 * i) 5
        ⟨⟨32 :: 43 :: 120 :: List.replicate 29 0, 0, true, []⟩, 150, 150, 0⟩).trace =
      [.analogWrite 9 0, .hold 1000, .analogWrite 9 0] ∧
    Outcome.sameActuation MotorMagnet.sameButLine
      (MotorMagnet.ProcessSpeedInput (fun i => 500 * i) 5
        ⟨⟨32 :: 49 :: 50 :: List.replicate 29 0, 0, true, []⟩, 0, 0, 0, 0, 0, 0, 0⟩)
      (MotorMagnet.ProcessSpeedInput (fun i => 500 * i) 5
        ⟨⟨43 :: 49 :: 50 :: 114 :: 112 :: 109 :: List.replicate 26 0, 0, true, []⟩,
          0, 0, 0, 0, 0, 0, 0⟩) :=
  ⟨(parseToZero (fun i => 500 * i) 5).2.2.1 _ _ (by unfold Motor.sameButLine; decide)
      (Or.inr ⟨by decide, by decide⟩),
   by decide,
   (parseToZero (fun i => 500 * i) 5).2.2.2 _ _ (by unfold MotorMagnet.sameButLine; decide)
      (Or.inl (by decide))⟩

/-! ## Reader against the stream: helper lemmas -/

theorem readerAt_data (r : Reader) (cur : List Byte) (b : Byte) (rest : List Byte)
    (hr : ReaderAt r cur) (hs : r.serial = b :: rest) (hb : b ≠ endMarker) :
    ReaderAt (_processString r) (cur ++ [b]) ∧ (_processString r).serial = rest ∧
      (_processString r).newData = r.newData := by
  obtain ⟨hlen, hndx, htake⟩ := hr
  have hk : r.ndx ≤ 31 := by rw [hndx]; omega
  rw [processString_data r b rest hs hb hk]
  refine ⟨⟨by simp [hlen], ?_, ?_⟩, rfl, rfl⟩
  · simp only [List.length_append, List.length_singleton]
    omega
  · show (r.receivedChars.set r.ndx b).take (min (r.ndx + 1) 31) = (cur ++ [b]).take 31
    by_cases hc : cur.length < 31
    · have e1 : r.ndx = cur.length := by omega
      have e2 : min (r.ndx + 1) 31 = r.ndx + 1 := by omega
      rw [e2, take_succ_set _ _ _ (by omega), htake]
      rw [List.take_of_length_le (by omega), List.take_of_length_le (by simp; omega)]
    · have e1 : r.ndx = 31 := by omega
      have e2 : min (r.ndx + 1) 31 = r.ndx := by omega
      rw [e2, take_set_self, htake, List.take_append_of_le_length (by omega)]

theorem readerAt_end (r : Reader) (cur : List Byte) (rest : List Byte)
    (hr : ReaderAt r cur) (hs : r.serial = endMarker :: rest) :
    ReaderAt (clearFlag (_processString r)) [] ∧ (_processString r).serial = rest ∧
      (_processString r).newData = true ∧
      cstr (_processString r).receivedChars = pendingOf cur := by
  obtain ⟨hlen, hndx, htake⟩ := hr
  have hlt : r.ndx < r.receivedChars.length := by rw [hlen, hndx]; omega
  rw [processString_end r rest hs]
  refine ⟨⟨by simp [clearFlag, hlen], rfl, by simp [clearFlag]⟩, rfl, rfl, ?_⟩
  show cstr (r.receivedChars.set r.ndx 0) = pendingOf cur
  rw [List.set_eq_take_append_cons_drop, if_pos hlt, htake, cstr_append_nul]
  rfl

theorem processString_empty (r : Reader) (hs : r.serial = []) : _processString r = r := by
  unfold _processString
  rw [hs]

theorem clearFlag_of_false (r : Reader) (h : r.newData = false) : clearFlag r = r := by
  cases r
  simp only [clearFlag] at h ⊢
  simp [h]

theorem echoes_append (a b : List Event) : echoes (a ++ b) = echoes a ++ echoes b := by
  simp [echoes, List.filterMap_append]

/-! ## Runs against the stream: helper lemmas -/

/-- Safety of a run, for any sketch whose returned tick leaves the reader as
`_processString` made it, flag lowered, and echoes the line it dispatched, if
any: after `n` ticks that returned, the flag is down, `n` bytes (or all) of the
stream are consumed, and the echoes are the complete lines met so far. -/
theorem run_safety {σ : Type} (rd : σ → Reader) (tick : σ → Outcome σ)
    (hS : ∀ s s1 tr, (rd s).newData = false → tick s = .returned s1 tr →
      rd s1 = clearFlag (_processString (rd s)) ∧
        echoes tr = (if (_processString (rd s)).newData = true
          then [cstr (_processString (rd s)).receivedChars] else [])) :
    ∀ (n : Nat) (s s1 : σ) (tr : List Event) (cur remaining : List Byte),
      (rd s).newData = false → (rd s).serial = remaining → ReaderAt (rd s) cur →
      runTicks tick n s = .returned s1 tr →
      (rd s1).newData = false ∧ (rd s1).serial = remaining.drop n ∧
        ReaderAt (rd s1) (curAfter cur (remaining.take n)) ∧
        echoes tr = (completeLinesFrom cur (remaining.take n)).map pendingOf := by
  intro n
  induction n with
  | zero =>
    intro s s1 tr cur remaining hflag hser hat h
    simp only [runTicks] at h
    injection h with h1 h2
    subst h1 h2
    exact ⟨hflag, by simpa using hser, by simpa [curAfter] using hat,
      by simp [completeLinesFrom, echoes]⟩
  | succ n ih =>
    intro s s1 tr cur remaining hflag hser hat h
    cases hl : tick s with
    | reset tr1 => simp only [runTicks, hl] at h; cases h
    | spinning tr1 => simp only [runTicks, hl] at h; cases h
    | returned s2 tr2 =>
      have h' : (runTicks tick n s2).after tr2 = .returned s1 tr := by
        simpa only [runTicks, hl] using h
      cases hr : runTicks tick n s2 with
      | reset tr3 => rw [hr] at h'; cases h'
      | spinning tr3 => rw [hr] at h'; cases h'
      | returned s3 tr3 =>
        rw [hr] at h'
        simp only [Outcome.after] at h'
        injection h' with g1 g2
        subst g1 g2
        obtain ⟨hrd, hecho⟩ := hS s s2 tr2 hflag hl
        cases remaining with
        | nil =>
          have hps := processString_empty (rd s) hser
          rw [hps] at hrd hecho
          rw [clearFlag_of_false _ hflag] at hrd
          rw [hflag] at hecho
          have hflag2 : (rd s2).newData = false := by rw [hrd]; exact hflag
          have := ih s2 s3 tr3 cur [] hflag2 (by rw [hrd]; exact hser) (by rw [hrd]; exact hat) hr
          simp only [List.drop_nil, List.take_nil] at this ⊢
          obtain ⟨a1, a2, a3, a4⟩ := this
          refine ⟨a1, a2, a3, ?_⟩
          rw [echoes_append, a4]
          simpa using hecho
        | cons b rest =>
          by_cases hb : b = endMarker
          · subst hb
            obtain ⟨r1, r2, r3, r4⟩ := readerAt_end (rd s) cur rest hat hser
            rw [r3, r4] at hecho
            have hflag2 : (rd s2).newData = false := by rw [hrd]; rfl
            have := ih s2 s3 tr3 [] rest hflag2 (by rw [hrd]; exact r2) (by rw [hrd]; exact r1) hr
            obtain ⟨a1, a2, a3, a4⟩ := this
            refine ⟨a1, by simpa using a2, by simpa [curAfter] using a3, ?_⟩
            rw [echoes_append, a4]
            simp [completeLinesFrom, hecho]
          · obtain ⟨r1, r2, r3⟩ := readerAt_data (rd s) cur b rest hat hser hb
            have hnd : (_processString (rd s)).newData = false := r3.trans hflag
            rw [hnd] at hecho
            rw [clearFlag_of_false _ hnd] at hrd
            have hflag2 : (rd s2).newData = false := by rw [hrd]; exact hnd
            have := ih s2 s3 tr3 (cur ++ [b]) rest hflag2 (by rw [hrd]; exact r2)
              (by rw [hrd]; exact r1) hr
            obtain ⟨a1, a2, a3, a4⟩ := this
            refine ⟨a1, by simpa using a2, by simpa [curAfter, hb] using a3, ?_⟩
            rw [echoes_append, a4]
            simp [completeLinesFrom, hb] at hecho ⊢
            simp [hecho]

theorem completeLinesFrom_append (a : List Byte) :
    ∀ (cur b : List Byte), completeLinesFrom cur (a ++ b) =
      completeLinesFrom cur a ++ completeLinesFrom (curAfter cur a) b := by
  induction a with
  | nil => intro cur b; simp [completeLinesFrom, curAfter]
  | cons x xs ih =>
    intro cur b
    by_cases hx : x = endMarker
    · simp [completeLinesFrom, curAfter, hx, ih]
    · simp [completeLinesFrom, curAfter, hx, ih]

/-- Before the reader has raised the flag in a tick, the line it is about to
publish is the first complete line of what remains of the stream. -/
theorem pending_is_line (r : Reader) (cur remaining : List Byte)
    (hflag : r.newData = false) (hser : r.serial = remaining) (hat : ReaderAt r cur)
    (hnew : (_processString r).newData = true) :
    cstr (_processString r).receivedChars = pendingOf cur ∧
      cur ∈ completeLinesFrom cur remaining := by
  cases remaining with
  | nil =>
    rw [processString_empty r hser, hflag] at hnew
    cases hnew
  | cons b rest =>
    by_cases hb : b = endMarker
    · subst hb
      obtain ⟨_, _, _, r4⟩ := readerAt_end r cur rest hat hser
      exact ⟨r4, by simp [completeLinesFrom]⟩
    · obtain ⟨_, _, r3⟩ := readerAt_data r cur b rest hat hser hb
      rw [r3, hflag] at hnew
      cases hnew

/-- Liveness of a run, for any sketch whose tick returns, with every large
enough fuel, unless the line it dispatches is the reset command: on a stream
in which no line ahead is a reset command, `n` ticks return, with a result
that does not depend on the fuel. -/
theorem run_returns {σ : Type} (rd : σ → Reader) (tick : Nat → σ → Outcome σ)
    (hS : ∀ fuel s s1 tr, (rd s).newData = false → tick fuel s = .returned s1 tr →
      rd s1 = clearFlag (_processString (rd s)) ∧
        echoes tr = (if (_processString (rd s)).newData = true
          then [cstr (_processString (rd s)).receivedChars] else []))
    (hL : ∀ s, (rd s).newData = false →
      ((_processString (rd s)).newData = true →
        atoi (cstr (_processString (rd s)).receivedChars) ≠ -1) →
      ∃ fuel0 s1 tr, ∀ fuel, fuel0 ≤ fuel → tick fuel s = .returned s1 tr) :
    ∀ (n : Nat) (s : σ) (cur remaining : List Byte),
      (rd s).newData = false → (rd s).serial = remaining → ReaderAt (rd s) cur →
      (∀ l ∈ completeLinesFrom cur remaining, atoi (pendingOf l) ≠ -1) →
      ∃ fuel0 s1 tr, ∀ fuel, fuel0 ≤ fuel → runTicks (tick fuel) n s = .returned s1 tr := by
  intro n
  induction n with
  | zero =>
    intro s cur remaining _ _ _ _
    exact ⟨0, s, [], fun fuel _ => rfl⟩
  | succ n ih =>
    intro s cur remaining hflag hser hat hnr
    have hpre : (_processString (rd s)).newData = true →
        atoi (cstr (_processString (rd s)).receivedChars) ≠ -1 := by
      intro hnew
      obtain ⟨e1, e2⟩ := pending_is_line (rd s) cur remaining hflag hser hat hnew
      rw [e1]
      exact hnr cur e2
    obtain ⟨fuel1, s2, tr2, hf1⟩ := hL s hflag hpre
    have htick := hf1 fuel1 (le_refl _)
    have hone : runTicks (tick fuel1) 1 s = .returned s2 tr2 := by
      rw [runTicks_one]; exact htick
    obtain ⟨a1, a2, a3, _⟩ :=
      run_safety rd (tick fuel1) (hS fuel1) 1 s s2 tr2 cur remaining hflag hser hat hone
    have hnr2 : ∀ l ∈ completeLinesFrom (curAfter cur (remaining.take 1)) (remaining.drop 1),
        atoi (pendingOf l) ≠ -1 := by
      intro l hl
      apply hnr l
      have := completeLinesFrom_append (remaining.take 1) cur (remaining.drop 1)
      rw [List.take_append_drop] at this
      rw [this]
      exact List.mem_append_right _ hl
    obtain ⟨fuel2, s3, tr3, hf2⟩ := ih s2 _ _ a1 a2 a3 hnr2
    refine ⟨max fuel1 fuel2, s3, tr2 ++ tr3, ?_⟩
    intro fuel hfuel
    have h1 := hf1 fuel (le_trans (le_max_left _ _) hfuel)
    have h2 := hf2 fuel (le_trans (le_max_right _ _) hfuel)
    simp only [runTicks, h1, h2, Outcome.after]

/-! ## Ticks of the three sketches: helper lemmas -/

theorem clearFlag_eq (r : Reader) : clearFlag r = { r with newData := false } := rfl

theorem Magnet.magnet_tick_reader (clock : Nat → Nat) (fuel : Nat) (s s1 : Magnet.State)
    (tr : List Event) (h : Magnet.loop clock fuel s = .returned s1 tr) :
    s1.toReader = clearFlag (_processString s.toReader) ∧
      echoes tr = (if (_processString s.toReader).newData = true
        then [cstr (_processString s.toReader).receivedChars] else []) := by
  unfold Magnet.loop at h
  rcases Magnet.magnet_dispatch_shapes clock fuel _ s1 tr h with
    ⟨g, g1, g2⟩ | ⟨g, g1, g2⟩ | ⟨g, p, g1, g2⟩ | ⟨g, g1, g2⟩
  · have g' : (_processString s.toReader).newData = false := g
    rw [g1, g2, g', clearFlag_of_false _ g']
    exact ⟨rfl, rfl⟩
  all_goals
    have g' : (_processString s.toReader).newData = true := g
    rw [g1, g2, g']
    exact ⟨rfl, rfl⟩

theorem Motor.single_tick_reader (clock : Nat → Nat) (fuel : Nat) (s s1 : Motor.State)
    (tr : List Event) (h : Motor.loop clock fuel s = .returned s1 tr) :
    s1.toReader = clearFlag (_processString s.toReader) ∧
      echoes tr = (if (_processString s.toReader).newData = true
        then [cstr (_processString s.toReader).receivedChars] else []) := by
  unfold Motor.loop at h
  rcases Motor.single_dispatch_shapes clock fuel _ s1 tr h with
    ⟨g, g1, g2⟩ | ⟨g, d, _, _, g1, g2⟩ | ⟨g, d, p, _, _, g1, g2⟩ | ⟨g, g1, g2⟩
  · have g' : (_processString s.toReader).newData = false := g
    rw [g1, g2, g', clearFlag_of_false _ g']
    exact ⟨rfl, rfl⟩
  all_goals
    have g' : (_processString s.toReader).newData = true := g
    rw [g1, g2, g']
    exact ⟨rfl, rfl⟩

theorem MotorMagnet.dual_tick_reader (clock : Nat → Nat) (fuel : Nat)
    (s s1 : MotorMagnet.State) (tr : List Event)
    (h : MotorMagnet.loop clock fuel s = .returned s1 tr) :
    s1.toReader = clearFlag (_processString s.toReader) ∧
      echoes tr = (if (_processString s.toReader).newData = true
        then [cstr (_processString s.toReader).receivedChars] else []) := by
  unfold MotorMagnet.loop at h
  rcases MotorMagnet.dual_dispatch_shapes clock fuel _ s1 tr h with
    ⟨g, g1, g2⟩ | ⟨g, _, _, _, _, _, g1, g2⟩ | ⟨g, _, _, _, _, _, _, g1, g2⟩ |
    ⟨g, _, _, _, _, g1, g2⟩ | ⟨g, _, _, _, _, _, _, g1, g2⟩ | ⟨g, g1, g2⟩
  · have g' : (_processString s.toReader).newData = false := g
    rw [g1, g2, g', clearFlag_of_false _ g']
    exact ⟨rfl, rfl⟩
  all_goals
    have g' : (_processString s.toReader).newData = true := g
    rw [g1, g2, g']
    exact ⟨rfl, rfl⟩

theorem Magnet.magnet_tick_total (clock : Nat → Nat) (hlive : Live clock) (s : Magnet.State)
    (hnr : (_processString s.toReader).newData = true →
      atoi (cstr (_processString s.toReader).receivedChars) ≠ -1) :
    ∃ fuel0 s1 tr, ∀ fuel, fuel0 ≤ fuel → Magnet.loop clock fuel s = .returned s1 tr :=
  Magnet.magnet_dispatch_total clock { s with toReader := _processString s.toReader } hnr
    (hlive s.polls)

theorem Motor.single_tick_total (clock : Nat → Nat) (hlive : Live clock) (s : Motor.State)
    (hnr : (_processString s.toReader).newData = true →
      atoi (cstr (_processString s.toReader).receivedChars) ≠ -1) :
    ∃ fuel0 s1 tr, ∀ fuel, fuel0 ≤ fuel → Motor.loop clock fuel s = .returned s1 tr :=
  Motor.single_dispatch_total clock { s with toReader := _processString s.toReader } hnr
    (expires_mono clock s.polls 1000 10000 (by omega) (hlive s.polls))

theorem MotorMagnet.dual_tick_total (clock : Nat → Nat) (hlive : Live clock)
    (s : MotorMagnet.State)
    (hnr : (_processString s.toReader).newData = true →
      atoi (cstr (_processString s.toReader).receivedChars) ≠ -1) :
    ∃ fuel0 s1 tr, ∀ fuel, fuel0 ≤ fuel → MotorMagnet.loop clock fuel s = .returned s1 tr :=
  MotorMagnet.dual_dispatch_total clock { s with toReader := _processString s.toReader } hnr
    (hlive s.polls)

theorem readerAt_initial (bytes : List Byte) :
    ReaderAt ⟨List.replicate numChars 0, 0, false, bytes⟩ [] :=
  ⟨by simp [numChars], rfl, rfl⟩

/-- A generic invariant of runs: a property of the state and of the events so
far that every returned tick keeps is kept by every returned run. -/
theorem run_invariant {σ : Type} (tick : σ → Outcome σ) (I : σ → List Event → Prop)
    (hstep : ∀ s pre s1 tr, I s pre → tick s = .returned s1 tr → I s1 (pre ++ tr)) :
    ∀ (n : Nat) (s s1 : σ) (pre tr : List Event), I s pre →
      runTicks tick n s = .returned s1 tr → I s1 (pre ++ tr) := by
  intro n
  induction n with
  | zero =>
    intro s s1 pre tr hI h
    simp only [runTicks] at h
    injection h with h1 h2
    subst h1 h2
    simpa using hI
  | succ n ih =>
    intro s s1 pre tr hI h
    cases hl : tick s with
    | reset tr1 => simp only [runTicks, hl] at h; cases h
    | spinning tr1 => simp only [runTicks, hl] at h; cases h
    | returned s2 tr2 =>
      have h' : (runTicks tick n s2).after tr2 = .returned s1 tr := by
        simpa only [runTicks, hl] using h
      cases hr : runTicks tick n s2 with
      | reset tr3 => rw [hr] at h'; cases h'
      | spinning tr3 => rw [hr] at h'; cases h'
      | returned s3 tr3 =>
        rw [hr] at h'
        simp only [Outcome.after] at h'
        injection h' with g1 g2
        subst g1 g2
        have := ih s2 s3 (pre ++ tr2) tr3 (hstep s pre s2 tr2 hI hl) hr
        simpa [List.append_assoc] using this

/-! ## Lines and pending strings: helper lemmas -/

theorem atoiDigits_cstr (cs : List Byte) :
    ∀ acc, atoiDigits (cstr cs) acc = atoiDigits cs acc := by
  induction cs with
  | nil => intro acc; rfl
  | cons c cs ih =>
    intro acc
    by_cases hc : c = 0
    · subst hc
      simp [cstr, atoiDigits]
    · have e : cstr (c :: cs) = c :: cstr cs := by
        simp [cstr, List.takeWhile_cons, hc]
      rw [e]
      by_cases hd : 48 ≤ c.val ∧ c.val ≤ 57
      · simp only [atoiDigits, hd, and_self, if_true]
        exact ih _
      · simp only [atoiDigits, hd, if_false]

/-- Cutting a line at its first NUL byte does not change what `atoi` reads in
it: a NUL is neither white space, nor a sign, nor a digit. -/
theorem atoi_cstr (l : List Byte) : atoi (cstr l) = atoi l := by
  induction l with
  | nil => rfl
  | cons c cs ih =>
    by_cases hc : c = 0
    · subst hc
      simp [cstr, atoi, isSpace, atoiDigits, toInt16]
    · have e : cstr (c :: cs) = c :: cstr cs := by
        simp [cstr, List.takeWhile_cons, hc]
      rw [e]
      by_cases hsp : isSpace c = true
      · have e1 : atoi (c :: cstr cs) = atoi (cstr cs) := by
          simp [atoi, List.dropWhile_cons, hsp]
        have e2 : atoi (c :: cs) = atoi cs := by
          simp [atoi, List.dropWhile_cons, hsp]
        rw [e1, e2, ih]
      · have e1 : List.dropWhile isSpace (c :: cstr cs) = c :: cstr cs := by
          simp [List.dropWhile_cons, hsp]
        have e2 : List.dropWhile isSpace (c :: cs) = c :: cs := by
          simp [List.dropWhile_cons, hsp]
        have h3 := atoiDigits_cstr (c :: cs) 0
        rw [e] at h3
        unfold atoi
        rw [e1, e2]
        simp only [atoiDigits_cstr, h3]

theorem completeLinesFrom_length (bytes : List Byte) :
    ∀ cur, (completeLinesFrom cur bytes).length = bytes.count endMarker := by
  induction bytes with
  | nil => intro cur; rfl
  | cons b bs ih =>
    intro cur
    by_cases hb : b = endMarker
    · subst hb
      simp [completeLinesFrom, ih]
    · have hb' : ¬ (b == endMarker) = true := by simpa using hb
      simp [completeLinesFrom, hb, List.count_cons, hb', ih]

theorem pendingOf_line (l : List Byte) :
    atoi (pendingOf l) = atoi (l.take 31) ∧ ((0 : Byte) ∉ l → pendingOf l = l.take 31) := by
  refine ⟨atoi_cstr _, fun h => ?_⟩
  unfold pendingOf cstr
  exact takeWhile_no_nul _ (fun h0 => h (List.mem_of_mem_take h0))

/-- Every call of the dual dispatcher with a line pending echoes that line,
once, however it ends; a call with nothing pending echoes nothing. -/
theorem MotorMagnet.dual_dispatch_echo (clock : Nat → Nat) (fuel : Nat)
    (s : MotorMagnet.State) :
    echoes (MotorMagnet.ProcessSpeedInput clock fuel s).trace =
      (if s.newData = true then [cstr s.receivedChars] else []) := by
  rcases Bool.eq_false_or_eq_true s.newData with hready | hready
  · rw [if_pos hready]
    rcases MotorMagnet.dual_code_cases (atoi (cstr s.receivedChars)) with
      ⟨pin, duty, hc⟩ | ⟨relay, label, hc⟩ | ⟨relay, l1, l2, hc⟩ | hc | hc
    · rw [MotorMagnet.dual_dispatch_motor clock fuel s _ pin duty hc hready rfl]
      by_cases hsame : duty = s.prevNumber ∧ pin = s.prevPin
      · rw [MotorMagnet.dual_applySpeed_same clock fuel
          { s with rcvdNumber := atoi (cstr s.receivedChars), dataNumber := duty, pwmPin := pin }
          _ hsame.1 hsame.2]
        rfl
      · cases hw : busyWait clock (millis clock s.polls) 1000 fuel (s.polls + 1) with
        | none =>
          rw [MotorMagnet.dual_applySpeed_spinning clock fuel
            { s with
              rcvdNumber := atoi (cstr s.receivedChars), dataNumber := duty, pwmPin := pin }
            _ hsame hw]
          rfl
        | some p =>
          rw [MotorMagnet.dual_applySpeed_change clock fuel p
            { s with
              rcvdNumber := atoi (cstr s.receivedChars), dataNumber := duty, pwmPin := pin }
            _ hsame hw]
          rfl
    · rw [MotorMagnet.dual_dispatch_magnetOff clock fuel s _ relay label hc hready rfl]
      rfl
    · rw [MotorMagnet.dual_dispatch_magnetOn clock fuel s _ relay l1 l2 hc hready rfl]
      cases busyWait clock (millis clock s.polls) 10000 fuel (s.polls + 1) <;> rfl
    · rw [MotorMagnet.dual_dispatch_reset clock fuel s hready hc]
      rfl
    · rw [MotorMagnet.dual_dispatch_invalid clock fuel s hready hc]
      rfl
  · rw [MotorMagnet.dual_dispatch_idle clock fuel s hready, hready]
    rfl

/-- A clock that gains 500 ms per poll lets every hold come to an end. -/
theorem live_linear : Live (fun i => 500 * i) := by
  intro polls
  refine ⟨polls + 20, by omega, ?_⟩
  show 10000 ≤ elapsed ((500 * (polls + 20)) % 2 ^ 32) ((500 * polls) % 2 ^ 32)
  rw [elapsed_true _ _ (by omega) (by norm_num; omega)]
  omega

/-! ## One dispatch per line: the claim -/

/-- C15: in the dual sketch, from the initial state on any byte stream. Every
call of the dispatcher with a line pending echoes that line once, and an idle
call echoes nothing. After `k` ticks that returned, the ready flag is false,
exactly `k` bytes of the stream are consumed (all of them once the stream is
exhausted: one byte per tick at most), and the lines echoed, one per dispatch,
are in order the complete lines among the first `k` bytes, each as the reader
publishes it (its first 31 bytes, read as a NUL-terminated string, which
parses as the truncated line does and is the truncated line when it holds no
NUL); a stream has as many complete lines as end markers. When no line of the
stream is a reset command and every hold of the clock comes to an end, any
number of ticks returns, for every large enough fuel. -/
theorem eachLineDispatchedOnce (clock : Nat → Nat) (bytes : List Byte) :
    (∀ fuel s, echoes (MotorMagnet.ProcessSpeedInput clock fuel s).trace =
      (if s.newData = true then [cstr s.receivedChars] else [])) ∧
    (∀ fuel k s tr,
      runTicks (MotorMagnet.loop clock fuel) k (MotorMagnet.initial bytes) = .returned s tr →
      s.newData = false ∧ s.serial = bytes.drop k ∧
        echoes tr = (completeLines (bytes.take k)).map pendingOf) ∧
    (completeLines bytes).length = bytes.count endMarker ∧
    (∀ l, atoi (pendingOf l) = atoi (l.take 31) ∧
      ((0 : Byte) ∉ l → pendingOf l = l.take 31)) ∧
    (Live clock → NoResetCommand bytes →
      ∀ n, ∃ fuel0 s tr, ∀ fuel, fuel0 ≤ fuel →
        runTicks (MotorMagnet.loop clock fuel) n (MotorMagnet.initial bytes) =
          .returned s tr) := by
  refine ⟨MotorMagnet.dual_dispatch_echo clock, ?_, completeLinesFrom_length bytes [],
    pendingOf_line, ?_⟩
  · intro fuel k s tr h
    obtain ⟨a1, a2, _, a4⟩ :=
      run_safety (fun s : MotorMagnet.State => s.toReader) (MotorMagnet.loop clock fuel)
        (fun s s1 tr _ h => MotorMagnet.dual_tick_reader clock fuel s s1 tr h)
        k (MotorMagnet.initial bytes) s tr [] bytes rfl rfl (readerAt_initial bytes) h
    exact ⟨a1, a2, a4⟩
  · intro hlive hnr n
    exact run_returns (fun s : MotorMagnet.State => s.toReader)
      (fun fuel => MotorMagnet.loop clock fuel)
      (fun fuel s s1 tr _ h => MotorMagnet.dual_tick_reader clock fuel s s1 tr h)
      (fun s _ hpre => MotorMagnet.dual_tick_total clock hlive s hpre)
      n (MotorMagnet.initial bytes) [] bytes rfl rfl (readerAt_initial bytes) hnr

/-- C15 at work: the stream "1", end marker, "11", end marker, "2" under a
clock that gains 500 ms per poll: after six ticks the two complete lines have
been echoed, in order, the flag is down and the stream is empty; and any
number of ticks on this stream returns. -/
theorem eachLineDispatchedOnce_witness :
    ((⟨⟨50 :: 49 :: List.replicate 30 0, 1, false, []⟩, 0, 10, 10, 11, 80, 80, 6⟩ :
        MotorMagnet.State).newData = false ∧
      (⟨⟨50 :: 49 :: List.replicate 30 0, 1, false, []⟩, 0, 10, 10, 11, 80, 80, 6⟩ :
        MotorMagnet.State).serial = List.drop 6 [49, 10, 49, 49, 10, 50] ∧
      echoes [.printlnBuf [49], .print "Changing speed ... ", .analogWrite 6 0, .hold 1000,
         .print "Setting motor speed to ... ", .printlnPercent 80, .analogWrite 6 80,
         .printlnBuf [49, 49], .print "Changing speed ... ", .analogWrite 10 0, .hold 1000,
         .print "Setting motor speed to ... ", .printlnPercent 80, .analogWrite 10 80] =
        (completeLines (List.take 6 [49, 10, 49, 49, 10, 50])).map pendingOf) ∧
    ∀ n, ∃ fuel0 s tr, ∀ fuel, fuel0 ≤ fuel →
      runTicks (MotorMagnet.loop (fun i => 500 * i) fuel) n
        (MotorMagnet.initial [49, 10, 49, 49, 10, 50]) = .returned s tr :=
  ⟨(eachLineDispatchedOnce (fun i => 500 * i) [49, 10, 49, 49, 10, 50]).2.1 5 6
      ⟨⟨50 :: 49 :: List.replicate 30 0, 1, false, []⟩, 0, 10, 10, 11, 80, 80, 6⟩
      [.printlnBuf [49], .print "Changing speed ... ", .analogWrite 6 0, .hold 1000,
       .print "Setting motor speed to ... ", .printlnPercent 80, .analogWrite 6 80,
       .printlnBuf [49, 49], .print "Changing speed ... ", .analogWrite 10 0, .hold 1000,
       .print "Setting motor speed to ... ", .printlnPercent 80, .analogWrite 10 80]
      (by decide),
   (eachLineDispatchedOnce (fun i => 500 * i) [49, 10, 49, 49, 10, 50]).2.2.2.2 live_linear
      (by unfold NoResetCommand; decide)⟩

/-! ## Last values written to the pins: helper lemmas -/

/-- In the single-motor sketch a returned tick keeps the recorded duty equal
to the duty last written to the PWM pin, and among the five tier duties. -/
theorem Motor.single_tick_duty (clock : Nat → Nat) (fuel : Nat) (s s1 : Motor.State)
    (pre tr : List Event)
    (hI : lastDutyOn Motor.pwmPin pre = some s.prevNumber ∧
      s.prevNumber ∈ [(0 : Int), 150, 160, 210, 220])
    (h : Motor.loop clock fuel s = .returned s1 tr) :
    lastDutyOn Motor.pwmPin (pre ++ tr) = some s1.prevNumber ∧
      s1.prevNumber ∈ [(0 : Int), 150, 160, 210, 220] := by
  unfold Motor.loop at h
  have happ : lastDutyOn Motor.pwmPin (pre ++ tr) =
      tr.foldl
        (fun acc e =>
          match e with
          | .analogWrite p val => if p = Motor.pwmPin then some val else acc
          | _ => acc)
        (lastDutyOn Motor.pwmPin pre) := by
    unfold lastDutyOn
    rw [List.foldl_append]
  rw [happ, hI.1]
  rcases Motor.single_dispatch_shapes clock fuel _ s1 tr h with
    ⟨_, g1, g2⟩ | ⟨_, d, _, _, g1, g2⟩ | ⟨_, d, p, hd, _, g1, g2⟩ | ⟨_, g1, g2⟩
  · rw [g1, g2]; exact ⟨rfl, hI.2⟩
  · rw [g1, g2]; exact ⟨rfl, hI.2⟩
  · rw [g1, g2]; exact ⟨by simp [List.foldl], hd⟩
  · rw [g1, g2]; exact ⟨rfl, hI.2⟩

theorem lastLevelOn_append (pin : Int) (pre tr : List Event) :
    lastLevelOn pin (pre ++ tr) =
      tr.foldl
        (fun acc e =>
          match e with
          | .digitalWrite p level => if p = pin then some level else acc
          | _ => acc)
        (lastLevelOn pin pre) := by
  unfold lastLevelOn
  rw [List.foldl_append]

/-- In the single-magnet sketch a returned tick leaves the magnet pin at HIGH
if it was there before. -/
theorem Magnet.magnet_tick_level (clock : Nat → Nat) (fuel : Nat) (s s1 : Magnet.State)
    (pre tr : List Event) (hI : lastLevelOn Magnet.digPin pre = some HIGH)
    (h : Magnet.loop clock fuel s = .returned s1 tr) :
    lastLevelOn Magnet.digPin (pre ++ tr) = some HIGH := by
  unfold Magnet.loop at h
  rw [lastLevelOn_append, hI]
  rcases Magnet.magnet_dispatch_shapes clock fuel _ s1 tr h with
    ⟨_, _, g2⟩ | ⟨_, _, g2⟩ | ⟨_, p, _, g2⟩ | ⟨_, _, g2⟩
  all_goals rw [g2]; simp [List.foldl]

/-- In the dual sketch a returned tick leaves both relays at LOW if they were
there before. -/
theorem MotorMagnet.dual_tick_level (clock : Nat → Nat) (fuel : Nat)
    (s s1 : MotorMagnet.State) (pre tr : List Event)
    (hI : lastLevelOn MotorMagnet.relayA pre = some LOW ∧
      lastLevelOn MotorMagnet.relayB pre = some LOW)
    (h : MotorMagnet.loop clock fuel s = .returned s1 tr) :
    lastLevelOn MotorMagnet.relayA (pre ++ tr) = some LOW ∧
      lastLevelOn MotorMagnet.relayB (pre ++ tr) = some LOW := by
  unfold MotorMagnet.loop at h
  rw [lastLevelOn_append, lastLevelOn_append, hI.1, hI.2]
  rcases MotorMagnet.dual_dispatch_shapes clock fuel _ s1 tr h with
    ⟨_, _, g2⟩ | ⟨_, _, _, _, _, _, _, g2⟩ | ⟨_, _, _, _, _, _, _, _, g2⟩ |
    ⟨_, _, relay, _, hm, _, g2⟩ | ⟨_, _, relay, _, _, _, hm, _, g2⟩ | ⟨_, _, g2⟩
  · rw [g2]; exact ⟨rfl, rfl⟩
  · rw [g2]; exact ⟨rfl, rfl⟩
  · rw [g2]; exact ⟨rfl, rfl⟩
  · rw [g2]
    simp only [List.mem_cons, Prod.mk.injEq, List.mem_singleton, List.not_mem_nil,
      or_false] at hm
    rcases hm with hm | hm <;> rw [hm.2.1] <;> exact ⟨rfl, rfl⟩
  · rw [g2]
    simp only [List.mem_cons, Prod.mk.injEq, List.mem_singleton, List.not_mem_nil,
      or_false] at hm
    rcases hm with hm | hm <;> rw [hm.2.1] <;> exact ⟨rfl, rfl⟩
  · rw [g2]; exact ⟨rfl, rfl⟩

/-- In the single-magnet sketch the energized level (LOW) is written only by a
magnet-on dispatch: either the dispatch returned, and its actuator sequence is
LOW, the 10000 ms hold, HIGH; or its hold is still spinning, after LOW. -/
theorem Magnet.magnet_pulse_only (clock : Nat → Nat) (fuel : Nat) (s : Magnet.State)
    (hmem : Event.digitalWrite Magnet.digPin LOW ∈ (Magnet.ProcessMagInput clock fuel s).trace) :
    (∃ s1 tr, Magnet.ProcessMagInput clock fuel s = .returned s1 tr ∧
      actuation tr = [.digitalWrite Magnet.digPin LOW, .hold 10000,
        .digitalWrite Magnet.digPin HIGH]) ∨
    (∃ tr, Magnet.ProcessMagInput clock fuel s = .spinning tr ∧
      actuation tr = [.digitalWrite Magnet.digPin LOW]) := by
  rcases Bool.eq_false_or_eq_true s.newData with hready | hready
  · by_cases h0 : atoi (cstr s.receivedChars) = 0
    · rw [Magnet.magnet_dispatch_off clock fuel s hready h0] at hmem
      simp [Outcome.trace, HIGH, LOW] at hmem
    · by_cases h1 : atoi (cstr s.receivedChars) = 1
      · rw [Magnet.magnet_dispatch_on clock fuel s hready h1]
        cases busyWait clock (millis clock s.polls) 10000 fuel (s.polls + 1) with
        | none => exact Or.inr ⟨_, rfl, rfl⟩
        | some p => exact Or.inl ⟨_, _, rfl, rfl⟩
      · by_cases hm : atoi (cstr s.receivedChars) = -1
        · rw [Magnet.magnet_dispatch_reset clock fuel s hready hm] at hmem
          simp [Outcome.trace] at hmem
        · rw [Magnet.magnet_dispatch_invalid clock fuel s hready (by simp [h0, h1, hm])] at hmem
          simp [Outcome.trace] at hmem
  · rw [Magnet.magnet_dispatch_idle clock fuel s hready] at hmem
    simp [Outcome.trace] at hmem

/-- In the dual sketch the energized level (HIGH) is written to a relay only
by a magnet-on dispatch for that relay: either the dispatch returned, and its
actuator sequence is HIGH, the 10000 ms hold, LOW on the relay; or its hold is
still spinning, after HIGH. -/
theorem MotorMagnet.dual_pulse_only (clock : Nat → Nat) (fuel : Nat) (s : MotorMagnet.State)
    (relay : Int)
    (hmem : Event.digitalWrite relay HIGH ∈ (MotorMagnet.ProcessSpeedInput clock fuel s).trace) :
    (∃ s1 tr, MotorMagnet.ProcessSpeedInput clock fuel s = .returned s1 tr ∧
      actuation tr = [.digitalWrite relay HIGH, .hold 10000, .digitalWrite relay LOW]) ∨
    (∃ tr, MotorMagnet.ProcessSpeedInput clock fuel s = .spinning tr ∧
      actuation tr = [.digitalWrite relay HIGH]) := by
  rcases Bool.eq_false_or_eq_true s.newData with hready | hready
  · rcases MotorMagnet.dual_code_cases (atoi (cstr s.receivedChars)) with
      ⟨pin, duty, hc⟩ | ⟨r, label, hc⟩ | ⟨r, l1, l2, hc⟩ | hc | hc
    · exact absurd rfl
        ((MotorMagnet.dual_motor_events clock fuel s _ pin duty hc hready rfl _ hmem).2 relay HIGH)
    · rw [MotorMagnet.dual_dispatch_magnetOff clock fuel s _ r label hc hready rfl] at hmem
      simp [Outcome.trace, HIGH, LOW] at hmem
    · rw [MotorMagnet.dual_dispatch_magnetOn clock fuel s _ r l1 l2 hc hready rfl] at hmem ⊢
      cases hw : busyWait clock (millis clock s.polls) 10000 fuel (s.polls + 1) with
      | none =>
        rw [hw] at hmem
        have hr : relay = r := by
          simp [Outcome.trace] at hmem
          exact hmem
        subst hr
        exact Or.inr ⟨_, rfl, rfl⟩
      | some p =>
        rw [hw] at hmem
        have hr : relay = r := by
          simp [Outcome.trace, HIGH, LOW] at hmem
          exact hmem
        subst hr
        exact Or.inl ⟨_, _, rfl, rfl⟩
    · rw [MotorMagnet.dual_dispatch_reset clock fuel s hready hc] at hmem
      simp [Outcome.trace] at hmem
    · rw [MotorMagnet.dual_dispatch_invalid clock fuel s hready hc] at hmem
      simp [Outcome.trace] at hmem
  · rw [MotorMagnet.dual_dispatch_idle clock fuel s hready] at hmem
    simp [Outcome.trace] at hmem

/-! ## Pins at rest: the claims -/

/-- C17: on any byte stream, from the state that `setup` establishes. In the
single-magnet sketch, after any number of ticks that returned, the level last
written to the magnet pin (setup included) is HIGH, the de-energized level; in
the dual sketch it is LOW on relay A and on relay B. The energized level is
written only by a magnet-on dispatch, right before its 10000 ms hold: the tick
either returns with the actuator sequence energize, hold 10000, de-energize,
or is still spinning in that hold. When no line of the stream is a reset
command and every hold of the clock comes to an end, any number of ticks
returns, for every large enough fuel. -/
theorem magnetRestsDeenergized (clock : Nat → Nat) (bytes : List Byte) :
    (∀ fuel n s tr,
      runTicks (Magnet.loop clock fuel) n (Magnet.initial bytes) = .returned s tr →
      lastLevelOn Magnet.digPin (Magnet.setup ++ tr) = some HIGH) ∧
    (∀ fuel s, Event.digitalWrite Magnet.digPin LOW ∈ (Magnet.loop clock fuel s).trace →
      (∃ s1 tr, Magnet.loop clock fuel s = .returned s1 tr ∧
        actuation tr = [.digitalWrite Magnet.digPin LOW, .hold 10000,
          .digitalWrite Magnet.digPin HIGH]) ∨
      (∃ tr, Magnet.loop clock fuel s = .spinning tr ∧
        actuation tr = [.digitalWrite Magnet.digPin LOW])) ∧
    (Live clock → NoResetCommand bytes →
      ∀ n, ∃ fuel0 s tr, ∀ fuel, fuel0 ≤ fuel →
        runTicks (Magnet.loop clock fuel) n (Magnet.initial bytes) = .returned s tr) ∧
    (∀ fuel n s tr,
      runTicks (MotorMagnet.loop clock fuel) n (MotorMagnet.initial bytes) = .returned s tr →
      lastLevelOn MotorMagnet.relayA (MotorMagnet.setup ++ tr) = some LOW ∧
        lastLevelOn MotorMagnet.relayB (MotorMagnet.setup ++ tr) = some LOW) ∧
    (∀ fuel s relay, relay ∈ [MotorMagnet.relayA, MotorMagnet.relayB] →
      Event.digitalWrite relay HIGH ∈ (MotorMagnet.loop clock fuel s).trace →
      (∃ s1 tr, MotorMagnet.loop clock fuel s = .returned s1 tr ∧
        actuation tr = [.digitalWrite relay HIGH, .hold 10000, .digitalWrite relay LOW]) ∨
      (∃ tr, MotorMagnet.loop clock fuel s = .spinning tr ∧
        actuation tr = [.digitalWrite relay HIGH])) ∧
    (Live clock → NoResetCommand bytes →
      ∀ n, ∃ fuel0 s tr, ∀ fuel, fuel0 ≤ fuel →
        runTicks (MotorMagnet.loop clock fuel) n (MotorMagnet.initial bytes) =
          .returned s tr) := by
  refine ⟨?_, ?_, ?_, ?_, ?_, ?_⟩
  · intro fuel n s tr h
    exact run_invariant (Magnet.loop clock fuel)
      (fun _ pre => lastLevelOn Magnet.digPin pre = some HIGH)
      (fun s pre s1 tr hI h => Magnet.magnet_tick_level clock fuel s s1 pre tr hI h)
      n (Magnet.initial bytes) s Magnet.setup tr
      (show lastLevelOn Magnet.digPin Magnet.setup = some HIGH by decide) h
  · intro fuel s hmem
    exact Magnet.magnet_pulse_only clock fuel _ hmem
  · intro hlive hnr n
    exact run_returns (fun s : Magnet.State => s.toReader)
      (fun fuel => Magnet.loop clock fuel)
      (fun fuel s s1 tr _ h => Magnet.magnet_tick_reader clock fuel s s1 tr h)
      (fun s _ hpre => Magnet.magnet_tick_total clock hlive s hpre)
      n (Magnet.initial bytes) [] bytes rfl rfl (readerAt_initial bytes) hnr
  · intro fuel n s tr h
    exact run_invariant (MotorMagnet.loop clock fuel)
      (fun _ pre => lastLevelOn MotorMagnet.relayA pre = some LOW ∧
        lastLevelOn MotorMagnet.relayB pre = some LOW)
      (fun s pre s1 tr hI h => MotorMagnet.dual_tick_level clock fuel s s1 pre tr hI h)
      n (MotorMagnet.initial bytes) s MotorMagnet.setup tr
      (show lastLevelOn MotorMagnet.relayA MotorMagnet.setup = some LOW ∧
        lastLevelOn MotorMagnet.relayB MotorMagnet.setup = some LOW by decide) h
  · intro fuel s relay _ hmem
    exact MotorMagnet.dual_pulse_only clock fuel _ relay hmem
  · intro hlive hnr n
    exact run_returns (fun s : MotorMagnet.State => s.toReader)
      (fun fuel => MotorMagnet.loop clock fuel)
      (fun fuel s s1 tr _ h => MotorMagnet.dual_tick_reader clock fuel s s1 tr h)
      (fun s _ hpre => MotorMagnet.dual_tick_total clock hlive s hpre)
      n (MotorMagnet.initial bytes) [] bytes rfl rfl (readerAt_initial bytes) hnr

/-- C17 at work: the stream "1", end marker, "0", end marker in the
single-magnet sketch and "30", end marker in the dual sketch, under a clock
that gains 500 ms per poll: the runs return and leave the magnets
de-energized. -/
theorem magnetRestsDeenergized_witness :
    lastLevelOn Magnet.digPin (Magnet.setup ++
      [.printlnBuf [49], .println "Magnet ON", .digitalWrite 8 LOW, .hold 10000,
       .digitalWrite 8 HIGH, .println "Magnet OFF",
       .printlnBuf [48], .digitalWrite 8 HIGH, .println "Magnet OFF"]) = some HIGH ∧
    (lastLevelOn MotorMagnet.relayA (MotorMagnet.setup ++
      [.printlnBuf [51, 48], .println "Magnet A - ON", .digitalWrite 3 HIGH, .hold 10000,
       .digitalWrite 3 LOW, .println "Magnet A - OFF"]) = some LOW ∧
     lastLevelOn MotorMagnet.relayB (MotorMagnet.setup ++
      [.printlnBuf [51, 48], .println "Magnet A - ON", .digitalWrite 3 HIGH, .hold 10000,
       .digitalWrite 3 LOW, .println "Magnet A - OFF"]) = some LOW) ∧
    (∀ n, ∃ fuel0 s tr, ∀ fuel, fuel0 ≤ fuel →
      runTicks (Magnet.loop (fun i => 500 * i) fuel) n (Magnet.initial [49, 10, 48, 10]) =
        .returned s tr) :=
  ⟨(magnetRestsDeenergized (fun i => 500 * i) [49, 10, 48, 10]).1 25 4
      ⟨⟨48 :: List.replicate 31 0, 0, false, []⟩, 0, 21⟩ _ (by decide),
   (magnetRestsDeenergized (fun i => 500 * i) [51, 48, 10]).2.2.2.1 25 3
      ⟨⟨51 :: 48 :: List.replicate 30 0, 0, false, []⟩, 0, 0, 0, 30, 0, 0, 21⟩ _ (by decide),
   (magnetRestsDeenergized (fun i => 500 * i) [49, 10, 48, 10]).2.2.1 live_linear
      (by unfold NoResetCommand; decide)⟩

/-- C18: in the single-motor sketch, on any byte stream, from the state that
`setup` establishes (duty 0 written, `prevNumber` 0): after any number of ticks
that returned, `prevNumber` is the duty last written to the PWM pin (setup
included), and it is one of 0, 150, 160, 210, 220, hence within 0..255. When
no line of the stream is a reset command and every hold of the clock comes to
an end, any number of ticks returns, for every large enough fuel. -/
theorem lastApplied_matches_hardware (clock : Nat → Nat) (bytes : List Byte) :
    (∀ fuel n s tr,
      runTicks (Motor.loop clock fuel) n (Motor.initial bytes) = .returned s tr →
      lastDutyOn Motor.pwmPin (Motor.setup ++ tr) = some s.prevNumber ∧
        s.prevNumber ∈ [(0 : Int), 150, 160, 210, 220] ∧
        0 ≤ s.prevNumber ∧ s.prevNumber ≤ 255) ∧
    (Live clock → NoResetCommand bytes →
      ∀ n, ∃ fuel0 s tr, ∀ fuel, fuel0 ≤ fuel →
        runTicks (Motor.loop clock fuel) n (Motor.initial bytes) = .returned s tr) := by
  constructor
  · intro fuel n s tr h
    have hI := run_invariant (Motor.loop clock fuel)
      (fun s pre => lastDutyOn Motor.pwmPin pre = some s.prevNumber ∧
        s.prevNumber ∈ [(0 : Int), 150, 160, 210, 220])
      (fun s pre s1 tr hI h => Motor.single_tick_duty clock fuel s s1 pre tr hI h)
      n (Motor.initial bytes) s Motor.setup tr
      (show lastDutyOn Motor.pwmPin Motor.setup = some (0 : Int) ∧
        (0 : Int) ∈ [(0 : Int), 150, 160, 210, 220] by decide) h
    obtain ⟨h1, h2⟩ := hI
    refine ⟨h1, h2, ?_⟩
    simp only [List.mem_cons, List.mem_singleton, List.not_mem_nil, or_false] at h2
    rcases h2 with e | e | e | e | e <;> rw [e] <;> decide
  · intro hlive hnr n
    exact run_returns (fun s : Motor.State => s.toReader)
      (fun fuel => Motor.loop clock fuel)
      (fun fuel s s1 tr _ h => Motor.single_tick_reader clock fuel s s1 tr h)
      (fun s _ hpre => Motor.single_tick_total clock hlive s hpre)
      n (Motor.initial bytes) [] bytes rfl rfl (readerAt_initial bytes) hnr

/-- C18 at work: the stream "2", end marker, "9", end marker, "4", end marker
under a clock that gains 500 ms per poll: after six ticks duty 220 is the last
one written and the one recorded; and any number of ticks returns. -/
theorem lastApplied_matches_hardware_witness :
    (lastDutyOn Motor.pwmPin (Motor.setup ++
      [.printlnBuf [50], .print "Changing speed ... ", .analogWrite 9 0, .hold 1000,
       .print "Setting motor speed to ... ", .printlnPercent 160, .analogWrite 9 160,
       .printlnBuf [57], .println "Invalid input. Please enter a number between 0 and 4.",
       .printlnBuf [52], .print "Changing speed ... ", .analogWrite 9 0, .hold 1000,
       .print "Setting motor speed to ... ", .printlnPercent 220, .analogWrite 9 220]) =
        some (220 : Int)) ∧
    (∀ n, ∃ fuel0 s tr, ∀ fuel, fuel0 ≤ fuel →
      runTicks (Motor.loop (fun i => 500 * i) fuel) n
        (Motor.initial [50, 10, 57, 10, 52, 10]) = .returned s tr) :=
  ⟨((lastApplied_matches_hardware (fun i => 500 * i) [50, 10, 57, 10, 52, 10]).1 5 6
      ⟨⟨52 :: List.replicate 31 0, 0, false, []⟩, 220, 220, 6⟩ _ (by decide)).1,
   (lastApplied_matches_hardware (fun i => 500 * i) [50, 10, 57, 10, 52, 10]).2 live_linear
      (by unfold NoResetCommand; decide)⟩

end NanoStation
